import Mathlib

/-! Shallow embedding of the eBay sync engine of the `wearhouse` repository
(`server.js`): snapshot model, change detector, the pull / push / smart-sync
orchestrators, and the local data layer (the `data` wrapper over the
USE_LOCAL_DB JSON backend).  JavaScript numbers produced by
`parseInt`/`parseFloat` are modeled as `Int` (already parsed); timestamps as
`Nat` (`new Date(0)` is `0`, `a > (b || new Date(0))` is `a > b.getD 0`).
The remote marketplace is modeled through the interface the spec assigns to
it (§6): `createOrUpdateRemoteListing` is an idempotent upsert whose effect
is visible to subsequent fetches.  Failure injection: a fetch-failure flag
models a throwing `getActiveListings`, and two per-SKU failing-write lists
model `RemoteTransportError` (syncItemToEbay) and `LocalStoreError`
(create/update/addHistory). -/

namespace Wearhouse

/-- One history ledger entry (`date` omitted; it is wall-clock only). -/
structure HistoryEntry where
  action : String
  qty : Int
  newTotal : Int
  note : String
deriving Repr, DecidableEq

/-- Stored snapshot of the remote listing state (`takenAt` omitted). -/
structure Snapshot where
  quantity : Int
  price : Int
  title : String
  description : String
  condition : String
deriving Repr, DecidableEq

/-- The `ebaySync` sub-record of a local item. -/
structure EbaySyncInfo where
  snapshot : Option Snapshot
  lastSyncTime : Option Nat
  ebayItemId : Option String
  status : String
deriving Repr, DecidableEq

/-- A local inventory record.  Layout-only fields (itemCode, drawerNumber,
positionNumber, fullLocation, categoryId/Name, itemSpecifics, dateAdded)
are omitted: the sync logic never branches on them.  A JS `null` condition
is modeled as `""`. -/
structure Item where
  sku : String
  price : Int
  currentQty : Int
  description : String
  condition : String
  lastModified : Nat
  lastSyncedQty : Option Int
  ebaySync : Option EbaySyncInfo
  history : List HistoryEntry
deriving Repr, DecidableEq

/-- A remote listing as parsed by `getActiveListings` (itemId, sku, title,
price, quantity; the parser emits no description/condition field, so
`ebayItem.description` and `ebayItem.condition` are `undefined` at every
use site and their `|| fallback`s always take the fallback). -/
structure EbayItem where
  itemId : String
  sku : String
  quantity : Int
  price : Int
  title : String
deriving Repr, DecidableEq

/-- `ebayItem.sku || ebayItem.itemId` — the pairing key. -/
def ebayKey (e : EbayItem) : String :=
  if e.sku = "" then e.itemId else e.sku

/-- `captureEbaySnapshot`: `parseInt(q) || 0` and `parseFloat(p) || 0` are
the identity on already-parsed integers; `ebayItem.description || ''` and
`ebayItem.condition || ''` are `""` (the parsed listing has no such
fields). -/
def captureEbaySnapshot (e : EbayItem) : Snapshot :=
  { quantity := e.quantity
    price := e.price
    title := e.title
    description := ""
    condition := "" }

/-- `captureLocalSnapshot`: snapshot taken from the local record itself
(`title` is the local `description`). -/
def captureLocalSnapshot (it : Item) : Snapshot :=
  { quantity := it.currentQty
    price := it.price
    title := it.description
    description := it.description
    condition := it.condition }

/-- One change descriptor produced by `detectEbayChanges`. -/
inductive EbayChange where
  | all
  | quantity (o n : Int)
  | price (o n : Int)
  | title (o n : String)
deriving Repr, DecidableEq

/-- `detectEbayChanges`: the no-snapshot sentinel, else one descriptor per
tracked field whose live remote value differs from the snapshot value. -/
def detectEbayChanges (e : EbayItem) (snap : Option Snapshot) : List EbayChange :=
  match snap with
  | none => [.all]
  | some s =>
      (if e.quantity ≠ s.quantity then [.quantity s.quantity e.quantity] else []) ++
      (if e.price ≠ s.price then [.price s.price e.price] else []) ++
      (if e.title ≠ s.title then [.title s.title e.title] else [])

/-- `createLocalItemFromEbay` (layout fields dropped; `now` stands for the
`new Date()` calls). -/
def createLocalItemFromEbay (now : Nat) (e : EbayItem) : Item :=
  let sku := ebayKey e
  { sku := sku
    price := e.price
    currentQty := e.quantity
    description := if e.title = "" then "eBay Item " ++ sku else e.title
    condition := ""
    lastModified := now
    lastSyncedQty := some e.quantity
    ebaySync := some
      { snapshot := some (captureEbaySnapshot e)
        lastSyncTime := some now
        ebayItemId := if e.itemId = "" then none else some e.itemId
        status := "synced" }
    history := [{ action := "EBAY_IMPORT"
                  qty := e.quantity
                  newTotal := e.quantity
                  note := "Imported from eBay listing" }] }

/-- The whole mutable world a sync call runs against: the local store, the
remote service state, and the injected failure sets. -/
structure World where
  store : List Item
  remote : List EbayItem
  fetchFails : Bool
  remoteWriteFails : List String
  localFails : List String
deriving Repr, DecidableEq

/-- `data.getItem` on the keyed store. -/
def getItem (store : List Item) (sku : String) : Option Item :=
  store.find? (fun it => it.sku = sku)

/-- `data.updateItem sku updates` — `Object.assign` on the matching record;
both backends also stamp `lastModified` at the call, which the caller-side
transformation `f` includes. -/
def updStore (store : List Item) (sku : String) (f : Item → Item) : List Item :=
  store.map (fun it => if it.sku = sku then f it else it)

/-- `data.addHistory sku entry` — push onto the matching record's ledger. -/
def addHistory (store : List Item) (sku : String) (en : HistoryEntry) : List Item :=
  updStore store sku (fun it => { it with history := it.history ++ [en] })

/-- JS object insertion: assigning an existing key keeps its position and
replaces the value, a new key is appended. -/
def objInsert (m : List (String × EbayItem)) (k : String) (v : EbayItem) :
    List (String × EbayItem) :=
  if m.any (fun p => p.1 = k) then
    m.map (fun p => if p.1 = k then (k, v) else p)
  else m ++ [(k, v)]

/-- `ebayInventory[sku] = item` accumulation over the fetched listing set. -/
def buildEbayInventory (items : List EbayItem) : List (String × EbayItem) :=
  items.foldl (fun m e => objInsert m (ebayKey e) e) []

/-- Lookup in a built JS-object map. -/
def objGet (m : List (String × EbayItem)) (k : String) : Option EbayItem :=
  (m.find? (fun p => p.1 = k)).map Prod.snd

/-- Effect of `syncItemToEbay` on the remote service, per the spec's §6
collaborator contract (idempotent upsert).  The Trading payload carries
`Quantity` and `Description` (the product title/description both come from
`Description || fallback`); no price field is sent by `syncItemToEbay`, so
a freshly created listing carries price 0 until set elsewhere. -/
def syncUpsert (remote : List EbayItem) (sku : String) (qty : Int) (desc : String) :
    List EbayItem :=
  let title := if desc = "" then "Item " ++ sku else desc
  if remote.any (fun e => ebayKey e = sku) then
    remote.map (fun e => if ebayKey e = sku then { e with quantity := qty, title := title } else e)
  else
    remote ++ [{ itemId := "", sku := sku, quantity := qty, price := 0, title := title }]

/-! ## Pull (eBay → Local) -/

/-- The `updates` object accumulated by pull's per-field loop. -/
structure PullUpdates where
  price : Option Int := none
  description : Option String := none
  currentQty : Option Int := none
deriving Repr, DecidableEq

/-- `Object.keys(updates).length > 0`. -/
def PullUpdates.nonEmpty (u : PullUpdates) : Bool :=
  u.price.isSome || u.description.isSome || u.currentQty.isSome

/-- One aggregate-result outcome of pull's per-item pass. -/
inductive PullOutcome where
  | createdOut (sku : String)
  | updatedOut (sku : String) (fields : List String)
  | skippedOut (sku reason : String)
  | errorOut (sku msg : String)
deriving Repr, DecidableEq

/-- Pull's aggregate result. -/
structure PullResults where
  created : List String
  updated : List (String × List String)
  skipped : List (String × String)
  errors : List (String × String)
deriving Repr, DecidableEq

def PullResults.add (r : PullResults) : PullOutcome → PullResults
  | .createdOut s => { r with created := r.created ++ [s] }
  | .updatedOut s fs => { r with updated := r.updated ++ [(s, fs)] }
  | .skippedOut s reason => { r with skipped := r.skipped ++ [(s, reason)] }
  | .errorOut s m => { r with errors := r.errors ++ [(s, m)] }

def emptyPullResults : PullResults :=
  { created := [], updated := [], skipped := [], errors := [] }

/-- Pull's per-changed-field loop over the descriptors, for a record that
has a stored snapshot `s`.  Threads the store (the sale branch appends an
`EBAY_SALE` ledger entry via `data.addHistory`, which can throw), the
accumulated `updates` object and `changedFields`; a thrown local write
aborts the rest of the loop and surfaces as the item's error. -/
def pullScan (li : Item) (s : Snapshot) (lastSyncTime : Option Nat)
    (e : EbayItem) (sku : String) (localFails : List String) :
    List EbayChange → List Item → PullUpdates → List String →
    (List Item × PullUpdates × List String × Option String)
  | [], store, u, fs => (store, u, fs, none)
  | c :: rest, store, u, fs =>
    match c with
    | .all =>
        let u' := { u with
          price := some (if e.price = 0 then li.price else e.price)
          description := some (if e.title = "" then li.description else e.title) }
        pullScan li s lastSyncTime e sku localFails rest store u' (fs ++ ["price", "title"])
    | .quantity _ n =>
        if li.currentQty ≠ s.quantity then
          -- both changed: newest wins; on a remote win only price/title are
          -- assigned, so quantity lands in changedFields with no update
          if li.lastModified > lastSyncTime.getD 0 then
            pullScan li s lastSyncTime e sku localFails rest store u fs
          else
            pullScan li s lastSyncTime e sku localFails rest store u (fs ++ ["quantity"])
        else
          -- local silent: sale detection on a decrease
          let oldQty := s.quantity
          if n < oldQty then
            let sold := oldQty - n
            let newCur := max 0 (li.currentQty - sold)
            let u' := { u with currentQty := some newCur }
            if sku ∈ localFails then (store, u', fs, some "local write failed")
            else
              let store' := addHistory store sku
                { action := "EBAY_SALE", qty := -sold, newTotal := newCur
                  note := "sold on eBay (detected during pull)" }
              pullScan li s lastSyncTime e sku localFails rest store' u' (fs ++ ["quantity"])
          else
            pullScan li s lastSyncTime e sku localFails rest store u (fs ++ ["quantity"])
    | .price _ n =>
        if li.price ≠ s.price then
          if li.lastModified > lastSyncTime.getD 0 then
            pullScan li s lastSyncTime e sku localFails rest store u fs
          else
            pullScan li s lastSyncTime e sku localFails rest store
              { u with price := some n } (fs ++ ["price"])
        else
          pullScan li s lastSyncTime e sku localFails rest store
            { u with price := some n } (fs ++ ["price"])
    | .title _ n =>
        if li.description ≠ s.title then
          if li.lastModified > lastSyncTime.getD 0 then
            pullScan li s lastSyncTime e sku localFails rest store u fs
          else
            pullScan li s lastSyncTime e sku localFails rest store
              { u with description := some n } (fs ++ ["title"])
        else
          pullScan li s lastSyncTime e sku localFails rest store
            { u with description := some n } (fs ++ ["title"])

/-- The merged `data.updateItem(sku, updates)` written at the end of pull's
per-item pass: the accumulated field updates plus the refreshed snapshot,
`lastSyncTime`, `lastSyncedQty` (`parseInt(q) || localItem.currentQty`) and
the backend's `lastModified` stamp. -/
def applyPullUpdates (now : Nat) (e : EbayItem) (u : PullUpdates) (it : Item) : Item :=
  { it with
    price := u.price.getD it.price
    description := u.description.getD it.description
    currentQty := u.currentQty.getD it.currentQty
    ebaySync := some
      { snapshot := some (captureEbaySnapshot e)
        lastSyncTime := some now
        ebayItemId := some e.itemId
        status := "synced" }
    lastSyncedQty := some (if e.quantity = 0 then it.currentQty else e.quantity)
    lastModified := now }

/-- Bootstrap updates for the no-snapshot sentinel: accept remote price and
title (`parseFloat(p) || localItem.price`, `title || localItem.description`);
`currentQty` is not assigned. -/
def bootstrapUpdates (e : EbayItem) (li : Item) : PullUpdates :=
  { price := some (if e.price = 0 then li.price else e.price)
    description := some (if e.title = "" then li.description else e.title)
    currentQty := none }

/-- One iteration of pull's per-item loop (the `try` body plus its
`catch`). -/
def pullStep (now : Nat) (w : World) (e : EbayItem) : World × PullOutcome :=
  let sku := ebayKey e
  match getItem w.store sku with
  | none =>
      if sku ∈ w.localFails then (w, .errorOut sku "local write failed")
      else ({ w with store := w.store ++ [createLocalItemFromEbay now e] }, .createdOut sku)
  | some li =>
      let snap := li.ebaySync.bind EbaySyncInfo.snapshot
      let lst := li.ebaySync.bind EbaySyncInfo.lastSyncTime
      match snap with
      | none =>
          -- detectEbayChanges returns the `all` sentinel; updates are the
          -- bootstrap accepts (always a non-empty update object)
          if sku ∈ w.localFails then (w, .errorOut sku "local write failed")
          else
            ({ w with store := updStore w.store sku (applyPullUpdates now e (bootstrapUpdates e li)) },
             .updatedOut sku ["price", "title"])
      | some s =>
          let changes := detectEbayChanges e (some s)
          if changes = [] then (w, .skippedOut sku "No eBay changes")
          else
            match pullScan li s lst e sku w.localFails changes w.store {} [] with
            | (store', _, _, some msg) => ({ w with store := store' }, .errorOut sku msg)
            | (store', u, fs, none) =>
                if u.nonEmpty then
                  if sku ∈ w.localFails then ({ w with store := store' }, .errorOut sku "local write failed")
                  else
                    ({ w with store := updStore store' sku (applyPullUpdates now e u) },
                     .updatedOut sku fs)
                else ({ w with store := store' }, .skippedOut sku "Local changes are newer")

def pullLoop (now : Nat) : List EbayItem → World → PullResults → World × PullResults
  | [], w, r => (w, r)
  | e :: rest, w, r =>
      let p := pullStep now w e
      pullLoop now rest p.1 (r.add p.2)

/-- `pullFromEbay`: a failing (or error-reporting) `getActiveListings`
makes the whole call throw (`none`); otherwise one pass over the fetched
items. -/
def pullFromEbay (now : Nat) (w : World) : Option (World × PullResults) :=
  if w.fetchFails then none
  else some (pullLoop now w.remote w emptyPullResults)

/-! ## Push (Local → eBay) -/

/-- One skip reason contributed by a change descriptor in push's
should-we-push check (`null` localValue for `title` makes its
`localChangedSinceSync` and `localValue !== change.new` both true). -/
def pushChangeReason (fullItem : Item) (s : Snapshot) (lst : Option Nat) :
    EbayChange → Option String
  | .all => none
  | .quantity _ n =>
      let lv := fullItem.currentQty
      if lv = s.quantity then
        if lv ≠ n then some "eBay has newer quantity" else none
      else
        if lv ≠ n ∧ ¬ fullItem.lastModified > lst.getD 0 then
          some "eBay quantity is newer"
        else none
  | .price _ n =>
      let lv := fullItem.price
      if lv = s.price then
        if lv ≠ n then some "eBay has newer price" else none
      else
        if lv ≠ n ∧ ¬ fullItem.lastModified > lst.getD 0 then
          some "eBay price is newer"
        else none
  | .title _ _ =>
      if ¬ fullItem.lastModified > lst.getD 0 then some "eBay title is newer"
      else none

/-- The sync-tracking `data.updateItem` written after a successful
`syncItemToEbay` in push's create and push paths (and smart sync's export
path): refreshed local snapshot, `lastSyncTime`, `lastSyncedQty`, plus the
backend's `lastModified` stamp. -/
def pushSyncUpdate (now : Nat) (fullItem : Item) (it : Item) : Item :=
  { it with
    lastSyncedQty := some fullItem.currentQty
    ebaySync := some
      { snapshot := some (captureLocalSnapshot fullItem)
        lastSyncTime := some now
        ebayItemId := none
        status := "synced" }
    lastModified := now }

inductive PushOutcome where
  | pushedOut (sku : String)
  | createdOut (sku : String)
  | skippedOut (sku reason : String)
  | errorOut (sku msg : String)
deriving Repr, DecidableEq

structure PushResults where
  pushed : List String
  skipped : List (String × String)
  created : List String
  errors : List (String × String)
deriving Repr, DecidableEq

def PushResults.add (r : PushResults) : PushOutcome → PushResults
  | .pushedOut s => { r with pushed := r.pushed ++ [s] }
  | .createdOut s => { r with created := r.created ++ [s] }
  | .skippedOut s reason => { r with skipped := r.skipped ++ [(s, reason)] }
  | .errorOut s m => { r with errors := r.errors ++ [(s, m)] }

def emptyPushResults : PushResults :=
  { pushed := [], skipped := [], created := [], errors := [] }

/-- The shared tail of push's create and push paths: `syncItemToEbay`
(remote upsert, may throw) followed by the sync-tracking local update (may
throw); a success reports `ok`. -/
def pushWrite (now : Nat) (w : World) (fullItem : Item) (ok : PushOutcome) :
    World × Option PushOutcome :=
  let sku := fullItem.sku
  if sku ∈ w.remoteWriteFails then (w, some (.errorOut sku "remote write failed"))
  else
    let w₁ := { w with remote := syncUpsert w.remote sku fullItem.currentQty fullItem.description }
    if sku ∈ w.localFails then (w₁, some (.errorOut sku "local write failed"))
    else ({ w₁ with store := updStore w₁.store sku (pushSyncUpdate now fullItem) }, some ok)

/-- One iteration of push's per-item loop; `none` is the silent
`if (!fullItem) continue`. -/
def pushStep (now : Nat) (ebayInv : List (String × EbayItem)) (w : World) (it : Item) :
    World × Option PushOutcome :=
  let sku := it.sku
  match getItem w.store sku with
  | none => (w, none)
  | some fullItem =>
      match objGet ebayInv sku with
      | none => pushWrite now w fullItem (.createdOut sku)
      | some ebayItem =>
          let snap := fullItem.ebaySync.bind EbaySyncInfo.snapshot
          let lst := fullItem.ebaySync.bind EbaySyncInfo.lastSyncTime
          let changes := detectEbayChanges ebayItem snap
          let reasons :=
            match snap with
            | none => []
            | some s => changes.filterMap (pushChangeReason fullItem s lst)
          if reasons ≠ [] ∧ reasons.length ≥ changes.length then
            (w, some (.skippedOut sku (String.intercalate ", " reasons)))
          else pushWrite now w fullItem (.pushedOut sku)

def pushLoop (now : Nat) (ebayInv : List (String × EbayItem)) :
    List Item → World → PushResults → World × PushResults
  | [], w, r => (w, r)
  | it :: rest, w, r =>
      let p := pushStep now ebayInv w it
      pushLoop now ebayInv rest p.1 (match p.2 with | none => r | some o => r.add o)

/-- The `ebayInventory` object push and smart sync build: empty when the
fetch throws (the failure is swallowed by their try/catch). -/
def smartInv (w : World) : List (String × EbayItem) :=
  if w.fetchFails then [] else buildEbayInventory w.remote

/-- `pushToEbay`: the comparison fetch is wrapped in try/catch, so a
failing fetch leaves `ebayInventory` empty instead of aborting. -/
def pushToEbay (now : Nat) (w : World) : World × PushResults :=
  pushLoop now (smartInv w) w.store w emptyPushResults

/-! ## Smart Sync (two-way with sales detection) -/

structure SmartResults where
  imported : List (String × String)
  exported : List (String × String)
  updated : List (String × Int × Int)
  sales : List (String × Int × Int)
  errors : List (String × String)
deriving Repr, DecidableEq

def emptySmartResults : SmartResults :=
  { imported := [], exported := [], updated := [], sales := [], errors := [] }

/-- The local update closing a paired item's pass: reconciled quantity,
`lastSyncedQty`, and a wholesale-replaced snapshot taken from the local
record carrying the reconciled quantity. -/
def smartUpdate (now : Nat) (fullItem : Item) (finalQty : Int) (e : EbayItem)
    (it : Item) : Item :=
  { it with
    currentQty := finalQty
    lastSyncedQty := some finalQty
    ebaySync := some
      { snapshot := some (captureLocalSnapshot { fullItem with currentQty := finalQty })
        lastSyncTime := some now
        ebayItemId := some e.itemId
        status := "synced" }
    lastModified := now }

/-- Tail of a paired item's pass after sale detection: `syncItemToEbay`
with the reconciled quantity, then the local snapshot refresh, then the
`updated` entry. -/
def smartApplyPair (now : Nat) (sku : String) (e : EbayItem) (fullItem : Item)
    (finalQty sold : Int) (w : World) (res : SmartResults) : World × SmartResults :=
  if sku ∈ w.remoteWriteFails then
    (w, { res with errors := res.errors ++ [(sku, "remote write failed")] })
  else
    let w₁ := { w with remote := syncUpsert w.remote sku finalQty fullItem.description }
    if sku ∈ w.localFails then
      (w₁, { res with errors := res.errors ++ [(sku, "local write failed")] })
    else
      ({ w₁ with store := updStore w₁.store sku (smartUpdate now fullItem finalQty e) },
       { res with updated := res.updated ++ [(sku, finalQty, sold)] })

/-- The `try` body of smart sync's paired loop: three-tier baseline
(`snapshot?.quantity ?? lastSyncedQty ?? currentQty`), sale detection with
ledger append, then the shared apply tail. -/
def smartPairBody (now : Nat) (sku : String) (e : EbayItem) (fullItem : Item)
    (w : World) (res : SmartResults) : World × SmartResults :=
  let snap := fullItem.ebaySync.bind EbaySyncInfo.snapshot
  let snapshotQty :=
    match snap with
    | some s => s.quantity
    | none => fullItem.lastSyncedQty.getD fullItem.currentQty
  let ebayQty := e.quantity
  let localQty := fullItem.currentQty
  if ebayQty < snapshotQty then
    let sold := snapshotQty - ebayQty
    let finalQty := max 0 (localQty - sold)
    if sku ∈ w.localFails then
      (w, { res with errors := res.errors ++ [(sku, "local write failed")] })
    else
      let en : HistoryEntry :=
        { action := "EBAY_SALE", qty := -sold, newTotal := finalQty
          note := "sold on eBay (detected during sync)" }
      let w₁ := { w with store := addHistory w.store sku en }
      let res₁ := { res with sales := res.sales ++ [(sku, sold, finalQty)] }
      smartApplyPair now sku e fullItem finalQty sold w₁ res₁
  else smartApplyPair now sku e fullItem localQty 0 w res

/-- Step 3: items present on both sides, iterated in `ebayInventory` order;
`localItems` is the stale list captured before the loop (the `localMap`),
while the body re-reads the live store. -/
def smartPairLoop (now : Nat) (localItems : List Item) :
    List (String × EbayItem) → World → List String → SmartResults →
    World × List String × SmartResults
  | [], w, ps, res => (w, ps, res)
  | (sku, e) :: rest, w, ps, res =>
      match localItems.find? (fun it => it.sku = sku) with
      | none => smartPairLoop now localItems rest w ps res
      | some _ =>
          let ps' := ps ++ [sku]
          match getItem w.store sku with
          | none => smartPairLoop now localItems rest w ps' res
          | some fullItem =>
              let p := smartPairBody now sku e fullItem w res
              smartPairLoop now localItems rest p.1 ps' p.2

/-- Step 4: eBay-only items are imported locally. -/
def smartImportLoop (now : Nat) (ps : List String) :
    List (String × EbayItem) → World → SmartResults → World × SmartResults
  | [], w, res => (w, res)
  | (sku, e) :: rest, w, res =>
      if sku ∈ ps then smartImportLoop now ps rest w res
      else if sku ∈ w.localFails then
        smartImportLoop now ps rest w
          { res with errors := res.errors ++ [(sku, "Import failed: local write failed")] }
      else
        smartImportLoop now ps rest
          { w with store := w.store ++ [createLocalItemFromEbay now e] }
          { res with imported := res.imported ++ [(sku, e.title)] }

/-- Step 5: local-only items are exported (created remotely). -/
def smartExportLoop (now : Nat) (inv : List (String × EbayItem)) (ps : List String) :
    List Item → World → SmartResults → World × SmartResults
  | [], w, res => (w, res)
  | it :: rest, w, res =>
      if it.sku ∈ ps then smartExportLoop now inv ps rest w res
      else if (objGet inv it.sku).isSome then smartExportLoop now inv ps rest w res
      else
        match getItem w.store it.sku with
        | none => smartExportLoop now inv ps rest w res
        | some fullItem =>
            if it.sku ∈ w.remoteWriteFails then
              smartExportLoop now inv ps rest w
                { res with errors := res.errors ++ [(it.sku, "Export failed: remote write failed")] }
            else
              let w₁ := { w with remote := syncUpsert w.remote it.sku fullItem.currentQty fullItem.description }
              if it.sku ∈ w.localFails then
                smartExportLoop now inv ps rest w₁
                  { res with errors := res.errors ++ [(it.sku, "Export failed: local write failed")] }
              else
                smartExportLoop now inv ps rest
                  { w₁ with store := updStore w₁.store it.sku (pushSyncUpdate now fullItem) }
                  { res with exported := res.exported ++ [(it.sku, fullItem.description)] }

/-- `smartSyncAll`: fetch once (failure swallowed → empty inventory), pair
by SKU, then the three passes. -/
def smartSyncAll (now : Nat) (w : World) : World × SmartResults :=
  let inv := smartInv w
  let localItems := w.store
  let q := smartPairLoop now localItems inv w [] emptySmartResults
  let q₂ := smartImportLoop now q.2.1 inv q.1 q.2.2
  smartExportLoop now inv q.2.1 localItems q₂.1 q₂.2

/-! ## Derived spec-level predicates -/

/-- The ledger-vs-quantity consistency invariant: the `newTotal` of the last
history entry (when any) equals the record's `currentQty`. -/
def Ledgered (it : Item) : Prop :=
  ∀ en, it.history.getLast? = some en → en.newTotal = it.currentQty

instance : DecidablePred Ledgered := fun it =>
  match h : it.history.getLast? with
  | none => isTrue (by intro en hen; rw [h] at hen; cases hen)
  | some en =>
      if hq : en.newTotal = it.currentQty then
        isTrue (by intro en' hen'; rw [h] at hen'; cases hen'; exact hq)
      else isFalse (fun hl => hq (hl en h))

/-- Append-only evolution of a store: no record is dropped or reordered, the
records in the old positions keep their SKU, and each one's history is the
old history plus a (possibly empty) appended tail. -/
def HistExtends (old new : List Item) : Prop :=
  old.length ≤ new.length ∧
  ∀ i (h1 : i < old.length) (h2 : i < new.length),
    (new.get ⟨i, h2⟩).sku = (old.get ⟨i, h1⟩).sku ∧
    ∃ tl, (new.get ⟨i, h2⟩).history = (old.get ⟨i, h1⟩).history ++ tl

/-- Remote lookup by pairing key. -/
def remoteAt (remote : List EbayItem) (k : String) : Option EbayItem :=
  remote.find? (fun e => ebayKey e = k)

/-! ## Concrete fixtures for the counterexamples and witnesses -/

/-- Snapshot quantity 10 at price 5. -/
def cxSnapA : Snapshot := ⟨10, 5, "W", "W", ""⟩

/-- Paired record whose local quantity (9) differs from the snapshot
quantity (10) and whose local edit is newer than the last sync. -/
def cxC1Item : Item :=
  ⟨"A", 5, 9, "W", "", 6, some 10, some ⟨some cxSnapA, some 5, some "I", "synced"⟩,
   [⟨"CREATE", 10, 10, ""⟩]⟩

def cxC1Ebay : EbayItem := ⟨"I", "A", 7, 5, "W"⟩

def cxC1World : World := ⟨[cxC1Item], [cxC1Ebay], false, [], []⟩

/-- Paired record with local quantity 6 against snapshot quantity 8 and a
last-sync time newer than the local edit. -/
def cxC3Item : Item :=
  ⟨"B", 5, 6, "W", "", 4, some 8, some ⟨some ⟨8, 5, "W", "W", ""⟩, some 5, some "I", "synced"⟩,
   [⟨"CREATE", 6, 6, ""⟩]⟩

def cxC3Ebay : EbayItem := ⟨"I", "B", 5, 5, "W"⟩

def cxC3World : World := ⟨[cxC3Item], [cxC3Ebay], false, [], []⟩

/-- Conflict-tie fixture: both sides changed the price since the snapshot
(local 12, remote 11, snapshot 10) and `localModified = lastSyncTime = 5`. -/
def cxC2Item : Item :=
  ⟨"A", 12, 10, "W", "", 5, some 10, some ⟨some ⟨10, 10, "W", "W", ""⟩, some 5, some "I", "synced"⟩,
   [⟨"CREATE", 10, 10, ""⟩]⟩

def cxC2Ebay : EbayItem := ⟨"I", "A", 10, 11, "W"⟩

def cxC2World : World := ⟨[cxC2Item], [cxC2Ebay], false, [], []⟩

/-- Never-synced record (no snapshot) with local quantity 3; the remote
listing reports quantity 5, price 9, title `T`. -/
def cxC4Item : Item := ⟨"A", 2, 3, "W", "", 5, none, none, [⟨"CREATE", 3, 3, ""⟩]⟩

def cxC4Ebay : EbayItem := ⟨"I", "A", 5, 9, "T"⟩

def cxC4World : World := ⟨[cxC4Item], [cxC4Ebay], false, [], []⟩

/-- A remote listing whose parsed quantity is negative, with no local
record for its SKU. -/
def cxC6Ebay : EbayItem := ⟨"I", "A", -1, 5, "T"⟩

def cxC6World : World := ⟨[], [cxC6Ebay], false, [], []⟩

/-- Healthy paired record (quantity 10 everywhere) whose SKU suffers a
remote write failure during smart sync. -/
def cxC8Item : Item :=
  ⟨"A", 5, 10, "W", "", 5, some 10, some ⟨some cxSnapA, some 5, some "I", "synced"⟩,
   [⟨"CREATE", 10, 10, ""⟩]⟩

def cxC8Ebay : EbayItem := ⟨"I", "A", 7, 5, "W"⟩

def cxC8World : World := ⟨[cxC8Item], [cxC8Ebay], false, ["A"], []⟩

/-- The same pair with no failure injections (for the failure-free ledger
consistency part of C8). -/
def cxC8Good : World := ⟨[cxC8Item], [cxC8Ebay], false, [], []⟩

/-- Total number of per-item outcome entries in a pull aggregate. -/
def PullResults.total (r : PullResults) : Nat :=
  r.created.length + r.updated.length + r.skipped.length + r.errors.length

/-- Total number of per-item outcome entries in a push aggregate. -/
def PushResults.total (r : PushResults) : Nat :=
  r.pushed.length + r.skipped.length + r.created.length + r.errors.length

/-- Total number of per-item outcome entries in a smart-sync aggregate
(`sales` is not counted: a sale accompanies that item's `updated`/error
entry). -/
def SmartResults.total (r : SmartResults) : Nat :=
  r.imported.length + r.exported.length + r.updated.length + r.errors.length

/-- The key an outcome is recorded under. -/
def PullOutcome.key : PullOutcome → String
  | .createdOut s => s
  | .updatedOut s _ => s
  | .skippedOut s _ => s
  | .errorOut s _ => s

def PushOutcome.key : PushOutcome → String
  | .pushedOut s => s
  | .createdOut s => s
  | .skippedOut s _ => s
  | .errorOut s _ => s

/-! ## Parametric one-pair worlds for the general field-level theorems -/

/-- One local record (SKU `A`, quantity `lq`) paired with one remote
listing (quantity `rq`); price and title agree with the snapshot on both
sides, so quantity is the only changed field. -/
def pairWorld (lm lst : Nat) (p sq rq lq lsq : Int) (ttl iid : String)
    (h : List HistoryEntry) : World :=
  ⟨[⟨"A", p, lq, ttl, "", lm, some lsq,
     some ⟨some ⟨sq, p, ttl, ttl, ""⟩, some lst, some iid, "synced"⟩, h⟩],
   [⟨iid, "A", rq, p, ttl⟩], false, [], []⟩

/-- One local record whose price changed locally (`pLoc` vs snapshot
`pSnap`) while the remote price also changed (`pRem`), with
`localModified = lastSyncTime = t`: the exact conflict tie. -/
def tieWorld (t : Nat) (q pLoc pSnap pRem lsq : Int) (ttl iid : String)
    (h : List HistoryEntry) : World :=
  ⟨[⟨"A", pLoc, q, ttl, "", t, some lsq,
     some ⟨some ⟨q, pSnap, ttl, ttl, ""⟩, some t, some iid, "synced"⟩, h⟩],
   [⟨iid, "A", q, pRem, ttl⟩], false, [], []⟩

/-- One never-synced local record (no `ebaySync`, hence no snapshot)
paired with an arbitrary remote listing of the same SKU. -/
def bareWorld (p cq : Int) (d iid rt : String) (lm : Nat) (rq rp : Int)
    (h : List HistoryEntry) : World :=
  ⟨[⟨"A", p, cq, d, "", lm, none, none, h⟩],
   [⟨iid, "A", rq, rp, rt⟩], false, [], []⟩

/-- One sync call in a sequence of API invocations. -/
inductive SyncOp where
  | pullOp (now : Nat)
  | pushOp (now : Nat)
  | smartOp (now : Nat)
deriving Repr, DecidableEq

/-- Run one sync call against the world, keeping the world unchanged when
pull aborts on a failed fetch. -/
def runOp (w : World) : SyncOp → World
  | .pullOp now =>
      match pullFromEbay now w with
      | none => w
      | some pr => pr.1
  | .pushOp now => (pushToEbay now w).1
  | .smartOp now => (smartSyncAll now w).1

/-- Run a sequence of sync calls. -/
def runOps (w : World) (ops : List SyncOp) : World := ops.foldl runOp w

/-- Two remote listings (SKUs `X`, `Y`) where the first suffers a local
write failure, plus one local-only record `A`: a mixed world exercising a
failing item followed by further items. -/
def cxC7World : World :=
  ⟨[⟨"A", 5, 3, "W", "", 5, none, none, []⟩],
   [⟨"IX", "X", 4, 7, "T"⟩, ⟨"IY", "Y", 2, 6, "U"⟩],
   false, [], ["X"]⟩

/-- A world whose remote fetch throws: one healthy never-synced local
record, while the remote service actually holds an unrelated listing. -/
def cxC9World : World :=
  ⟨[⟨"A", 5, 3, "W", "", 5, none, none, []⟩],
   [⟨"IZ", "Z", 2, 6, "U"⟩],
   true, [], []⟩

/-! ## Theorems -/

/-- The non-negativity invariant threaded through every sync call. -/
def NN (w : World) : Prop :=
  (∀ it ∈ w.store, 0 ≤ it.currentQty) ∧ (∀ e ∈ w.remote, 0 ≤ e.quantity)

/-- Scan-state invariant: away from the processed SKU the ledger is
consistent; at the SKU it is consistent when no sale was accumulated, and
otherwise the last entry's `newTotal` is the accumulated reconciled
quantity. -/
def ScanLedger (sku : String) (store : List Item) (u : PullUpdates) : Prop :=
  (∀ it ∈ store, it.sku ≠ sku → Ledgered it) ∧
  (match u.currentQty with
   | none => ∀ it ∈ store, it.sku = sku → Ledgered it
   | some v => ∀ it ∈ store, it.sku = sku →
       ∀ en, it.history.getLast? = some en → en.newTotal = v)

/-- The paired-item post-state of a smart-sync pass: the record (whose own
price / description / condition are `p` / `d` / `c`) carries a snapshot
whose quantity equals both `currentQty` and `lastSyncedQty`, and whose
price, title and description are captured from the record's own values
(`title` and `description` both from the local `description` field). -/
def SmartSynced (p : Int) (d c : String) (r : Item) : Prop :=
  r.price = p ∧ r.description = d ∧ r.condition = c ∧
  ∃ s, r.ebaySync.bind EbaySyncInfo.snapshot = some s ∧
    s.quantity = r.currentQty ∧ r.lastSyncedQty = some r.currentQty ∧
    s.price = p ∧ s.title = d ∧ s.description = d ∧ s.condition = c

/-- A record is in sync with the remote inventory: its stored snapshot
quantity and `lastSyncedQty` agree with `currentQty`, and the remote
listing under its SKU reports the same quantity. -/
def SyncedRec (remote : List EbayItem) (r : Item) : Prop :=
  (r.ebaySync.bind EbaySyncInfo.snapshot).map Snapshot.quantity = some r.currentQty ∧
  r.lastSyncedQty = some r.currentQty ∧
  ∃ e, remoteAt remote r.sku = some e ∧ e.quantity = r.currentQty

/-- Whole-world sync state after a clean smart sync: every record is
`SyncedRec`, and every remote listing has a local record under its key. -/
def Synced (w : World) : Prop :=
  (∀ r ∈ w.store, SyncedRec w.remote r) ∧
  (∀ e ∈ w.remote, ∃ r ∈ w.store, r.sku = ebayKey e)

/-- The sync-relevant observable projection of a local record: everything
except the `lastModified` / `lastSyncTime` timestamps and the snapshot's
non-quantity fields. -/
def itemObs (r : Item) : String × Int × Option Int × Int × String × String × List HistoryEntry :=
  (r.sku, r.currentQty, r.lastSyncedQty, r.price, r.description, r.condition, r.history)

/-- The observable projection of a remote listing: its key and quantity. -/
def remoteObs (e : EbayItem) : String × Int :=
  (ebayKey e, e.quantity)

/-- The fresh listing `syncItemToEbay` creates when the SKU is not yet on
eBay (`AddFixedPriceItem`): empty item id, price 0, titled from the
description with the `Item <sku>` fallback. -/
def exportStub (k : String) (q : Int) (d : String) : EbayItem :=
  { itemId := "", sku := k, quantity := q, price := 0,
    title := if d = "" then "Item " ++ k else d }

/-- C1 (counterexample). Spec: for every synced pair with
`remoteQty < snapshotQty`, pull computes `sold = snapshotQty - remoteQty`,
sets the quantity to `max 0 (localQty - sold)` and appends exactly one
`EBAY_SALE` entry.  At snapshot 10, remote 7, local 9 (locally edited,
newer than the sync), the claim predicts quantity 6 and a second ledger
entry; the code skips the item, appends nothing, and keeps quantity 9. -/
theorem C1_cx :
    (pullFromEbay 9 cxC1World).map
        (fun p => (p.1.store.map fun it => (it.currentQty, it.history.length), p.2.skipped.length))
      = some ([(9, 1)], 1) ∧
    (pullFromEbay 9 cxC1World).map
        (fun p => (p.1.store.map fun it => (it.currentQty, it.history.length), p.2.skipped.length))
      ≠ some ([(6, 2)], 0) := by
  constructor
  · decide
  · decide

/-- C3 (counterexample). Spec: a remote quantity decrease is resolved as a
sale regardless of whether the local side also changed its quantity.  In
pull, with snapshot 8, remote 5, local 6 (locally changed) and the sync
time newer than the local edit, the decrease falls into the timestamp
branch: no `EBAY_SALE` is appended, the quantity is untouched, and the item
is reported skipped. -/
theorem C3_cx :
    (pullFromEbay 9 cxC3World).map
        (fun p => (p.1.store.map fun it => (it.currentQty, (it.history.filter
          (fun en => en.action = "EBAY_SALE")).length), p.2.skipped.length))
      = some ([(6, 0)], 1) := by
  decide

/-- C2 (counterexample). Spec: when `localModified = lastSyncTime` exactly,
the local value is kept.  With both sides having changed the price
(local 12, remote 11, snapshot 10) and the timestamps exactly equal, pull
overwrites the local price with the remote one: `localIsNewer` is the
strict comparison `localModified > lastSyncTime`, so a tie makes the
remote side win. -/
theorem C2_cx :
    (pullFromEbay 9 cxC2World).map (fun p => p.1.store.map Item.price) = some [11] ∧
    (pullFromEbay 9 cxC2World).map (fun p => p.1.store.map Item.price) ≠ some [12] := by
  constructor
  · decide
  · decide

/-- C4 (counterexample). Spec: with no stored snapshot, pull sets the
tracked fields quantity, price and title of the local record from the
remote listing.  With local quantity 3 and remote quantity 5, pull accepts
price and title but never assigns `currentQty`: the local quantity stays 3
instead of becoming 5. -/
theorem C4_cx :
    (pullFromEbay 9 cxC4World).map (fun p => p.1.store.map fun it => (it.currentQty, it.price, it.description))
      = some [(3, 9, "T")] ∧
    (pullFromEbay 9 cxC4World).map (fun p => p.1.store.map Item.currentQty) ≠ some [5] := by
  constructor
  · decide
  · decide

/-- C6 (counterexample). Spec: `currentQty` is never negative after any
sequence of sync calls, regardless of input quantities.  A pull against a
remote listing whose parsed quantity is `-1` and which has no local record
creates the local record with `currentQty = -1`: the import path copies
the remote quantity verbatim with no clamp. -/
theorem C6_cx :
    (pullFromEbay 9 cxC6World).map (fun p => p.1.store.map Item.currentQty) = some [-1] ∧
    (pullFromEbay 9 cxC6World).map
        (fun p => decide (∀ it ∈ p.1.store, 0 ≤ it.currentQty)) = some false := by
  constructor
  · decide
  · decide

/-- C8 (counterexample). Spec: after every local-mutating operation, even
one whose item fails partway, the `newTotal` of the last history entry
equals the record's `currentQty`.  Smart sync appends the `EBAY_SALE`
entry (`newTotal = 7`) before the remote write; when that write fails the
local quantity update never runs, leaving `currentQty = 10` against a last
ledger entry with `newTotal = 7`. -/
theorem C8_cx :
    ((smartSyncAll 9 cxC8World).1.store.map fun it =>
        (it.currentQty, it.history.getLast?.map HistoryEntry.newTotal))
      = [(10, some 7)] ∧
    ¬ ∀ it ∈ (smartSyncAll 9 cxC8World).1.store, Ledgered it := by
  refine ⟨by decide, fun h => ?_⟩
  have h1 := h ((smartSyncAll 9 cxC8World).1.store.get ⟨0, by decide⟩) (by decide)
  revert h1
  decide

/-- C2 (amended): in conflict resolution for a field changed on both
sides, an exact timestamp tie (`localModified = lastSyncTime`) makes the
remote side win — `localIsNewer` is the strict comparison
`localModified > lastSyncTime`: pull overwrites the local value with the
remote one, and push skips pushing the local edit (the remote value
stays); the local value is kept only when `localModified` is strictly
later. -/
theorem C2_thm (now t : Nat) (q pLoc pSnap pRem lsq : Int) (ttl iid : String)
    (h : List HistoryEntry) (hl : pLoc ≠ pSnap) (hr : pRem ≠ pSnap) (hlr : pLoc ≠ pRem) :
    ((pullFromEbay now (tieWorld t q pLoc pSnap pRem lsq ttl iid h)).map
        (fun pr => (pr.1.store.map Item.price, pr.2.updated.map Prod.fst))
      = some ([pRem], ["A"])) ∧
    (pushToEbay now (tieWorld t q pLoc pSnap pRem lsq ttl iid h)).2.pushed = [] ∧
    (pushToEbay now (tieWorld t q pLoc pSnap pRem lsq ttl iid h)).2.skipped.map Prod.fst = ["A"] ∧
    (pushToEbay now (tieWorld t q pLoc pSnap pRem lsq ttl iid h)).1.remote.map EbayItem.price
      = [pRem] := by
  refine ⟨?_, ?_, ?_, ?_⟩ <;>
    simp [tieWorld, pullFromEbay, pullLoop, pullStep, getItem, detectEbayChanges,
      pullScan, applyPullUpdates, updStore, addHistory, ebayKey, PullUpdates.nonEmpty,
      PullResults.add, emptyPullResults, pushToEbay, pushLoop, pushStep, pushWrite,
      buildEbayInventory, objInsert, objGet, pushChangeReason, pushSyncUpdate,
      PushResults.add, emptyPushResults, List.find?, hl, hr, hlr, Ne.symm hr, Ne.symm hl]

theorem C2_thm_witness :
    (12 : Int) ≠ 10 ∧ (11 : Int) ≠ 10 ∧ (12 : Int) ≠ 11 ∧
    (((pullFromEbay 9 (tieWorld 5 3 12 10 11 3 "W" "I" [])).map
        (fun pr => (pr.1.store.map Item.price, pr.2.updated.map Prod.fst))
      = some ([11], ["A"])) ∧
     (pushToEbay 9 (tieWorld 5 3 12 10 11 3 "W" "I" [])).2.pushed = [] ∧
     (pushToEbay 9 (tieWorld 5 3 12 10 11 3 "W" "I" [])).2.skipped.map Prod.fst = ["A"] ∧
     (pushToEbay 9 (tieWorld 5 3 12 10 11 3 "W" "I" [])).1.remote.map EbayItem.price = [11]) :=
  ⟨by decide, by decide, by decide,
   C2_thm 9 5 3 12 10 11 3 "W" "I" [] (by decide) (by decide) (by decide)⟩

/-- C1 (amended): for a synced pair with `remoteQty < snapshotQty`, smart
sync — for every local quantity — computes `sold = snapshotQty - remoteQty`,
sets the quantity to `max 0 (localQty - sold)` and appends exactly one
`EBAY_SALE` entry with `qty = -sold` and `newTotal` the new quantity; pull
does the same provided the local quantity still equals the snapshot
quantity (a concurrent local quantity edit sends pull down the timestamp
branch instead, see C3). -/
theorem C1_thm (now lm lst : Nat) (p sq rq lq lsq : Int) (ttl iid : String)
    (h : List HistoryEntry) (hlt : rq < sq) :
    ((smartSyncAll now (pairWorld lm lst p sq rq lq lsq ttl iid h)).2.sales
        = [("A", sq - rq, max 0 (lq - (sq - rq)))] ∧
     (smartSyncAll now (pairWorld lm lst p sq rq lq lsq ttl iid h)).1.store.map
        (fun it => (it.currentQty, it.history))
        = [(max 0 (lq - (sq - rq)),
            h ++ [⟨"EBAY_SALE", -(sq - rq), max 0 (lq - (sq - rq)),
                  "sold on eBay (detected during sync)"⟩])]) ∧
    ((pullFromEbay now (pairWorld lm lst p sq rq sq lsq ttl iid h)).map
        (fun pr => pr.1.store.map fun it => (it.currentQty, it.history))
      = some [(max 0 (sq - (sq - rq)),
               h ++ [⟨"EBAY_SALE", -(sq - rq), max 0 (sq - (sq - rq)),
                     "sold on eBay (detected during pull)"⟩])]) := by
  have hne : rq ≠ sq := ne_of_lt hlt
  refine ⟨⟨?_, ?_⟩, ?_⟩ <;>
    simp [pairWorld, smartSyncAll, smartPairLoop, smartPairBody, smartApplyPair,
      smartImportLoop, smartExportLoop, smartUpdate, captureLocalSnapshot,
      buildEbayInventory, objInsert, objGet, syncUpsert, ebayKey, getItem, updStore,
      addHistory, emptySmartResults, pullFromEbay, pullLoop, pullStep,
      detectEbayChanges, pullScan, applyPullUpdates, PullUpdates.nonEmpty,
      PullResults.add, emptyPullResults, List.find?, hlt, hne]

theorem C1_thm_witness :
    (7 : Int) < 10 ∧
    (((smartSyncAll 9 (pairWorld 5 5 2 10 7 4 10 "W" "I" [])).2.sales
        = [("A", 10 - 7, max 0 (4 - (10 - 7)))] ∧
      (smartSyncAll 9 (pairWorld 5 5 2 10 7 4 10 "W" "I" [])).1.store.map
        (fun it => (it.currentQty, it.history))
        = [(max 0 (4 - (10 - 7)),
            [] ++ [⟨"EBAY_SALE", -(10 - 7), max 0 (4 - (10 - 7)),
                  "sold on eBay (detected during sync)"⟩])]) ∧
     ((pullFromEbay 9 (pairWorld 5 5 2 10 7 10 10 "W" "I" [])).map
        (fun pr => pr.1.store.map fun it => (it.currentQty, it.history))
      = some [(max 0 (10 - (10 - 7)),
               [] ++ [⟨"EBAY_SALE", -(10 - 7), max 0 (10 - (10 - 7)),
                     "sold on eBay (detected during pull)"⟩])])) :=
  ⟨by decide, C1_thm 9 5 5 2 10 7 4 10 "W" "I" [] (by decide)⟩

/-- C3 (amended): in smart sync a remote quantity decrease is resolved as
a sale even when the local quantity also changed since the snapshot; in
pull, however, the sale path is guarded by `localChangedSinceSync` — when
the local quantity differs from the snapshot quantity the descriptor falls
into the ordinary timestamp branch, no sale is applied, the store is left
untouched, and the item is reported skipped. -/
theorem C3_thm (now lm lst : Nat) (p sq rq lq lsq : Int) (ttl iid : String)
    (h : List HistoryEntry) (hlt : rq < sq) (hch : lq ≠ sq) :
    ((smartSyncAll now (pairWorld lm lst p sq rq lq lsq ttl iid h)).2.sales
        = [("A", sq - rq, max 0 (lq - (sq - rq)))]) ∧
    (pullFromEbay now (pairWorld lm lst p sq rq lq lsq ttl iid h)).map
        (fun pr => (pr.1.store, pr.2.skipped.map Prod.fst, pr.2.updated))
      = some ((pairWorld lm lst p sq rq lq lsq ttl iid h).store, ["A"], []) := by
  have hne : rq ≠ sq := ne_of_lt hlt
  constructor
  · simp [pairWorld, smartSyncAll, smartPairLoop, smartPairBody, smartApplyPair,
      smartImportLoop, smartExportLoop, smartUpdate, captureLocalSnapshot,
      buildEbayInventory, objInsert, objGet, syncUpsert, ebayKey, getItem, updStore,
      addHistory, emptySmartResults, List.find?, hlt]
  · by_cases hc : lm > lst <;>
      simp [pairWorld, pullFromEbay, pullLoop, pullStep, getItem, detectEbayChanges,
        pullScan, PullUpdates.nonEmpty, PullResults.add, emptyPullResults,
        List.find?, ebayKey, hne, hch, hc]

theorem C3_thm_witness :
    (5 : Int) < 8 ∧ (6 : Int) ≠ 8 ∧
    (((smartSyncAll 9 (pairWorld 4 5 2 8 5 6 8 "W" "I" [])).2.sales
        = [("A", 8 - 5, max 0 (6 - (8 - 5)))]) ∧
     (pullFromEbay 9 (pairWorld 4 5 2 8 5 6 8 "W" "I" [])).map
        (fun pr => (pr.1.store, pr.2.skipped.map Prod.fst, pr.2.updated))
      = some ((pairWorld 4 5 2 8 5 6 8 "W" "I" []).store, ["A"], [])) :=
  ⟨by decide, by decide, C3_thm 9 4 5 2 8 5 6 8 "W" "I" [] (by decide) (by decide)⟩

/-- C4 (amended): for a record with no stored snapshot the change detector
returns the single `accept all` sentinel, and pull then accepts the remote
price and title unconditionally (with the remote value falling back to the
local one when it is 0 / empty, per the `||` coalescing), initializes the
snapshot from the remote listing and sets `lastSyncedQty` from the remote
quantity — but it does not assign `currentQty`, and no sale is inferred
(the history is untouched). -/
theorem C4_thm (now lm : Nat) (p cq rq rp : Int) (d iid rt : String)
    (h : List HistoryEntry) :
    detectEbayChanges (⟨iid, "A", rq, rp, rt⟩ : EbayItem) none = [.all] ∧
    (pullFromEbay now (bareWorld p cq d iid rt lm rq rp h)).map
        (fun pr => pr.1.store.map fun it =>
          (it.currentQty, it.price, it.description, it.lastSyncedQty, it.history,
           it.ebaySync))
      = some [(cq, (if rp = 0 then p else rp), (if rt = "" then d else rt),
               some (if rq = 0 then cq else rq), h,
               some ⟨some ⟨rq, rp, rt, "", ""⟩, some now, some iid, "synced"⟩)] := by
  refine ⟨rfl, ?_⟩
  simp [bareWorld, pullFromEbay, pullLoop, pullStep, getItem, applyPullUpdates,
    bootstrapUpdates, updStore, ebayKey, PullUpdates.nonEmpty, PullResults.add,
    emptyPullResults, captureEbaySnapshot, List.find?]

/-! ### Frame lemmas: every local mutation preserves the SKU column -/

theorem updStore_map_sku {f : Item → Item} (hf : ∀ it, (f it).sku = it.sku)
    (store : List Item) (k : String) :
    (updStore store k f).map Item.sku = store.map Item.sku := by
  simp only [updStore, List.map_map]
  refine List.map_congr_left fun it _ => ?_
  by_cases h : it.sku = k <;> simp [Function.comp, h, hf]

theorem addHistory_map_sku (store : List Item) (k : String) (en : HistoryEntry) :
    (addHistory store k en).map Item.sku = store.map Item.sku := by
  unfold addHistory
  apply updStore_map_sku
  intro it
  rfl

theorem getItem_sku {store : List Item} {k : String} {it : Item}
    (h : getItem store k = some it) : it.sku = k := by
  have := List.find?_some h
  simpa using this

theorem getItem_isSome_of_mem {store : List Item} {k : String}
    (h : k ∈ store.map Item.sku) : (getItem store k).isSome := by
  rw [getItem, List.find?_isSome]
  rcases List.mem_map.mp h with ⟨it, hit, rfl⟩
  exact ⟨it, hit, by simp⟩

/-! ### Pull: one outcome per fetched item, recorded under the item's key -/

theorem PullResults.addPull_total (r : PullResults) (o : PullOutcome) :
    (r.add o).total = r.total + 1 := by
  cases o <;> simp [PullResults.add, PullResults.total] <;> omega

theorem PullResults.addPull_errors_mem {r : PullResults} {o : PullOutcome}
    {x : String × String} (hx : x ∈ (r.add o).errors) :
    x ∈ r.errors ∨ x.1 = o.key := by
  cases o <;> simp [PullResults.add, PullOutcome.key] at hx ⊢ <;> try exact Or.inl hx
  rcases hx with hx | hx
  · exact Or.inl hx
  · right; rw [hx]

theorem pullStep_key (now : Nat) (w : World) (e : EbayItem) :
    ((pullStep now w e).2).key = ebayKey e := by
  suffices H : ∀ pr, pullStep now w e = pr → pr.2.key = ebayKey e from H _ rfl
  intro pr hp
  simp only [pullStep] at hp
  repeat' split at hp
  all_goals rw [← hp]; rfl

theorem pullLoop_total (now : Nat) (items : List EbayItem) :
    ∀ (w : World) (r : PullResults),
      (pullLoop now items w r).2.total = r.total + items.length := by
  induction items with
  | nil => intro w r; simp [pullLoop]
  | cons e rest ih =>
      intro w r
      simp only [pullLoop]
      rw [ih, PullResults.addPull_total]
      simp; omega

theorem pullLoop_errors (now : Nat) (items : List EbayItem) :
    ∀ (w : World) (r : PullResults) (x : String × String),
      x ∈ (pullLoop now items w r).2.errors →
      x ∈ r.errors ∨ x.1 ∈ items.map ebayKey := by
  induction items with
  | nil => intro w r x hx; simp [pullLoop] at hx; exact Or.inl hx
  | cons e rest ih =>
      intro w r x hx
      simp only [pullLoop] at hx
      rcases ih _ _ _ hx with h | h
      · rcases PullResults.addPull_errors_mem h with h' | h'
        · exact Or.inl h'
        · right; rw [h', pullStep_key]; simp
      · right; simp [h]

/-! ### Push: one outcome per local item, recorded under the item's SKU -/

theorem PushResults.addPush_total (r : PushResults) (o : PushOutcome) :
    (r.add o).total = r.total + 1 := by
  cases o <;> simp [PushResults.add, PushResults.total] <;> omega

theorem PushResults.addPush_errors_mem {r : PushResults} {o : PushOutcome}
    {x : String × String} (hx : x ∈ (r.add o).errors) :
    x ∈ r.errors ∨ x.1 = o.key := by
  cases o <;> simp [PushResults.add, PushOutcome.key] at hx ⊢ <;> try exact Or.inl hx
  rcases hx with hx | hx
  · exact Or.inl hx
  · right; rw [hx]

theorem pushWrite_map_sku (now : Nat) (w : World) (fi : Item) (ok : PushOutcome) :
    ((pushWrite now w fi ok).1).store.map Item.sku = w.store.map Item.sku := by
  suffices H : ∀ pr, pushWrite now w fi ok = pr →
      pr.1.store.map Item.sku = w.store.map Item.sku from H _ rfl
  intro pr hp
  simp only [pushWrite] at hp
  repeat' split at hp
  all_goals rw [← hp]
  all_goals first
    | rfl
    | (apply updStore_map_sku; intro it; rfl)

theorem pushStep_map_sku (now : Nat) (inv : List (String × EbayItem)) (w : World)
    (it : Item) :
    ((pushStep now inv w it).1).store.map Item.sku = w.store.map Item.sku := by
  suffices H : ∀ pr, pushStep now inv w it = pr →
      pr.1.store.map Item.sku = w.store.map Item.sku from H _ rfl
  intro pr hp
  simp only [pushStep] at hp
  repeat' split at hp
  all_goals rw [← hp]
  all_goals first
    | rfl
    | apply pushWrite_map_sku

theorem pushWrite_key {now : Nat} {w : World} {fi : Item} {ok o : PushOutcome}
    (h : (pushWrite now w fi ok).2 = some o) : o.key = fi.sku ∨ o = ok := by
  by_cases h1 : fi.sku ∈ w.remoteWriteFails
  · simp [pushWrite, h1] at h
    exact Or.inl (by rw [← h]; rfl)
  · by_cases h2 : fi.sku ∈ w.localFails
    · simp [pushWrite, h1, h2] at h
      exact Or.inl (by rw [← h]; rfl)
    · simp [pushWrite, h1, h2] at h
      exact Or.inr h.symm

theorem pushStep_isSome (now : Nat) (inv : List (String × EbayItem)) {w : World}
    {it : Item} (h : it.sku ∈ w.store.map Item.sku) :
    ((pushStep now inv w it).2).isSome := by
  have hg := getItem_isSome_of_mem h
  suffices H : ∀ pr, pushStep now inv w it = pr → pr.2.isSome from H _ rfl
  intro pr hp
  simp only [pushStep, pushWrite] at hp
  repeat' split at hp
  all_goals first
    | (rw [← hp]; rfl)
    | simp_all

theorem pushStep_key {now : Nat} {inv : List (String × EbayItem)} {w : World}
    {it : Item} {o : PushOutcome} (h : (pushStep now inv w it).2 = some o) :
    o.key = it.sku := by
  rcases hg : getItem w.store it.sku with _ | fi
  · simp [pushStep, hg] at h
  · have hsku : fi.sku = it.sku := getItem_sku hg
    simp only [pushStep, hg] at h
    split at h
    · rcases pushWrite_key h with h' | h'
      · rw [h', hsku]
      · rw [h']; rfl
    · split at h
      · simp only [Option.some.injEq] at h
        rw [← h]; rfl
      · rcases pushWrite_key h with h' | h'
        · rw [h', hsku]
        · rw [h']; rfl

theorem pushLoop_total (now : Nat) (inv : List (String × EbayItem))
    (items : List Item) :
    ∀ (w : World) (r : PushResults),
      (∀ it ∈ items, it.sku ∈ w.store.map Item.sku) →
      (pushLoop now inv items w r).2.total = r.total + items.length := by
  induction items with
  | nil => intro w r _; simp [pushLoop]
  | cons it rest ih =>
      intro w r hmem
      simp only [pushLoop]
      rcases ho : (pushStep now inv w it).2 with _ | o
      · have := pushStep_isSome now inv (hmem it (by simp))
        rw [ho] at this; cases this
      · simp only [ho]
        have hrest : ∀ x ∈ rest, x.sku ∈ ((pushStep now inv w it).1).store.map Item.sku := by
          intro x hx
          rw [pushStep_map_sku]
          exact hmem x (by simp [hx])
        rw [ih _ _ hrest, PushResults.addPush_total]
        simp; omega

theorem pushLoop_errors (now : Nat) (inv : List (String × EbayItem))
    (items : List Item) :
    ∀ (w : World) (r : PushResults) (x : String × String),
      x ∈ (pushLoop now inv items w r).2.errors →
      x ∈ r.errors ∨ x.1 ∈ items.map Item.sku := by
  induction items with
  | nil => intro w r x hx; simp [pushLoop] at hx; exact Or.inl hx
  | cons it rest ih =>
      intro w r x hx
      simp only [pushLoop] at hx
      rcases ih _ _ _ hx with h | h
      · rcases ho : (pushStep now inv w it).2 with _ | o
        · rw [ho] at h; exact Or.inl h
        · rw [ho] at h
          rcases PushResults.addPush_errors_mem h with h' | h'
          · exact Or.inl h'
          · right; rw [h', pushStep_key ho]; simp
      · right; simp [h]

/-! ### Smart sync: per-item accounting -/

theorem smartApplyPair_total (now : Nat) (sku : String) (e : EbayItem) (fi : Item)
    (fq sd : Int) (w : World) (res : SmartResults) :
    (smartApplyPair now sku e fi fq sd w res).2.total = res.total + 1 := by
  suffices H : ∀ pr, smartApplyPair now sku e fi fq sd w res = pr →
      pr.2.total = res.total + 1 from H _ rfl
  intro pr hp
  simp only [smartApplyPair] at hp
  repeat' split at hp
  all_goals rw [← hp]
  all_goals simp [SmartResults.total]; omega

theorem smartApplyPair_map_sku (now : Nat) (sku : String) (e : EbayItem) (fi : Item)
    (fq sd : Int) (w : World) (res : SmartResults) :
    (smartApplyPair now sku e fi fq sd w res).1.store.map Item.sku
      = w.store.map Item.sku := by
  suffices H : ∀ pr, smartApplyPair now sku e fi fq sd w res = pr →
      pr.1.store.map Item.sku = w.store.map Item.sku from H _ rfl
  intro pr hp
  simp only [smartApplyPair] at hp
  repeat' split at hp
  all_goals rw [← hp]
  all_goals first
    | rfl
    | (apply updStore_map_sku; intro it; rfl)

theorem smartApplyPair_sales (now : Nat) (sku : String) (e : EbayItem) (fi : Item)
    (fq sd : Int) (w : World) (res : SmartResults) :
    (smartApplyPair now sku e fi fq sd w res).2.sales = res.sales := by
  suffices H : ∀ pr, smartApplyPair now sku e fi fq sd w res = pr →
      pr.2.sales = res.sales from H _ rfl
  intro pr hp
  simp only [smartApplyPair] at hp
  repeat' split at hp
  all_goals rw [← hp]

theorem smartPairBody_total (now : Nat) (sku : String) (e : EbayItem) (fi : Item)
    (w : World) (res : SmartResults) :
    (smartPairBody now sku e fi w res).2.total = res.total + 1 := by
  suffices H : ∀ pr, smartPairBody now sku e fi w res = pr →
      pr.2.total = res.total + 1 from H _ rfl
  intro pr hp
  simp only [smartPairBody] at hp
  repeat' split at hp
  all_goals rw [← hp]
  all_goals first
    | (rw [smartApplyPair_total]; try simp [SmartResults.total])
    | (simp [SmartResults.total]; omega)

theorem smartPairBody_map_sku (now : Nat) (sku : String) (e : EbayItem) (fi : Item)
    (w : World) (res : SmartResults) :
    (smartPairBody now sku e fi w res).1.store.map Item.sku
      = w.store.map Item.sku := by
  suffices H : ∀ pr, smartPairBody now sku e fi w res = pr →
      pr.1.store.map Item.sku = w.store.map Item.sku from H _ rfl
  intro pr hp
  simp only [smartPairBody] at hp
  repeat' split at hp
  all_goals rw [← hp]
  all_goals first
    | rfl
    | (rw [smartApplyPair_map_sku]
       try (first | rfl | exact addHistory_map_sku _ _ _))

theorem smartPairLoop_map_sku (now : Nat) (localItems : List Item)
    (inv : List (String × EbayItem)) :
    ∀ (w : World) (ps : List String) (res : SmartResults),
      (smartPairLoop now localItems inv w ps res).1.store.map Item.sku
        = w.store.map Item.sku := by
  induction inv with
  | nil => intro w ps res; simp [smartPairLoop]
  | cons p rest ih =>
      intro w ps res
      rcases p with ⟨k, e⟩
      cases hf : localItems.find? (fun it => it.sku = k) with
      | none => simp only [smartPairLoop, hf]; exact ih w ps res
      | some it₀ =>
          cases hget : getItem w.store k with
          | none => simp only [smartPairLoop, hf, hget]; exact ih w _ res
          | some fi =>
              simp only [smartPairLoop, hf, hget]
              rw [ih, smartPairBody_map_sku]

theorem smartPairLoop_ps (now : Nat) (localItems : List Item)
    (inv : List (String × EbayItem)) :
    ∀ (w : World) (ps : List String) (res : SmartResults),
      (smartPairLoop now localItems inv w ps res).2.1
        = ps ++ (inv.filter
            (fun p => (localItems.find? (fun it => it.sku = p.1)).isSome)).map Prod.fst := by
  induction inv with
  | nil => intro w ps res; simp [smartPairLoop]
  | cons p rest ih =>
      intro w ps res
      rcases p with ⟨k, e⟩
      cases hf : localItems.find? (fun it => it.sku = k) with
      | none =>
          simp only [smartPairLoop, hf]
          rw [ih]
          simp [List.filter_cons, hf]
      | some it₀ =>
          cases hget : getItem w.store k with
          | none =>
              simp only [smartPairLoop, hf, hget]
              rw [ih]
              simp [List.filter_cons, hf]
          | some fi =>
              simp only [smartPairLoop, hf, hget]
              rw [ih]
              simp [List.filter_cons, hf]

theorem smartPairLoop_total (now : Nat) (localItems : List Item)
    (inv : List (String × EbayItem)) :
    ∀ (w : World) (ps : List String) (res : SmartResults),
      (∀ s ∈ localItems.map Item.sku, s ∈ w.store.map Item.sku) →
      (smartPairLoop now localItems inv w ps res).2.2.total
        = res.total
          + inv.countP (fun p => (localItems.find? (fun it => it.sku = p.1)).isSome) := by
  induction inv with
  | nil => intro w ps res _; simp [smartPairLoop]
  | cons p rest ih =>
      intro w ps res hsub
      rcases p with ⟨k, e⟩
      cases hf : localItems.find? (fun it => it.sku = k) with
      | none =>
          simp only [smartPairLoop, hf]
          rw [ih _ _ _ hsub, List.countP_cons]
          simp [hf]
      | some it₀ =>
          have hk : it₀.sku = k := by
            have := List.find?_some hf
            simpa using this
          have hmem : k ∈ w.store.map Item.sku := by
            refine hsub k ?_
            rw [← hk]
            exact List.mem_map_of_mem _ (List.mem_of_find?_eq_some hf)
          cases hget : getItem w.store k with
          | none =>
              have := getItem_isSome_of_mem hmem
              rw [hget] at this; cases this
          | some fi =>
              have hsub' : ∀ s ∈ localItems.map Item.sku,
                  s ∈ (smartPairBody now k e fi w res).1.store.map Item.sku := by
                intro s hs
                rw [smartPairBody_map_sku]
                exact hsub s hs
              simp only [smartPairLoop, hf, hget]
              rw [ih _ _ _ hsub', smartPairBody_total, List.countP_cons]
              simp [hf]
              omega

theorem smartImportLoop_total (now : Nat) (ps : List String)
    (inv : List (String × EbayItem)) :
    ∀ (w : World) (res : SmartResults),
      (smartImportLoop now ps inv w res).2.total
        = res.total + inv.countP (fun p => !(decide (p.1 ∈ ps))) := by
  induction inv with
  | nil => intro w res; simp [smartImportLoop]
  | cons p rest ih =>
      intro w res
      rcases p with ⟨k, e⟩
      simp only [smartImportLoop]
      by_cases hk : k ∈ ps
      · rw [if_pos hk, ih, List.countP_cons]
        simp [hk]
      · rw [if_neg hk]
        by_cases hl : k ∈ w.localFails
        · rw [if_pos hl, ih, List.countP_cons]
          simp [SmartResults.total, hk]
          omega
        · rw [if_neg hl, ih, List.countP_cons]
          simp [SmartResults.total, hk]
          omega

theorem smartImportLoop_map_sku_sub (now : Nat) (ps : List String)
    (inv : List (String × EbayItem)) :
    ∀ (w : World) (res : SmartResults) (s : String),
      s ∈ w.store.map Item.sku →
      s ∈ (smartImportLoop now ps inv w res).1.store.map Item.sku := by
  induction inv with
  | nil => intro w res s hs; simpa [smartImportLoop] using hs
  | cons p rest ih =>
      intro w res s hs
      rcases p with ⟨k, e⟩
      simp only [smartImportLoop]
      by_cases hk : k ∈ ps
      · rw [if_pos hk]; exact ih _ _ _ hs
      · rw [if_neg hk]
        by_cases hl : k ∈ w.localFails
        · rw [if_pos hl]; exact ih _ _ _ hs
        · rw [if_neg hl]
          refine ih _ _ _ ?_
          simp only [List.map_append]
          exact List.mem_append_left _ hs

theorem smartExportLoop_total (now : Nat) (inv : List (String × EbayItem))
    (ps : List String) (items : List Item) :
    ∀ (w : World) (res : SmartResults),
      (∀ s ∈ items.map Item.sku, s ∈ w.store.map Item.sku) →
      (smartExportLoop now inv ps items w res).2.total
        = res.total
          + items.countP (fun it => !(decide (it.sku ∈ ps)) && !(objGet inv it.sku).isSome) := by
  induction items with
  | nil => intro w res _; simp [smartExportLoop]
  | cons it rest ih =>
      intro w res hsub
      have hsubr : ∀ s ∈ rest.map Item.sku, s ∈ w.store.map Item.sku := by
        intro s hs; exact hsub s (by simp at hs ⊢; tauto)
      by_cases hk : it.sku ∈ ps
      · simp only [smartExportLoop, if_pos hk]
        rw [ih _ _ hsubr, List.countP_cons]
        simp [hk]
      · rcases hob : objGet inv it.sku with _ | e'
        · have hmem : it.sku ∈ w.store.map Item.sku := hsub _ (by simp)
          rcases hget : getItem w.store it.sku with _ | fi
          · have := getItem_isSome_of_mem hmem
            rw [hget] at this; cases this
          · simp only [smartExportLoop, if_neg hk, hob, hget, Option.isSome_none,
              Bool.false_eq_true, if_false]
            by_cases hr : it.sku ∈ w.remoteWriteFails
            · rw [if_pos hr, ih _ _ hsubr, List.countP_cons]
              simp [SmartResults.total, hk, hob]
              omega
            · rw [if_neg hr]
              by_cases hl : it.sku ∈ w.localFails
              · rw [if_pos hl]
                have h' := ih
                  { w with remote := syncUpsert w.remote it.sku fi.currentQty fi.description }
                  { res with errors := res.errors ++ [(it.sku, "Export failed: local write failed")] }
                  hsubr
                rw [h', List.countP_cons]
                simp [SmartResults.total, hk, hob]
                omega
              · rw [if_neg hl]
                have hupd : (updStore w.store it.sku (pushSyncUpdate now fi)).map Item.sku
                    = w.store.map Item.sku := by
                  apply updStore_map_sku
                  intro x
                  rfl
                have hsubr' : ∀ s ∈ rest.map Item.sku,
                    s ∈ (updStore w.store it.sku (pushSyncUpdate now fi)).map Item.sku := by
                  intro s hs
                  rw [hupd]
                  exact hsubr s hs
                have h' := ih
                  { w with store := updStore w.store it.sku (pushSyncUpdate now fi)
                           remote := syncUpsert w.remote it.sku fi.currentQty fi.description }
                  { res with exported := res.exported ++ [(it.sku, fi.description)] }
                  hsubr'
                rw [h', List.countP_cons]
                simp [SmartResults.total, hk, hob]
                omega
        · simp only [smartExportLoop, if_neg hk, hob, Option.isSome_some, if_true]
          rw [ih _ _ hsubr, List.countP_cons]
          simp [hk, hob]

theorem smartApplyPair_errors_mem {now : Nat} {sku : String} {e : EbayItem}
    {fi : Item} {fq sd : Int} {w : World} {res : SmartResults} {x : String × String}
    (hx : x ∈ (smartApplyPair now sku e fi fq sd w res).2.errors) :
    x ∈ res.errors ∨ x.1 = sku := by
  have H : ∀ pr, smartApplyPair now sku e fi fq sd w res = pr →
      x ∈ pr.2.errors → x ∈ res.errors ∨ x.1 = sku := by
    intro pr hp
    simp only [smartApplyPair] at hp
    repeat' split at hp
    all_goals rw [← hp]
    all_goals intro hx'
    all_goals simp at hx'
    · rcases hx' with h | h
      · exact Or.inl h
      · right; rw [h]
    · rcases hx' with h | h
      · exact Or.inl h
      · right; rw [h]
    · exact Or.inl hx'
  exact H _ rfl hx

theorem smartPairBody_errors_mem {now : Nat} {sku : String} {e : EbayItem}
    {fi : Item} {w : World} {res : SmartResults} {x : String × String}
    (hx : x ∈ (smartPairBody now sku e fi w res).2.errors) :
    x ∈ res.errors ∨ x.1 = sku := by
  have H : ∀ pr, smartPairBody now sku e fi w res = pr →
      x ∈ pr.2.errors → x ∈ res.errors ∨ x.1 = sku := by
    intro pr hp
    simp only [smartPairBody] at hp
    repeat' split at hp
    all_goals rw [← hp]
    all_goals intro hx'
    case isTrue.isTrue =>
      simp at hx'
      rcases hx' with h | h
      · exact Or.inl h
      · right
        rw [h]
    all_goals have h2 := smartApplyPair_errors_mem hx'
    all_goals exact h2
  exact H _ rfl hx

theorem smartPairLoop_errors (now : Nat) (localItems : List Item)
    (inv : List (String × EbayItem)) :
    ∀ (w : World) (ps : List String) (res : SmartResults) (x : String × String),
      x ∈ (smartPairLoop now localItems inv w ps res).2.2.errors →
      x ∈ res.errors ∨ x.1 ∈ inv.map Prod.fst := by
  induction inv with
  | nil => intro w ps res x hx; simp [smartPairLoop] at hx; exact Or.inl hx
  | cons p rest ih =>
      intro w ps res x hx
      rcases p with ⟨k, e⟩
      rcases hf : localItems.find? (fun it => it.sku = k) with _ | it₀
      · rw [smartPairLoop, hf] at hx
        rcases ih _ _ _ _ hx with h | h
        · exact Or.inl h
        · right; simp [h]
      · rcases hget : getItem w.store k with _ | fi
        · rw [smartPairLoop, hf] at hx
          simp only [hget] at hx
          rcases ih _ _ _ _ hx with h | h
          · exact Or.inl h
          · right; simp [h]
        · rw [smartPairLoop, hf] at hx
          simp only [hget] at hx
          rcases ih _ _ _ _ hx with h | h
          · rcases smartPairBody_errors_mem h with h' | h'
            · exact Or.inl h'
            · right; simp [h']
          · right; simp [h]

theorem smartImportLoop_errors (now : Nat) (ps : List String)
    (inv : List (String × EbayItem)) :
    ∀ (w : World) (res : SmartResults) (x : String × String),
      x ∈ (smartImportLoop now ps inv w res).2.errors →
      x ∈ res.errors ∨ x.1 ∈ inv.map Prod.fst := by
  induction inv with
  | nil => intro w res x hx; simp [smartImportLoop] at hx; exact Or.inl hx
  | cons p rest ih =>
      intro w res x hx
      rcases p with ⟨k, e⟩
      simp only [smartImportLoop] at hx
      by_cases hk : k ∈ ps
      · rw [if_pos hk] at hx
        rcases ih _ _ _ hx with h | h
        · exact Or.inl h
        · right; simp [h]
      · rw [if_neg hk] at hx
        by_cases hl : k ∈ w.localFails
        · rw [if_pos hl] at hx
          rcases ih _ _ _ hx with h | h
          · simp at h
            rcases h with h | h
            · exact Or.inl h
            · right; simp [h]
          · right; simp [h]
        · rw [if_neg hl] at hx
          rcases ih _ _ _ hx with h | h
          · exact Or.inl h
          · right; simp [h]

theorem smartExportLoop_errors (now : Nat) (inv : List (String × EbayItem))
    (ps : List String) (items : List Item) :
    ∀ (w : World) (res : SmartResults) (x : String × String),
      x ∈ (smartExportLoop now inv ps items w res).2.errors →
      x ∈ res.errors ∨ x.1 ∈ items.map Item.sku := by
  induction items with
  | nil => intro w res x hx; simp [smartExportLoop] at hx; exact Or.inl hx
  | cons it rest ih =>
      intro w res x hx
      have step : ∀ (w' : World) (res' : SmartResults),
          (∀ y ∈ res'.errors, y ∈ res.errors ∨ y.1 = it.sku) →
          x ∈ (smartExportLoop now inv ps rest w' res').2.errors →
          x ∈ res.errors ∨ x.1 ∈ (it :: rest).map Item.sku := by
        intro w' res' hres hx'
        rcases ih _ _ _ hx' with h | h
        · rcases hres _ h with h' | h'
          · exact Or.inl h'
          · right; simp [h']
        · right; simp [h]
      simp only [smartExportLoop] at hx
      by_cases hk : it.sku ∈ ps
      · rw [if_pos hk] at hx
        refine step _ _ (fun y hy => ?_) hx
        exact Or.inl hy
      · rw [if_neg hk] at hx
        rcases hob : (objGet inv it.sku).isSome with _ | _
        · rw [hob] at hx
          simp only [Bool.false_eq_true, if_false] at hx
          rcases hget : getItem w.store it.sku with _ | fi
          · simp only [hget] at hx
            refine step _ _ (fun y hy => ?_) hx
            exact Or.inl hy
          · simp only [hget] at hx
            by_cases hr : it.sku ∈ w.remoteWriteFails
            · rw [if_pos hr] at hx
              refine step _ _ (fun y hy => ?_) hx
              simp at hy
              rcases hy with h | h
              · exact Or.inl h
              · right; rw [h]
            · rw [if_neg hr] at hx
              by_cases hl : it.sku ∈ w.localFails
              · rw [if_pos hl] at hx
                refine step _ _ (fun y hy => ?_) hx
                simp at hy
                rcases hy with h | h
                · exact Or.inl h
                · right; rw [h]
              · rw [if_neg hl] at hx
                refine step _ _ (fun y hy => ?_) hx
                exact Or.inl hy
        · rw [hob] at hx
          simp only [if_pos rfl] at hx
          refine step _ _ (fun y hy => ?_) hx
          exact Or.inl hy

theorem objGet_isSome_of_mem {inv : List (String × EbayItem)} {k : String}
    (h : ∃ q ∈ inv, q.1 = k) : (objGet inv k).isSome := by
  rw [objGet]
  rcases h with ⟨q, hq, hk⟩
  have hs : (inv.find? (fun p => p.1 = k)).isSome := List.find?_isSome.mpr ⟨q, hq, by simp [hk]⟩
  rcases hfind : inv.find? (fun p => p.1 = k) with _ | v
  · rw [hfind] at hs; cases hs
  · rw [hfind]; rfl

/-- C7. In pull, push and smart sync, a failure while processing one item
is caught and recorded as an error entry under the offending item's key,
and does not abort the remaining items: for every world (with arbitrary
per-SKU failure injections), the outcome lists account for exactly one
entry per input item — pull's four lists total the fetched item count,
push's total the local item count, and smart sync's total the paired-map
size plus the local-only count — and every error entry's key comes from
the input items. -/
theorem C7_thm (now : Nat) (w : World) (hf : w.fetchFails = false) :
    (∀ pr, pullFromEbay now w = some pr →
        pr.2.total = w.remote.length ∧
        ∀ x ∈ pr.2.errors, x.1 ∈ w.remote.map ebayKey) ∧
    ((pushToEbay now w).2.total = w.store.length ∧
      ∀ x ∈ (pushToEbay now w).2.errors, x.1 ∈ w.store.map Item.sku) ∧
    ((smartSyncAll now w).2.total
        = (smartInv w).length
          + w.store.countP (fun it => !(objGet (smartInv w) it.sku).isSome)) ∧
    (∀ x ∈ (smartSyncAll now w).2.errors,
        x.1 ∈ (smartInv w).map Prod.fst ∨ x.1 ∈ w.store.map Item.sku) := by
  refine ⟨?_, ⟨?_, ?_⟩, ?_, ?_⟩
  · intro pr hpr
    simp only [pullFromEbay, hf, Bool.false_eq_true, if_false, Option.some.injEq] at hpr
    subst hpr
    constructor
    · rw [pullLoop_total]
      simp [emptyPullResults, PullResults.total]
    · intro x hx
      rcases pullLoop_errors now w.remote w emptyPullResults x hx with h | h
      · simp [emptyPullResults] at h
      · exact h
  · simp only [pushToEbay]
    rw [pushLoop_total now (smartInv w) w.store w emptyPushResults
      (fun it hit => List.mem_map_of_mem _ hit)]
    simp [emptyPushResults, PushResults.total]
  · intro x hx
    simp only [pushToEbay] at hx
    rcases pushLoop_errors now (smartInv w) w.store w emptyPushResults x hx with h | h
    · simp [emptyPushResults] at h
    · exact h
  · have hps := smartPairLoop_ps now w.store (smartInv w) w [] emptySmartResults
    have h1 := smartPairLoop_total now w.store (smartInv w) w [] emptySmartResults
      (fun s hs => hs)
    have h2 := smartImportLoop_total now
      (smartPairLoop now w.store (smartInv w) w [] emptySmartResults).2.1 (smartInv w)
      (smartPairLoop now w.store (smartInv w) w [] emptySmartResults).1
      (smartPairLoop now w.store (smartInv w) w [] emptySmartResults).2.2
    have hsub : ∀ s ∈ w.store.map Item.sku,
        s ∈ (smartImportLoop now
          (smartPairLoop now w.store (smartInv w) w [] emptySmartResults).2.1 (smartInv w)
          (smartPairLoop now w.store (smartInv w) w [] emptySmartResults).1
          (smartPairLoop now w.store (smartInv w) w [] emptySmartResults).2.2).1.store.map Item.sku := by
      intro s hs
      refine smartImportLoop_map_sku_sub _ _ _ _ _ s ?_
      rw [smartPairLoop_map_sku]
      exact hs
    have h3 := smartExportLoop_total now (smartInv w)
      (smartPairLoop now w.store (smartInv w) w [] emptySmartResults).2.1 w.store
      (smartImportLoop now
        (smartPairLoop now w.store (smartInv w) w [] emptySmartResults).2.1 (smartInv w)
        (smartPairLoop now w.store (smartInv w) w [] emptySmartResults).1
        (smartPairLoop now w.store (smartInv w) w [] emptySmartResults).2.2).1
      (smartImportLoop now
        (smartPairLoop now w.store (smartInv w) w [] emptySmartResults).2.1 (smartInv w)
        (smartPairLoop now w.store (smartInv w) w [] emptySmartResults).1
        (smartPairLoop now w.store (smartInv w) w [] emptySmartResults).2.2).2 hsub
    simp only [smartSyncAll]
    rw [h3, h2, h1]
    have hpsmem : ∀ k, k ∈ (smartPairLoop now w.store (smartInv w) w [] emptySmartResults).2.1 ↔
        ∃ q ∈ smartInv w, q.1 = k ∧ (w.store.find? (fun it => it.sku = q.1)).isSome := by
      intro k
      rw [hps]
      simp only [List.nil_append, List.mem_map, List.mem_filter]
      constructor
      · rintro ⟨q, ⟨hq, hfind⟩, rfl⟩
        exact ⟨q, hq, rfl, hfind⟩
      · rintro ⟨q, hq, rfl, hfind⟩
        exact ⟨q, ⟨hq, hfind⟩, rfl⟩
    have hcount1 : (smartInv w).countP
          (fun p => !(decide (p.1 ∈ (smartPairLoop now w.store (smartInv w) w [] emptySmartResults).2.1)))
        = (smartInv w).countP
          (fun p => !((w.store.find? (fun it => it.sku = p.1)).isSome)) := by
      refine List.countP_congr fun p hp => ?_
      simp only [Bool.not_eq_true', decide_eq_false_iff_not, Bool.not_eq_true]
      constructor
      · intro hnp
        rcases hfind : (w.store.find? (fun it => it.sku = p.1)).isSome with _ | _
        · exact hfind
        · exact absurd ((hpsmem p.1).mpr ⟨p, hp, rfl, hfind⟩) hnp
      · intro hnf hmem
        rcases (hpsmem p.1).mp hmem with ⟨q, _, hqk, hfind⟩
        rw [hqk] at hfind
        rw [hfind] at hnf
        cases hnf
    have hcount2 : (smartInv w).countP
          (fun p => (w.store.find? (fun it => it.sku = p.1)).isSome)
        + (smartInv w).countP
          (fun p => !((w.store.find? (fun it => it.sku = p.1)).isSome))
        = (smartInv w).length := by
      rw [List.length_eq_countP_add_countP
        (fun p => (w.store.find? (fun it => it.sku = p.1)).isSome) (smartInv w)]
      congr 1
      refine List.countP_congr fun p hp => ?_
      cases h : (w.store.find? (fun it => it.sku = p.1)).isSome <;> simp [h]
    have hcount3 : w.store.countP
          (fun it => !(decide (it.sku ∈ (smartPairLoop now w.store (smartInv w) w [] emptySmartResults).2.1))
            && !(objGet (smartInv w) it.sku).isSome)
        = w.store.countP (fun it => !(objGet (smartInv w) it.sku).isSome) := by
      refine List.countP_congr fun it hit => ?_
      rcases hsome : (objGet (smartInv w) it.sku).isSome with _ | _
      · simp only [hsome, Bool.not_false, Bool.and_true]
        have hnotin : it.sku ∉ (smartPairLoop now w.store (smartInv w) w [] emptySmartResults).2.1 := by
          intro hin
          rcases (hpsmem it.sku).mp hin with ⟨q, hq, hqk, _⟩
          have hex : ∃ q ∈ smartInv w, q.1 = it.sku := ⟨q, hq, hqk⟩
          have := objGet_isSome_of_mem hex
          rw [hsome] at this
          cases this
        simp [hnotin]
      · simp [hsome]
    rw [hcount3, hcount1]
    simp only [emptySmartResults, SmartResults.total, List.length_nil]
    omega
  · intro x hx
    simp only [smartSyncAll] at hx
    rcases smartExportLoop_errors now (smartInv w) _ w.store _ _ x hx with h | h
    · rcases smartImportLoop_errors now _ (smartInv w) _ _ x h with h' | h'
      · rcases smartPairLoop_errors now w.store (smartInv w) w [] emptySmartResults x h' with h'' | h''
        · simp [emptySmartResults] at h''
        · exact Or.inl h''
      · exact Or.inl h'
    · exact Or.inr h

theorem C7_thm_witness :
    cxC7World.fetchFails = false ∧
    ((∀ pr, pullFromEbay 9 cxC7World = some pr →
        pr.2.total = cxC7World.remote.length ∧
        ∀ x ∈ pr.2.errors, x.1 ∈ cxC7World.remote.map ebayKey) ∧
     ((pushToEbay 9 cxC7World).2.total = cxC7World.store.length ∧
       ∀ x ∈ (pushToEbay 9 cxC7World).2.errors, x.1 ∈ cxC7World.store.map Item.sku) ∧
     ((smartSyncAll 9 cxC7World).2.total
         = (smartInv cxC7World).length
           + cxC7World.store.countP (fun it => !(objGet (smartInv cxC7World) it.sku).isSome)) ∧
     (∀ x ∈ (smartSyncAll 9 cxC7World).2.errors,
         x.1 ∈ (smartInv cxC7World).map Prod.fst ∨ x.1 ∈ cxC7World.store.map Item.sku)) :=
  ⟨by decide, C7_thm 9 cxC7World (by decide)⟩

/-! ### Pointwise frame lemmas for the keyed stores -/

theorem find?_map_key {α : Type} (key : α → String) (g : α → α)
    (hg : ∀ a, key (g a) = key a) (l : List α) (sku k : String) :
    (l.map (fun a => if key a = sku then g a else a)).find? (fun a => key a = k)
      = if k = sku then (l.find? (fun a => key a = k)).map g
        else l.find? (fun a => key a = k) := by
  induction l with
  | nil => by_cases h : k = sku <;> simp [h]
  | cons a rest ih =>
      simp only [List.map_cons]
      by_cases hka : key a = k
      · by_cases hks : k = sku
        · subst hks
          rw [List.find?_cons_of_pos _ (by rw [if_pos hka]; simp [hg, hka]),
              List.find?_cons_of_pos _ (by simp [hka]), if_pos rfl]
          simp [hka]
        · have hns : ¬ key a = sku := by rw [hka]; exact hks
          rw [if_neg hns,
              List.find?_cons_of_pos _ (by simp [hka]),
              List.find?_cons_of_pos _ (by simp [hka]), if_neg hks]
      · by_cases has : key a = sku
        · rw [if_pos has,
              List.find?_cons_of_neg _ (by simp [hg, hka]),
              List.find?_cons_of_neg _ (by simp [hka]), ih]
        · rw [if_neg has,
              List.find?_cons_of_neg _ (by simp [hka]),
              List.find?_cons_of_neg _ (by simp [hka]), ih]

theorem getItem_updStore {f : Item → Item} (hf : ∀ it, (f it).sku = it.sku)
    (store : List Item) (k k' : String) :
    getItem (updStore store k f) k'
      = if k' = k then (getItem store k').map f else getItem store k' := by
  have h := find?_map_key Item.sku f hf store k k'
  simpa [getItem, updStore] using h

theorem getItem_append (store : List Item) (it : Item) (k : String) :
    getItem (store ++ [it]) k
      = ((getItem store k).or (if it.sku = k then some it else none)) := by
  rw [getItem, List.find?_append]
  by_cases hsku : it.sku = k <;> simp [getItem, List.find?, hsku]

theorem remoteAt_syncUpsert_ne (remote : List EbayItem) (sku : String) (q : Int)
    (d : String) (k : String) (hne : k ≠ sku) :
    remoteAt (syncUpsert remote sku q d) k = remoteAt remote k := by
  rw [syncUpsert, remoteAt, remoteAt]
  split
  · rw [find?_map_key ebayKey _ (fun e => by cases e; rfl), if_neg hne]
  · rw [List.find?_append]
    have hk : ¬ ebayKey (⟨"", sku, q, 0, if d = "" then "Item " ++ sku else d⟩ : EbayItem) = k := by
      by_cases hs : sku = ""
      · simp only [ebayKey, hs, if_pos rfl]
        rw [hs] at hne
        exact fun h => hne h.symm
      · simp only [ebayKey, hs, if_neg hs]
        exact fun h => hne h.symm
    simp [List.find?, hk]

theorem remoteAt_syncUpsert_key (remote : List EbayItem) (sku : String) (q : Int)
    (d : String) :
    ∃ e, remoteAt (syncUpsert remote sku q d) sku = some e ∧
      e.quantity = q ∧ ebayKey e = sku := by
  have hkey : ebayKey (⟨"", sku, q, 0, if d = "" then "Item " ++ sku else d⟩ : EbayItem) = sku := by
    by_cases hs : sku = "" <;> simp [ebayKey, hs]
  rw [syncUpsert, remoteAt]
  split
  · rename_i hany
    rw [find?_map_key ebayKey _ (fun e => by cases e; rfl), if_pos rfl]
    have hs : (remote.find? (fun e => ebayKey e = sku)).isSome := by
      rw [List.find?_isSome]
      rcases List.any_eq_true.mp hany with ⟨e, he, hpe⟩
      exact ⟨e, he, hpe⟩
    rcases hfind : remote.find? (fun e => ebayKey e = sku) with _ | e₀
    · rw [hfind] at hs; cases hs
    · have hk₀ : ebayKey e₀ = sku := by simpa using List.find?_some hfind
      refine ⟨{ e₀ with quantity := q, title := if d = "" then "Item " ++ sku else d }, ?_, rfl, ?_⟩
      · simp
      · cases e₀; simpa using hk₀
  · rename_i hany
    have hnone : remote.find? (fun e => ebayKey e = sku) = none := by
      rw [List.find?_eq_none]
      intro e he hk
      exact hany (List.any_eq_true.mpr ⟨e, he, hk⟩)
    rw [List.find?_append, hnone]
    refine ⟨_, ?_, rfl, hkey⟩
    simp [List.find?, hkey]

theorem getItem_self {store : List Item} (hnd : (store.map Item.sku).Nodup)
    {it : Item} (hit : it ∈ store) : getItem store it.sku = some it := by
  have hs := getItem_isSome_of_mem (List.mem_map_of_mem Item.sku hit)
  rcases hfind : getItem store it.sku with _ | fi
  · rw [hfind] at hs; cases hs
  · have hmem := List.mem_of_find?_eq_some hfind
    have hsku : fi.sku = it.sku := getItem_sku hfind
    have heq := List.inj_on_of_nodup_map hnd hmem hit hsku
    rw [heq]

/-! ### Push and smart sync against an empty fetched inventory -/

theorem pushLoop_create_all (now : Nat) (items : List Item) :
    ∀ (w : World) (r : PushResults),
      w.remoteWriteFails = [] → w.localFails = [] →
      (∀ it ∈ items, (getItem w.store it.sku).isSome) →
      (pushLoop now [] items w r).2
          = { r with created := r.created ++ items.map Item.sku } ∧
      (∀ k, (∀ it ∈ items, it.sku ≠ k) →
        remoteAt (pushLoop now [] items w r).1.remote k = remoteAt w.remote k) := by
  induction items with
  | nil =>
      intro w r _ _ _
      exact ⟨by simp [pushLoop], fun k _ => by simp [pushLoop]⟩
  | cons it rest ih =>
      intro w r hr hl hsome
      have hs := hsome it (by simp)
      rcases hget : getItem w.store it.sku with _ | fi
      · rw [hget] at hs; cases hs
      · have hstep : pushStep now [] w it
            = ({ w with store := updStore w.store it.sku (pushSyncUpdate now fi)
                        remote := syncUpsert w.remote it.sku fi.currentQty fi.description },
               some (.createdOut it.sku)) := by
          have hfi : fi.sku = it.sku := getItem_sku hget
          simp [pushStep, pushWrite, hget, objGet, hr, hl, hfi]
        have hsome' : ∀ x ∈ rest, (getItem
            ({ w with store := updStore w.store it.sku (pushSyncUpdate now fi)
                      remote := syncUpsert w.remote it.sku fi.currentQty fi.description } : World).store x.sku).isSome := by
          intro x hx
          rw [getItem_updStore (f := pushSyncUpdate now fi) (fun _ => rfl)]
          by_cases hk : x.sku = it.sku
          · rw [if_pos hk, hk, hget]; rfl
          · rw [if_neg hk]
            exact hsome x (by simp [hx])
        have ihw := ih _ (r.add (.createdOut it.sku)) (by simp [hr]) (by simp [hl]) hsome'
        constructor
        · rw [pushLoop, hstep]
          simp only []
          rw [ihw.1]
          simp [PushResults.add]
        · intro k hk
          rw [pushLoop, hstep]
          simp only []
          rw [ihw.2 k (fun x hx => hk x (by simp [hx]))]
          simp only []
          rw [remoteAt_syncUpsert_ne _ _ _ _ _ (fun h => hk it (by simp) h.symm)]

theorem pushLoop_remote_val (now : Nat) (items : List Item) :
    ∀ (w : World) (r : PushResults),
      w.remoteWriteFails = [] → w.localFails = [] →
      (∀ x ∈ items, ∃ fi, getItem w.store x.sku = some fi ∧ fi.currentQty = x.currentQty) →
      (items.map Item.sku).Nodup →
      ∀ x ∈ items, ∃ e, remoteAt (pushLoop now [] items w r).1.remote x.sku = some e ∧
        e.quantity = x.currentQty ∧ ebayKey e = x.sku := by
  induction items with
  | nil => intro w r _ _ _ _ x hx; cases hx
  | cons it rest ih =>
      intro w r hr hl hval hnd x hx
      rcases hval it (by simp) with ⟨fi, hget, hqty⟩
      have hstep : pushStep now [] w it
          = ({ w with store := updStore w.store it.sku (pushSyncUpdate now fi)
                      remote := syncUpsert w.remote it.sku fi.currentQty fi.description },
             some (.createdOut it.sku)) := by
        have hfi : fi.sku = it.sku := getItem_sku hget
        simp [pushStep, pushWrite, hget, objGet, hr, hl, hfi]
      have hndr : (rest.map Item.sku).Nodup := by
        simp only [List.map_cons, List.nodup_cons] at hnd
        exact hnd.2
      have hne : ∀ y ∈ rest, y.sku ≠ it.sku := by
        intro y hy hcontra
        simp only [List.map_cons, List.nodup_cons] at hnd
        exact hnd.1 (hcontra ▸ List.mem_map_of_mem Item.sku hy)
      have hval' : ∀ y ∈ rest, ∃ fi', getItem
          ({ w with store := updStore w.store it.sku (pushSyncUpdate now fi)
                    remote := syncUpsert w.remote it.sku fi.currentQty fi.description } : World).store y.sku
            = some fi' ∧ fi'.currentQty = y.currentQty := by
        intro y hy
        rw [getItem_updStore (f := pushSyncUpdate now fi) (fun _ => rfl), if_neg (hne y hy)]
        exact hval y (by simp [hy])
      rcases List.mem_cons.mp hx with hx | hx
      · subst hx
        rw [pushLoop, hstep]
        simp only []
        have hframe := (pushLoop_create_all now rest
          { w with store := updStore w.store x.sku (pushSyncUpdate now fi)
                   remote := syncUpsert w.remote x.sku fi.currentQty fi.description }
          (r.add (.createdOut x.sku)) (by simp [hr]) (by simp [hl])
          (fun y hy => by rcases hval' y hy with ⟨fi', h1, _⟩; rw [h1]; rfl)).2
        rw [hframe x.sku (fun y hy h => hne y hy h)]
        simp only []
        rw [hqty]
        exact remoteAt_syncUpsert_key w.remote x.sku x.currentQty fi.description
      · rw [pushLoop, hstep]
        simp only []
        exact ih _ _ (by simp [hr]) (by simp [hl]) hval' hndr x hx

theorem smartExportLoop_export_all (now : Nat) (items : List Item) :
    ∀ (w : World) (res : SmartResults),
      w.remoteWriteFails = [] → w.localFails = [] →
      (∀ it ∈ items, (getItem w.store it.sku).isSome) →
      ((smartExportLoop now [] [] items w res).2.exported.map Prod.fst
          = res.exported.map Prod.fst ++ items.map Item.sku) ∧
      (smartExportLoop now [] [] items w res).2.errors = res.errors ∧
      (smartExportLoop now [] [] items w res).2.imported = res.imported ∧
      (smartExportLoop now [] [] items w res).2.updated = res.updated ∧
      (smartExportLoop now [] [] items w res).2.sales = res.sales := by
  induction items with
  | nil => intro w res _ _ _; simp [smartExportLoop]
  | cons it rest ih =>
      intro w res hr hl hsome
      have hs := hsome it (by simp)
      rcases hget : getItem w.store it.sku with _ | fi
      · rw [hget] at hs; cases hs
      · have hnil : (objGet ([] : List (String × EbayItem)) it.sku).isSome = false := rfl
        have hrm : it.sku ∉ w.remoteWriteFails := by rw [hr]; simp
        have hlm : it.sku ∉ w.localFails := by rw [hl]; simp
        have hsome' : ∀ x ∈ rest, (getItem
            (updStore w.store it.sku (pushSyncUpdate now fi)) x.sku).isSome := by
          intro x hx
          rw [getItem_updStore (f := pushSyncUpdate now fi) (fun _ => rfl)]
          by_cases hk : x.sku = it.sku
          · rw [if_pos hk, hk, hget]; rfl
          · rw [if_neg hk]
            exact hsome x (by simp [hx])
        have step : smartExportLoop now [] [] (it :: rest) w res
            = smartExportLoop now [] [] rest
                { w with store := updStore w.store it.sku (pushSyncUpdate now fi)
                         remote := syncUpsert w.remote it.sku fi.currentQty fi.description }
                { res with exported := res.exported ++ [(it.sku, fi.description)] } := by
          simp [smartExportLoop, hget, hnil, hrm, hlm]
        rw [step]
        have ihw := ih
          { w with store := updStore w.store it.sku (pushSyncUpdate now fi)
                   remote := syncUpsert w.remote it.sku fi.currentQty fi.description }
          { res with exported := res.exported ++ [(it.sku, fi.description)] }
          (by simp [hr]) (by simp [hl]) hsome'
        refine ⟨?_, ihw.2.1, ihw.2.2.1, ihw.2.2.2.1, ihw.2.2.2.2⟩
        rw [ihw.1]
        simp

/-- C9. If the initial fetch of the remote listing set fails, push and
smart sync swallow the failure and treat the remote inventory as empty:
with no per-item failures injected, every local item takes the
absent-remotely path — push reports them all created (no pushes, skips or
errors) and smart sync reports them all exported (no imports, updates,
sales or errors) — and each one's SKU ends up on the remote side with its
local quantity, rather than the call aborting or the fetch failure being
reported in the errors list. -/
theorem C9_thm (now : Nat) (w : World) (hf : w.fetchFails = true)
    (hr : w.remoteWriteFails = []) (hl : w.localFails = [])
    (hnd : (w.store.map Item.sku).Nodup) :
    ((pushToEbay now w).2.created = w.store.map Item.sku ∧
     (pushToEbay now w).2.errors = [] ∧
     (pushToEbay now w).2.pushed = [] ∧
     (pushToEbay now w).2.skipped = [] ∧
     (∀ it ∈ w.store, ∃ e, remoteAt (pushToEbay now w).1.remote it.sku = some e ∧
        e.quantity = it.currentQty ∧ ebayKey e = it.sku)) ∧
    ((smartSyncAll now w).2.exported.map Prod.fst = w.store.map Item.sku ∧
     (smartSyncAll now w).2.errors = [] ∧
     (smartSyncAll now w).2.imported = [] ∧
     (smartSyncAll now w).2.updated = [] ∧
     (smartSyncAll now w).2.sales = []) := by
  have hinv : smartInv w = [] := by simp [smartInv, hf]
  have hsome : ∀ it ∈ w.store, (getItem w.store it.sku).isSome :=
    fun it hit => getItem_isSome_of_mem (List.mem_map_of_mem Item.sku hit)
  constructor
  · have hres := pushLoop_create_all now w.store w emptyPushResults hr hl hsome
    have hval := pushLoop_remote_val now w.store w emptyPushResults hr hl
      (fun x hx => ⟨x, getItem_self hnd hx, rfl⟩) hnd
    constructor
    · simp only [pushToEbay, hinv]
      rw [hres.1]
      simp [emptyPushResults]
    refine ⟨?_, ?_, ?_, ?_⟩
    · simp only [pushToEbay, hinv]
      rw [hres.1]
      rfl
    · simp only [pushToEbay, hinv]
      rw [hres.1]
      rfl
    · simp only [pushToEbay, hinv]
      rw [hres.1]
      rfl
    · intro it hit
      simp only [pushToEbay, hinv]
      exact hval it hit
  · have hres := smartExportLoop_export_all now w.store w emptySmartResults hr hl hsome
    simp only [smartSyncAll, hinv, smartPairLoop, smartImportLoop]
    refine ⟨?_, hres.2.1, hres.2.2.1, hres.2.2.2.1, hres.2.2.2.2⟩
    rw [hres.1]
    simp [emptySmartResults]

theorem C9_thm_witness :
    cxC9World.fetchFails = true ∧ cxC9World.remoteWriteFails = [] ∧
    cxC9World.localFails = [] ∧ (cxC9World.store.map Item.sku).Nodup ∧
    (((pushToEbay 9 cxC9World).2.created = cxC9World.store.map Item.sku ∧
      (pushToEbay 9 cxC9World).2.errors = [] ∧
      (pushToEbay 9 cxC9World).2.pushed = [] ∧
      (pushToEbay 9 cxC9World).2.skipped = [] ∧
      (∀ it ∈ cxC9World.store, ∃ e, remoteAt (pushToEbay 9 cxC9World).1.remote it.sku = some e ∧
         e.quantity = it.currentQty ∧ ebayKey e = it.sku)) ∧
     ((smartSyncAll 9 cxC9World).2.exported.map Prod.fst = cxC9World.store.map Item.sku ∧
      (smartSyncAll 9 cxC9World).2.errors = [] ∧
      (smartSyncAll 9 cxC9World).2.imported = [] ∧
      (smartSyncAll 9 cxC9World).2.updated = [] ∧
      (smartSyncAll 9 cxC9World).2.sales = [])) :=
  ⟨by decide, by decide, by decide, by decide,
   C9_thm 9 cxC9World (by decide) (by decide) (by decide) (by decide)⟩

/-! ### Quantity non-negativity under nonnegative remote inputs -/

theorem forall_mem_updStore {P : Item → Prop} {store : List Item} {k : String}
    {f : Item → Item} (h : ∀ it ∈ store, P it) (hf : ∀ it ∈ store, P it → P (f it)) :
    ∀ it ∈ updStore store k f, P it := by
  intro it' hit'
  rcases List.mem_map.mp hit' with ⟨it, hit, rfl⟩
  by_cases hk : it.sku = k
  · simpa [hk] using hf it hit (h it hit)
  · simpa [hk] using h it hit

theorem forall_mem_syncUpsert {remote : List EbayItem} {sku : String} {q : Int}
    {d : String} (hq : 0 ≤ q) (h : ∀ e ∈ remote, 0 ≤ e.quantity) :
    ∀ e ∈ syncUpsert remote sku q d, 0 ≤ e.quantity := by
  rw [syncUpsert]
  split
  · intro e he
    rcases List.mem_map.mp he with ⟨e₀, he₀, rfl⟩
    by_cases hk : ebayKey e₀ = sku
    · simpa [hk] using hq
    · simpa [hk] using h e₀ he₀
  · intro e he
    rcases List.mem_append.mp he with h₀ | h₀
    · exact h e h₀
    · simp only [List.mem_singleton] at h₀
      rw [h₀]
      exact hq

theorem forall_mem_addHistory {store : List Item} {k : String} {en : HistoryEntry}
    (h : ∀ it ∈ store, 0 ≤ it.currentQty) :
    ∀ it ∈ addHistory store k en, 0 ≤ it.currentQty := by
  rw [addHistory]
  exact forall_mem_updStore h (fun it _ hp => hp)

theorem buildInv_val {Q : EbayItem → Prop} (l : List EbayItem) :
    ∀ (m : List (String × EbayItem)),
      (∀ p ∈ m, Q p.2) → (∀ e ∈ l, Q e) →
      ∀ p ∈ l.foldl (fun m e => objInsert m (ebayKey e) e) m, Q p.2 := by
  induction l with
  | nil => intro m hm _ p hp; exact hm p hp
  | cons e rest ih =>
      intro m hm hl p hp
      refine ih (objInsert m (ebayKey e) e) ?_ (fun x hx => hl x (by simp [hx])) p hp
      intro x hx
      rw [objInsert] at hx
      split at hx
      · rcases List.mem_map.mp hx with ⟨y, hy, rfl⟩
        by_cases hk : y.1 = ebayKey e
        · simpa [hk] using hl e (by simp)
        · simpa [hk] using hm y hy
      · rcases List.mem_append.mp hx with h₀ | h₀
        · exact hm x h₀
        · simp only [List.mem_singleton] at h₀
          rw [h₀]
          exact hl e (by simp)

theorem mem_smartInv_val {w : World} (hr : ∀ e ∈ w.remote, 0 ≤ e.quantity) :
    ∀ p ∈ smartInv w, 0 ≤ p.2.quantity := by
  rw [smartInv]
  split
  · intro p hp; cases hp
  · exact buildInv_val w.remote [] (fun p hp => by cases hp) hr

theorem pullScan_nonneg (li : Item) (s : Snapshot) (lst : Option Nat) (e : EbayItem)
    (sku : String) (fails : List String) :
    ∀ (changes : List EbayChange) (store : List Item) (u : PullUpdates) (fs : List String),
      (∀ it ∈ store, 0 ≤ it.currentQty) →
      (u.currentQty = none ∨ ∃ v, u.currentQty = some v ∧ 0 ≤ v) →
      (∀ it ∈ (pullScan li s lst e sku fails changes store u fs).1, 0 ≤ it.currentQty) ∧
      ((pullScan li s lst e sku fails changes store u fs).2.1.currentQty = none ∨
        ∃ v, (pullScan li s lst e sku fails changes store u fs).2.1.currentQty = some v ∧ 0 ≤ v) := by
  intro changes
  induction changes with
  | nil => intro store u fs hstore hu; exact ⟨hstore, hu⟩
  | cons c rest ih =>
      intro store u fs hstore hu
      rcases c with _ | ⟨o, n⟩ | ⟨o, n⟩ | ⟨o, n⟩
      · exact ih store _ _ hstore hu
      · simp only [pullScan]
        by_cases hch : li.currentQty ≠ s.quantity
        · rw [if_pos hch]
          by_cases ht : li.lastModified > lst.getD 0
          · rw [if_pos ht]; exact ih store u fs hstore hu
          · rw [if_neg ht]; exact ih store u _ hstore hu
        · rw [if_neg hch]
          by_cases hlt : n < s.quantity
          · rw [if_pos hlt]
            by_cases hfail : sku ∈ fails
            · rw [if_pos hfail]
              exact ⟨hstore, Or.inr ⟨_, rfl, le_max_left 0 _⟩⟩
            · rw [if_neg hfail]
              exact ih _ _ _ (forall_mem_addHistory hstore)
                (Or.inr ⟨_, rfl, le_max_left 0 _⟩)
          · rw [if_neg hlt]; exact ih store u _ hstore hu
      · simp only [pullScan]
        by_cases hch : li.price ≠ s.price
        · rw [if_pos hch]
          by_cases ht : li.lastModified > lst.getD 0
          · rw [if_pos ht]; exact ih store u fs hstore hu
          · rw [if_neg ht]; exact ih store _ _ hstore hu
        · rw [if_neg hch]; exact ih store _ _ hstore hu
      · simp only [pullScan]
        by_cases hch : li.description ≠ s.title
        · rw [if_pos hch]
          by_cases ht : li.lastModified > lst.getD 0
          · rw [if_pos ht]; exact ih store u fs hstore hu
          · rw [if_neg ht]; exact ih store _ _ hstore hu
        · rw [if_neg hch]; exact ih store _ _ hstore hu

theorem pullStep_nonneg (now : Nat) (w : World) (e : EbayItem)
    (hq : 0 ≤ e.quantity) (hstore : ∀ it ∈ w.store, 0 ≤ it.currentQty) :
    ∀ it ∈ (pullStep now w e).1.store, 0 ≤ it.currentQty := by
  suffices H : ∀ pr, pullStep now w e = pr → ∀ it ∈ pr.1.store, 0 ≤ it.currentQty
    from H _ rfl
  intro pr hp
  simp only [pullStep] at hp
  split at hp
  · split at hp
    all_goals rw [← hp]
    · exact hstore
    · intro it hit
      rcases List.mem_append.mp hit with h₀ | h₀
      · exact hstore it h₀
      · simp only [List.mem_singleton] at h₀
        rw [h₀]
        simpa [createLocalItemFromEbay] using hq
  · rename_i li hli
    split at hp
    · split at hp
      all_goals rw [← hp]
      · exact hstore
      · refine forall_mem_updStore hstore (fun it _ hit => ?_)
        simpa [applyPullUpdates, bootstrapUpdates] using hit
    · rename_i s hs
      split at hp
      · rw [← hp]; exact hstore
      · rename_i hne
        rcases hscan : pullScan li s (li.ebaySync.bind EbaySyncInfo.lastSyncTime) e
            (ebayKey e) w.localFails (detectEbayChanges e (some s)) w.store
            { price := none, description := none, currentQty := none } [] with ⟨store', u, fs, err⟩
        have hspec := pullScan_nonneg li s (li.ebaySync.bind EbaySyncInfo.lastSyncTime) e
          (ebayKey e) w.localFails (detectEbayChanges e (some s)) w.store
          { price := none, description := none, currentQty := none } [] hstore (Or.inl rfl)
        rw [hscan] at hspec hp
        rcases hspec with ⟨hsp1, hsp2⟩
        dsimp only at hsp1 hsp2
        rcases err with _ | msg
        · simp only [] at hp
          split at hp
          · split at hp
            all_goals rw [← hp]
            · exact hsp1
            · refine forall_mem_updStore hsp1 (fun it _ hit => ?_)
              simp only [applyPullUpdates]
              rcases hsp2 with hnone | ⟨v, hv, hvn⟩
              · simpa [hnone] using hit
              · simpa [hv] using hvn
          · rw [← hp]; exact hsp1
        · simp only [] at hp
          rw [← hp]
          exact hsp1

theorem pullLoop_nonneg (now : Nat) (items : List EbayItem) :
    ∀ (w : World) (r : PullResults),
      (∀ e ∈ items, 0 ≤ e.quantity) →
      (∀ it ∈ w.store, 0 ≤ it.currentQty) →
      (∀ e ∈ w.remote, 0 ≤ e.quantity) →
      (∀ it ∈ (pullLoop now items w r).1.store, 0 ≤ it.currentQty) ∧
      (∀ e ∈ (pullLoop now items w r).1.remote, 0 ≤ e.quantity) := by
  induction items with
  | nil => intro w r _ hs hr; exact ⟨hs, hr⟩
  | cons e rest ih =>
      intro w r hq hs hr
      rw [pullLoop]
      have hrem : (pullStep now w e).1.remote = w.remote := by
        suffices H : ∀ pr, pullStep now w e = pr → pr.1.remote = w.remote from H _ rfl
        intro pr hp
        simp only [pullStep] at hp
        repeat' split at hp
        all_goals rw [← hp]
      refine ih _ _ (fun x hx => hq x (by simp [hx]))
        (pullStep_nonneg now w e (hq e (by simp)) hs) ?_
      rw [hrem]
      exact hr

theorem pushStep_nonneg (now : Nat) (inv : List (String × EbayItem)) (w : World)
    (it : Item) (hstore : ∀ x ∈ w.store, 0 ≤ x.currentQty)
    (hrem : ∀ e ∈ w.remote, 0 ≤ e.quantity) :
    (∀ x ∈ (pushStep now inv w it).1.store, 0 ≤ x.currentQty) ∧
    (∀ e ∈ (pushStep now inv w it).1.remote, 0 ≤ e.quantity) := by
  suffices H : ∀ pr, pushStep now inv w it = pr →
      (∀ x ∈ pr.1.store, 0 ≤ x.currentQty) ∧ (∀ e ∈ pr.1.remote, 0 ≤ e.quantity)
    from H _ rfl
  intro pr hp
  simp only [pushStep] at hp
  split at hp
  · rw [← hp]; exact ⟨hstore, hrem⟩
  · rename_i fi hfi
    have hfim : fi ∈ w.store := List.mem_of_find?_eq_some hfi
    have hfiq : 0 ≤ fi.currentQty := hstore fi hfim
    have hwrite : ∀ (ok : PushOutcome) (pr' : World × Option PushOutcome),
        pushWrite now w fi ok = pr' →
        (∀ x ∈ pr'.1.store, 0 ≤ x.currentQty) ∧ (∀ e ∈ pr'.1.remote, 0 ≤ e.quantity) := by
      intro ok pr' hp'
      simp only [pushWrite] at hp'
      repeat' split at hp'
      all_goals rw [← hp']
      · exact ⟨hstore, hrem⟩
      · exact ⟨hstore, forall_mem_syncUpsert hfiq hrem⟩
      · refine ⟨forall_mem_updStore hstore (fun x _ hx => by simpa [pushSyncUpdate] using hx),
          forall_mem_syncUpsert hfiq hrem⟩
    split at hp
    · exact hwrite _ _ hp
    · split at hp
      · rw [← hp]; exact ⟨hstore, hrem⟩
      · exact hwrite _ _ hp

theorem pushLoop_nonneg (now : Nat) (inv : List (String × EbayItem))
    (items : List Item) :
    ∀ (w : World) (r : PushResults),
      (∀ x ∈ w.store, 0 ≤ x.currentQty) →
      (∀ e ∈ w.remote, 0 ≤ e.quantity) →
      (∀ x ∈ (pushLoop now inv items w r).1.store, 0 ≤ x.currentQty) ∧
      (∀ e ∈ (pushLoop now inv items w r).1.remote, 0 ≤ e.quantity) := by
  induction items with
  | nil => intro w r hs hr; exact ⟨hs, hr⟩
  | cons it rest ih =>
      intro w r hs hr
      rw [pushLoop]
      have h := pushStep_nonneg now inv w it hs hr
      exact ih _ _ h.1 h.2

theorem smartApplyPair_nonneg (now : Nat) (sku : String) (e : EbayItem) (fi : Item)
    (fq sd : Int) (w : World) (res : SmartResults) (hfq : 0 ≤ fq)
    (hstore : ∀ x ∈ w.store, 0 ≤ x.currentQty)
    (hrem : ∀ x ∈ w.remote, 0 ≤ x.quantity) :
    (∀ x ∈ (smartApplyPair now sku e fi fq sd w res).1.store, 0 ≤ x.currentQty) ∧
    (∀ x ∈ (smartApplyPair now sku e fi fq sd w res).1.remote, 0 ≤ x.quantity) := by
  suffices H : ∀ pr, smartApplyPair now sku e fi fq sd w res = pr →
      (∀ x ∈ pr.1.store, 0 ≤ x.currentQty) ∧ (∀ x ∈ pr.1.remote, 0 ≤ x.quantity)
    from H _ rfl
  intro pr hp
  simp only [smartApplyPair] at hp
  repeat' split at hp
  all_goals rw [← hp]
  · exact ⟨hstore, hrem⟩
  · exact ⟨hstore, forall_mem_syncUpsert hfq hrem⟩
  · exact ⟨forall_mem_updStore hstore (fun x _ _ => by simpa [smartUpdate] using hfq),
      forall_mem_syncUpsert hfq hrem⟩

theorem smartPairBody_nonneg (now : Nat) (sku : String) (e : EbayItem) (fi : Item)
    (w : World) (res : SmartResults) (hfi : 0 ≤ fi.currentQty)
    (hstore : ∀ x ∈ w.store, 0 ≤ x.currentQty)
    (hrem : ∀ x ∈ w.remote, 0 ≤ x.quantity) :
    (∀ x ∈ (smartPairBody now sku e fi w res).1.store, 0 ≤ x.currentQty) ∧
    (∀ x ∈ (smartPairBody now sku e fi w res).1.remote, 0 ≤ x.quantity) := by
  suffices H : ∀ pr, smartPairBody now sku e fi w res = pr →
      (∀ x ∈ pr.1.store, 0 ≤ x.currentQty) ∧ (∀ x ∈ pr.1.remote, 0 ≤ x.quantity)
    from H _ rfl
  intro pr hp
  simp only [smartPairBody] at hp
  split at hp
  · split at hp
    · rw [← hp]; exact ⟨hstore, hrem⟩
    · rw [← hp] at *
      refine smartApplyPair_nonneg _ _ _ _ _ _ _ _ (le_max_left 0 _)
        (forall_mem_addHistory hstore) hrem
  · rw [← hp] at *
    exact smartApplyPair_nonneg _ _ _ _ _ _ _ _ hfi hstore hrem

theorem smartPairLoop_nonneg (now : Nat) (localItems : List Item)
    (inv : List (String × EbayItem)) :
    ∀ (w : World) (ps : List String) (res : SmartResults),
      (∀ x ∈ w.store, 0 ≤ x.currentQty) →
      (∀ x ∈ w.remote, 0 ≤ x.quantity) →
      (∀ x ∈ (smartPairLoop now localItems inv w ps res).1.store, 0 ≤ x.currentQty) ∧
      (∀ x ∈ (smartPairLoop now localItems inv w ps res).1.remote, 0 ≤ x.quantity) := by
  induction inv with
  | nil => intro w ps res hs hr; exact ⟨hs, hr⟩
  | cons p rest ih =>
      intro w ps res hs hr
      rcases p with ⟨k, e⟩
      cases hf : localItems.find? (fun it => it.sku = k) with
      | none => simp only [smartPairLoop, hf]; exact ih w ps res hs hr
      | some it₀ =>
          cases hget : getItem w.store k with
          | none => simp only [smartPairLoop, hf, hget]; exact ih w _ res hs hr
          | some fi =>
              simp only [smartPairLoop, hf, hget]
              have hfi : 0 ≤ fi.currentQty := hs fi (List.mem_of_find?_eq_some hget)
              have hb := smartPairBody_nonneg now k e fi w res hfi hs hr
              exact ih _ _ _ hb.1 hb.2

theorem smartImportLoop_nonneg (now : Nat) (ps : List String)
    (inv : List (String × EbayItem)) :
    ∀ (w : World) (res : SmartResults),
      (∀ p ∈ inv, 0 ≤ p.2.quantity) →
      (∀ x ∈ w.store, 0 ≤ x.currentQty) →
      (∀ x ∈ w.remote, 0 ≤ x.quantity) →
      (∀ x ∈ (smartImportLoop now ps inv w res).1.store, 0 ≤ x.currentQty) ∧
      (∀ x ∈ (smartImportLoop now ps inv w res).1.remote, 0 ≤ x.quantity) := by
  induction inv with
  | nil => intro w res _ hs hr; exact ⟨hs, hr⟩
  | cons p rest ih =>
      intro w res hq hs hr
      rcases p with ⟨k, e⟩
      simp only [smartImportLoop]
      by_cases hk : k ∈ ps
      · rw [if_pos hk]
        exact ih w res (fun x hx => hq x (by simp [hx])) hs hr
      · rw [if_neg hk]
        by_cases hl : k ∈ w.localFails
        · rw [if_pos hl]
          exact ih w _ (fun x hx => hq x (by simp [hx])) hs hr
        · rw [if_neg hl]
          refine ih _ _ (fun x hx => hq x (by simp [hx])) ?_ hr
          intro x hx
          rcases List.mem_append.mp hx with h₀ | h₀
          · exact hs x h₀
          · simp only [List.mem_singleton] at h₀
            rw [h₀]
            simpa [createLocalItemFromEbay] using hq (k, e) (by simp)

theorem smartExportLoop_nonneg (now : Nat) (inv : List (String × EbayItem))
    (ps : List String) (items : List Item) :
    ∀ (w : World) (res : SmartResults),
      (∀ x ∈ w.store, 0 ≤ x.currentQty) →
      (∀ x ∈ w.remote, 0 ≤ x.quantity) →
      (∀ x ∈ (smartExportLoop now inv ps items w res).1.store, 0 ≤ x.currentQty) ∧
      (∀ x ∈ (smartExportLoop now inv ps items w res).1.remote, 0 ≤ x.quantity) := by
  induction items with
  | nil => intro w res hs hr; exact ⟨hs, hr⟩
  | cons it rest ih =>
      intro w res hs hr
      simp only [smartExportLoop]
      by_cases hk : it.sku ∈ ps
      · rw [if_pos hk]; exact ih w res hs hr
      · rw [if_neg hk]
        rcases hob : (objGet inv it.sku).isSome with _ | _
        · simp only [Bool.false_eq_true, if_false]
          rcases hget : getItem w.store it.sku with _ | fi
          · simp only [hget]
            exact ih w res hs hr
          · simp only [hget]
            have hfi : 0 ≤ fi.currentQty := hs fi (List.mem_of_find?_eq_some hget)
            by_cases hrm : it.sku ∈ w.remoteWriteFails
            · rw [if_pos hrm]; exact ih w _ hs hr
            · rw [if_neg hrm]
              by_cases hlm : it.sku ∈ w.localFails
              · rw [if_pos hlm]
                exact ih _ _ hs (forall_mem_syncUpsert hfi hr)
              · rw [if_neg hlm]
                refine ih _ _ ?_ (forall_mem_syncUpsert hfi hr)
                exact forall_mem_updStore hs (fun x _ hx => by simpa [pushSyncUpdate] using hx)
        · simp only [if_pos rfl]
          exact ih w res hs hr

theorem runOp_nonneg (w : World) (op : SyncOp) (h : NN w) : NN (runOp w op) := by
  rcases h with ⟨hs, hr⟩
  rcases op with now | now | now
  · rw [runOp]
    rcases hpull : pullFromEbay now w with _ | pr
    · exact ⟨hs, hr⟩
    · simp only [pullFromEbay] at hpull
      split at hpull
      · cases hpull
      · simp only [Option.some.injEq] at hpull
        rw [← hpull]
        have := pullLoop_nonneg now w.remote w emptyPullResults hr hs hr
        exact ⟨this.1, this.2⟩
  · rw [runOp, pushToEbay]
    exact pushLoop_nonneg now (smartInv w) w.store w emptyPushResults hs hr
  · rw [runOp, smartSyncAll]
    have hq := mem_smartInv_val hr
    have h1 := smartPairLoop_nonneg now w.store (smartInv w) w [] emptySmartResults hs hr
    have h2 := smartImportLoop_nonneg now
      (smartPairLoop now w.store (smartInv w) w [] emptySmartResults).2.1 (smartInv w)
      (smartPairLoop now w.store (smartInv w) w [] emptySmartResults).1
      (smartPairLoop now w.store (smartInv w) w [] emptySmartResults).2.2 hq h1.1 h1.2
    exact smartExportLoop_nonneg now (smartInv w)
      (smartPairLoop now w.store (smartInv w) w [] emptySmartResults).2.1 w.store _ _ h2.1 h2.2

/-- C6 (amended): starting from non-negative local quantities, and
provided every remote listing's parsed quantity is non-negative, every
sequence of pull / push / smart-sync calls (with arbitrary per-item
failure injections) keeps every record's `currentQty` non-negative — the
sale paths clamp at 0 and all other writes copy non-negative values.  (The
clamp does not extend to the import path: a negative parsed remote
quantity is copied verbatim into a created record, see the
counterexample.) -/
theorem C6_thm (w : World) (ops : List SyncOp)
    (hs : ∀ it ∈ w.store, 0 ≤ it.currentQty)
    (hr : ∀ e ∈ w.remote, 0 ≤ e.quantity) :
    ∀ it ∈ (runOps w ops).store, 0 ≤ it.currentQty := by
  suffices H : NN (runOps w ops) from H.1
  rw [runOps]
  induction ops generalizing w with
  | nil => exact ⟨hs, hr⟩
  | cons op rest ih =>
      rw [List.foldl_cons]
      have h := runOp_nonneg w op ⟨hs, hr⟩
      exact ih _ h.1 h.2

theorem C6_thm_witness :
    (∀ it ∈ cxC8World.store, 0 ≤ it.currentQty) ∧
    (∀ e ∈ cxC8World.remote, 0 ≤ e.quantity) ∧
    (∀ it ∈ (runOps cxC8World [.smartOp 9, .pullOp 10, .pushOp 11, .smartOp 12]).store,
      0 ≤ it.currentQty) :=
  ⟨by decide, by decide,
   C6_thm cxC8World [.smartOp 9, .pullOp 10, .pushOp 11, .smartOp 12] (by decide) (by decide)⟩

/-! ### Append-only evolution of the history ledger -/

theorem histExtends_refl (l : List Item) : HistExtends l l :=
  ⟨le_refl _, fun i h1 h2 => by
    have : h1 = h2 := rfl
    exact ⟨rfl, [], by simp⟩⟩

theorem histExtends_trans {a b c : List Item} (h1 : HistExtends a b)
    (h2 : HistExtends b c) : HistExtends a c := by
  refine ⟨le_trans h1.1 h2.1, fun i ha hc => ?_⟩
  have hb : i < b.length := lt_of_lt_of_le ha h1.1
  rcases h1.2 i ha hb with ⟨hs1, t1, ht1⟩
  rcases h2.2 i hb hc with ⟨hs2, t2, ht2⟩
  exact ⟨hs2.trans hs1, t1 ++ t2, by rw [ht2, ht1, List.append_assoc]⟩

theorem histExtends_updStore {store : List Item} {k : String} {f : Item → Item}
    (hf : ∀ it, (f it).sku = it.sku ∧ ∃ tl, (f it).history = it.history ++ tl) :
    HistExtends store (updStore store k f) := by
  refine ⟨by simp [updStore], fun i h1 h2 => ?_⟩
  have hget : (updStore store k f).get ⟨i, h2⟩
      = (fun it => if it.sku = k then f it else it) (store.get ⟨i, h1⟩) := by
    simp [updStore, List.get_eq_getElem, List.getElem_map]
  rw [hget]
  by_cases hk : (store.get ⟨i, h1⟩).sku = k
  · simp only []
    rw [if_pos hk]
    exact hf _
  · simp only []
    rw [if_neg hk]
    exact ⟨rfl, [], by simp⟩

theorem histExtends_append (store l2 : List Item) : HistExtends store (store ++ l2) := by
  refine ⟨by simp, fun i h1 h2 => ?_⟩
  have : (store ++ l2).get ⟨i, h2⟩ = store.get ⟨i, h1⟩ := by
    simp [List.get_eq_getElem, List.getElem_append_left h1]
  rw [this]
  exact ⟨rfl, [], by simp⟩

theorem histExtends_addHistory (store : List Item) (k : String) (en : HistoryEntry) :
    HistExtends store (addHistory store k en) := by
  rw [addHistory]
  exact histExtends_updStore (fun it => ⟨rfl, [en], rfl⟩)

theorem pullScan_hist (li : Item) (s : Snapshot) (lst : Option Nat) (e : EbayItem)
    (sku : String) (fails : List String) :
    ∀ (changes : List EbayChange) (store : List Item) (u : PullUpdates) (fs : List String),
      HistExtends store (pullScan li s lst e sku fails changes store u fs).1 := by
  intro changes
  induction changes with
  | nil => intro store u fs; exact histExtends_refl store
  | cons c rest ih =>
      intro store u fs
      rcases c with _ | ⟨o, n⟩ | ⟨o, n⟩ | ⟨o, n⟩
      · exact ih store _ _
      · simp only [pullScan]
        by_cases hch : li.currentQty ≠ s.quantity
        · rw [if_pos hch]
          by_cases ht : li.lastModified > lst.getD 0
          · rw [if_pos ht]; exact ih store u fs
          · rw [if_neg ht]; exact ih store u _
        · rw [if_neg hch]
          by_cases hlt : n < s.quantity
          · rw [if_pos hlt]
            by_cases hfail : sku ∈ fails
            · rw [if_pos hfail]; exact histExtends_refl store
            · rw [if_neg hfail]
              exact histExtends_trans (histExtends_addHistory store sku _) (ih _ _ _)
          · rw [if_neg hlt]; exact ih store u _
      · simp only [pullScan]
        by_cases hch : li.price ≠ s.price
        · rw [if_pos hch]
          by_cases ht : li.lastModified > lst.getD 0
          · rw [if_pos ht]; exact ih store u fs
          · rw [if_neg ht]; exact ih store _ _
        · rw [if_neg hch]; exact ih store _ _
      · simp only [pullScan]
        by_cases hch : li.description ≠ s.title
        · rw [if_pos hch]
          by_cases ht : li.lastModified > lst.getD 0
          · rw [if_pos ht]; exact ih store u fs
          · rw [if_neg ht]; exact ih store _ _
        · rw [if_neg hch]; exact ih store _ _

theorem pullStep_hist (now : Nat) (w : World) (e : EbayItem) :
    HistExtends w.store (pullStep now w e).1.store := by
  suffices H : ∀ pr, pullStep now w e = pr → HistExtends w.store pr.1.store
    from H _ rfl
  intro pr hp
  simp only [pullStep] at hp
  split at hp
  · split at hp
    all_goals rw [← hp]
    · exact histExtends_refl _
    · exact histExtends_append _ _
  · rename_i li hli
    split at hp
    · split at hp
      all_goals rw [← hp]
      · exact histExtends_refl _
      · exact histExtends_updStore (fun it => ⟨rfl, [], by simp [applyPullUpdates]⟩)
    · rename_i s hs
      split at hp
      · rw [← hp]; exact histExtends_refl _
      · rcases hscan : pullScan li s (li.ebaySync.bind EbaySyncInfo.lastSyncTime) e
            (ebayKey e) w.localFails (detectEbayChanges e (some s)) w.store
            { price := none, description := none, currentQty := none } [] with ⟨store', u, fs, err⟩
        have hsc := pullScan_hist li s (li.ebaySync.bind EbaySyncInfo.lastSyncTime) e
          (ebayKey e) w.localFails (detectEbayChanges e (some s)) w.store
          { price := none, description := none, currentQty := none } []
        rw [hscan] at hsc hp
        dsimp only at hsc
        rcases err with _ | msg
        · simp only [] at hp
          split at hp
          · split at hp
            all_goals rw [← hp]
            · exact hsc
            · exact histExtends_trans hsc
                (histExtends_updStore (fun it => ⟨rfl, [], by simp [applyPullUpdates]⟩))
          · rw [← hp]; exact hsc
        · simp only [] at hp
          rw [← hp]
          exact hsc

theorem pullLoop_hist (now : Nat) (items : List EbayItem) :
    ∀ (w : World) (r : PullResults),
      HistExtends w.store (pullLoop now items w r).1.store := by
  induction items with
  | nil => intro w r; exact histExtends_refl _
  | cons e rest ih =>
      intro w r
      rw [pullLoop]
      exact histExtends_trans (pullStep_hist now w e) (ih _ _)

theorem pushStep_hist (now : Nat) (inv : List (String × EbayItem)) (w : World)
    (it : Item) : HistExtends w.store (pushStep now inv w it).1.store := by
  suffices H : ∀ pr, pushStep now inv w it = pr → HistExtends w.store pr.1.store
    from H _ rfl
  intro pr hp
  simp only [pushStep, pushWrite] at hp
  repeat' split at hp
  all_goals rw [← hp]
  all_goals first
    | exact histExtends_refl _
    | exact histExtends_updStore (fun x => ⟨rfl, [], by simp [pushSyncUpdate]⟩)

theorem pushLoop_hist (now : Nat) (inv : List (String × EbayItem))
    (items : List Item) :
    ∀ (w : World) (r : PushResults),
      HistExtends w.store (pushLoop now inv items w r).1.store := by
  induction items with
  | nil => intro w r; exact histExtends_refl _
  | cons it rest ih =>
      intro w r
      rw [pushLoop]
      exact histExtends_trans (pushStep_hist now inv w it) (ih _ _)

theorem smartApplyPair_hist (now : Nat) (sku : String) (e : EbayItem) (fi : Item)
    (fq sd : Int) (w : World) (res : SmartResults) :
    HistExtends w.store (smartApplyPair now sku e fi fq sd w res).1.store := by
  suffices H : ∀ pr, smartApplyPair now sku e fi fq sd w res = pr →
      HistExtends w.store pr.1.store from H _ rfl
  intro pr hp
  simp only [smartApplyPair] at hp
  repeat' split at hp
  all_goals rw [← hp]
  all_goals first
    | exact histExtends_refl _
    | exact histExtends_updStore (fun x => ⟨rfl, [], by simp [smartUpdate]⟩)

theorem smartPairBody_hist (now : Nat) (sku : String) (e : EbayItem) (fi : Item)
    (w : World) (res : SmartResults) :
    HistExtends w.store (smartPairBody now sku e fi w res).1.store := by
  suffices H : ∀ pr, smartPairBody now sku e fi w res = pr →
      HistExtends w.store pr.1.store from H _ rfl
  intro pr hp
  simp only [smartPairBody] at hp
  split at hp
  · split at hp
    · rw [← hp]; exact histExtends_refl _
    · rw [← hp] at *
      refine histExtends_trans ?_ (smartApplyPair_hist now sku e fi _ _ _ _)
      exact histExtends_addHistory w.store sku _
  · rw [← hp] at *
    exact smartApplyPair_hist now sku e fi _ _ _ _

theorem smartPairLoop_hist (now : Nat) (localItems : List Item)
    (inv : List (String × EbayItem)) :
    ∀ (w : World) (ps : List String) (res : SmartResults),
      HistExtends w.store (smartPairLoop now localItems inv w ps res).1.store := by
  induction inv with
  | nil => intro w ps res; exact histExtends_refl _
  | cons p rest ih =>
      intro w ps res
      rcases p with ⟨k, e⟩
      cases hf : localItems.find? (fun it => it.sku = k) with
      | none => simp only [smartPairLoop, hf]; exact ih w ps res
      | some it₀ =>
          cases hget : getItem w.store k with
          | none => simp only [smartPairLoop, hf, hget]; exact ih w _ res
          | some fi =>
              simp only [smartPairLoop, hf, hget]
              exact histExtends_trans (smartPairBody_hist now k e fi w res) (ih _ _ _)

theorem smartImportLoop_hist (now : Nat) (ps : List String)
    (inv : List (String × EbayItem)) :
    ∀ (w : World) (res : SmartResults),
      HistExtends w.store (smartImportLoop now ps inv w res).1.store := by
  induction inv with
  | nil => intro w res; exact histExtends_refl _
  | cons p rest ih =>
      intro w res
      rcases p with ⟨k, e⟩
      simp only [smartImportLoop]
      by_cases hk : k ∈ ps
      · rw [if_pos hk]; exact ih w res
      · rw [if_neg hk]
        by_cases hl : k ∈ w.localFails
        · rw [if_pos hl]; exact ih w _
        · rw [if_neg hl]
          refine histExtends_trans ?_ (ih _ _)
          exact histExtends_append _ _

theorem smartExportLoop_hist (now : Nat) (inv : List (String × EbayItem))
    (ps : List String) (items : List Item) :
    ∀ (w : World) (res : SmartResults),
      HistExtends w.store (smartExportLoop now inv ps items w res).1.store := by
  induction items with
  | nil => intro w res; exact histExtends_refl _
  | cons it rest ih =>
      intro w res
      simp only [smartExportLoop]
      by_cases hk : it.sku ∈ ps
      · rw [if_pos hk]; exact ih w res
      · rw [if_neg hk]
        rcases hob : (objGet inv it.sku).isSome with _ | _
        · simp only [Bool.false_eq_true, if_false]
          rcases hget : getItem w.store it.sku with _ | fi
          · simp only [hget]; exact ih w res
          · simp only [hget]
            by_cases hrm : it.sku ∈ w.remoteWriteFails
            · rw [if_pos hrm]; exact ih w _
            · rw [if_neg hrm]
              by_cases hlm : it.sku ∈ w.localFails
              · rw [if_pos hlm]
                exact ih { w with remote := syncUpsert w.remote it.sku fi.currentQty fi.description } _
              · rw [if_neg hlm]
                refine histExtends_trans ?_ (ih _ _)
                exact histExtends_updStore (fun x => ⟨rfl, [], by simp [pushSyncUpdate]⟩)
        · simp only [if_pos rfl]
          exact ih w res

/-! ### Ledger/quantity consistency on failure-free passes -/

theorem mem_updStore_ne {f : Item → Item} (hf : ∀ it, (f it).sku = it.sku)
    {store : List Item} {k : String} {it' : Item} (h : it' ∈ updStore store k f)
    (hne : it'.sku ≠ k) : it' ∈ store := by
  rcases List.mem_map.mp h with ⟨it, hit, rfl⟩
  by_cases hk : it.sku = k
  · rw [if_pos hk] at hne ⊢
    exact absurd (by rw [hf]; exact hk) hne
  · rwa [if_neg hk]

theorem forall_mem_updStore_get {P : Item → Prop} {store : List Item} {k : String}
    {f : Item → Item} {fi : Item} (hnd : (store.map Item.sku).Nodup)
    (hget : getItem store k = some fi)
    (h : ∀ it ∈ store, it.sku ≠ k → P it) (hfp : P (f fi)) :
    ∀ it ∈ updStore store k f, P it := by
  intro it' hit'
  rcases List.mem_map.mp hit' with ⟨it, hit, rfl⟩
  by_cases hk : it.sku = k
  · have h2 : getItem store k = some it := by rw [← hk]; exact getItem_self hnd hit
    rw [hget] at h2
    have : fi = it := Option.some.inj h2
    rw [if_pos hk, ← this]
    exact hfp
  · rw [if_neg hk]
    exact h it hit hk

theorem ledgered_create (now : Nat) (e : EbayItem) :
    Ledgered (createLocalItemFromEbay now e) := by
  intro en hen
  simp only [createLocalItemFromEbay, List.getLast?_singleton, Option.some.injEq] at hen
  rw [← hen]
  rfl

theorem mem_addHistory_ne {store : List Item} {k : String} {en : HistoryEntry}
    {it' : Item} (h : it' ∈ addHistory store k en) (hne : it'.sku ≠ k) :
    it' ∈ store := by
  rw [addHistory] at h
  exact mem_updStore_ne (f := fun x => { x with history := x.history ++ [en] })
    (fun _ => rfl) h hne

theorem addHistory_last {store : List Item} {k : String} {en : HistoryEntry} :
    ∀ it ∈ addHistory store k en, it.sku = k → it.history.getLast? = some en := by
  intro it' hit' hk
  rw [addHistory, updStore] at hit'
  rcases List.mem_map.mp hit' with ⟨it, hit, rfl⟩
  by_cases h : it.sku = k
  · simp [h, List.getLast?_concat]
  · simp only [if_neg h] at hk ⊢
    exact absurd hk h

theorem pushStep_ledger (now : Nat) (inv : List (String × EbayItem)) (w : World)
    (it : Item) (h : ∀ x ∈ w.store, Ledgered x) :
    ∀ x ∈ (pushStep now inv w it).1.store, Ledgered x := by
  suffices H : ∀ pr, pushStep now inv w it = pr → ∀ x ∈ pr.1.store, Ledgered x
    from H _ rfl
  intro pr hp
  simp only [pushStep, pushWrite] at hp
  repeat' split at hp
  all_goals rw [← hp]
  all_goals first
    | exact h
    | exact forall_mem_updStore h (fun x _ hx => hx)

theorem pushLoop_ledger (now : Nat) (inv : List (String × EbayItem))
    (items : List Item) :
    ∀ (w : World) (r : PushResults), (∀ x ∈ w.store, Ledgered x) →
      ∀ x ∈ (pushLoop now inv items w r).1.store, Ledgered x := by
  induction items with
  | nil => intro w r h; exact h
  | cons it rest ih =>
      intro w r h
      rw [pushLoop]
      exact ih _ _ (pushStep_ledger now inv w it h)

theorem pullScan_ledger (li : Item) (s : Snapshot) (lst : Option Nat) (e : EbayItem)
    (sku : String) :
    ∀ (changes : List EbayChange) (store : List Item) (u : PullUpdates) (fs : List String),
      ScanLedger sku store u →
      ScanLedger sku (pullScan li s lst e sku [] changes store u fs).1
        (pullScan li s lst e sku [] changes store u fs).2.1 := by
  intro changes
  induction changes with
  | nil => intro store u fs h; exact h
  | cons c rest ih =>
      intro store u fs h
      rcases c with _ | ⟨o, n⟩ | ⟨o, n⟩ | ⟨o, n⟩
      · refine ih store _ _ ?_
        exact ⟨h.1, h.2⟩
      · simp only [pullScan]
        by_cases hch : li.currentQty ≠ s.quantity
        · rw [if_pos hch]
          by_cases ht : li.lastModified > lst.getD 0
          · rw [if_pos ht]; exact ih store u fs h
          · rw [if_neg ht]; exact ih store u _ h
        · rw [if_neg hch]
          by_cases hlt : n < s.quantity
          · rw [if_pos hlt]
            rw [if_neg (by simp)]
            refine ih _ _ _ ?_
            constructor
            · intro it hit hne
              exact h.1 it (mem_addHistory_ne hit hne) hne
            · simp only []
              intro it hit hk en hen
              rw [addHistory_last it hit hk] at hen
              simp only [Option.some.injEq] at hen
              rw [← hen]
          · rw [if_neg hlt]; exact ih store u _ h
      · simp only [pullScan]
        by_cases hch : li.price ≠ s.price
        · rw [if_pos hch]
          by_cases ht : li.lastModified > lst.getD 0
          · rw [if_pos ht]; exact ih store u fs h
          · rw [if_neg ht]
            refine ih store _ _ ⟨h.1, ?_⟩
            exact h.2
        · rw [if_neg hch]
          refine ih store _ _ ⟨h.1, ?_⟩
          exact h.2
      · simp only [pullScan]
        by_cases hch : li.description ≠ s.title
        · rw [if_pos hch]
          by_cases ht : li.lastModified > lst.getD 0
          · rw [if_pos ht]; exact ih store u fs h
          · rw [if_neg ht]
            refine ih store _ _ ⟨h.1, ?_⟩
            exact h.2
        · rw [if_neg hch]
          refine ih store _ _ ⟨h.1, ?_⟩
          exact h.2

theorem pullScan_err_none (li : Item) (s : Snapshot) (lst : Option Nat) (e : EbayItem)
    (sku : String) :
    ∀ (changes : List EbayChange) (store : List Item) (u : PullUpdates) (fs : List String),
      (pullScan li s lst e sku [] changes store u fs).2.2.2 = none := by
  intro changes
  induction changes with
  | nil => intro store u fs; rfl
  | cons c rest ih =>
      intro store u fs
      rcases c with _ | ⟨o, n⟩ | ⟨o, n⟩ | ⟨o, n⟩
      · exact ih store _ _
      · simp only [pullScan]
        by_cases hch : li.currentQty ≠ s.quantity
        · rw [if_pos hch]
          by_cases ht : li.lastModified > lst.getD 0
          · rw [if_pos ht]; exact ih store u fs
          · rw [if_neg ht]; exact ih store u _
        · rw [if_neg hch]
          by_cases hlt : n < s.quantity
          · rw [if_pos hlt, if_neg (by simp)]
            exact ih _ _ _
          · rw [if_neg hlt]; exact ih store u _
      · simp only [pullScan]
        by_cases hch : li.price ≠ s.price
        · rw [if_pos hch]
          by_cases ht : li.lastModified > lst.getD 0
          · rw [if_pos ht]; exact ih store u fs
          · rw [if_neg ht]; exact ih store _ _
        · rw [if_neg hch]; exact ih store _ _
      · simp only [pullScan]
        by_cases hch : li.description ≠ s.title
        · rw [if_pos hch]
          by_cases ht : li.lastModified > lst.getD 0
          · rw [if_pos ht]; exact ih store u fs
          · rw [if_neg ht]; exact ih store _ _
        · rw [if_neg hch]; exact ih store _ _

theorem scanLedger_apply (now : Nat) (e : EbayItem) {k : String} {store' : List Item}
    {u : PullUpdates} (h : ScanLedger k store' u) :
    ∀ x ∈ updStore store' k (applyPullUpdates now e u), Ledgered x := by
  intro x hx
  rcases List.mem_map.mp hx with ⟨x₀, hx₀, rfl⟩
  by_cases hks : x₀.sku = k
  · rw [if_pos hks]
    intro en hen
    rcases hu : u.currentQty with _ | v
    · have h2 := h.2
      simp only [hu] at h2
      have hres := h2 x₀ hx₀ hks en hen
      simp only [applyPullUpdates, hu, Option.getD_none]
      exact hres
    · have h2 := h.2
      simp only [hu] at h2
      have hres := h2 x₀ hx₀ hks en hen
      simp only [applyPullUpdates, hu, Option.getD_some]
      exact hres
  · rw [if_neg hks]
    exact h.1 x₀ hx₀ hks

theorem pullStep_ledger (now : Nat) (w : World) (e : EbayItem)
    (hl : w.localFails = []) (hall : ∀ x ∈ w.store, Ledgered x) :
    ∀ x ∈ (pullStep now w e).1.store, Ledgered x := by
  suffices H : ∀ pr, pullStep now w e = pr → ∀ x ∈ pr.1.store, Ledgered x
    from H _ rfl
  intro pr hp
  simp only [pullStep, hl] at hp
  simp only [List.not_mem_nil, if_false, if_neg (fun h => h)] at hp
  split at hp
  · rw [← hp]
    intro x hx
    rcases List.mem_append.mp hx with h₀ | h₀
    · exact hall x h₀
    · simp only [List.mem_singleton] at h₀
      rw [h₀]
      exact ledgered_create now e
  · rename_i li hli
    split at hp
    · rw [← hp]
      refine forall_mem_updStore hall (fun x _ hx => ?_)
      intro en hen
      exact hx en hen
    · rename_i s hs
      split at hp
      · rw [← hp]; exact hall
      · rcases hscan : pullScan li s (li.ebaySync.bind EbaySyncInfo.lastSyncTime) e
            (ebayKey e) [] (detectEbayChanges e (some s)) w.store
            { price := none, description := none, currentQty := none } [] with ⟨store', u, fs, err⟩
        have herr := pullScan_err_none li s (li.ebaySync.bind EbaySyncInfo.lastSyncTime) e
          (ebayKey e) (detectEbayChanges e (some s)) w.store
          { price := none, description := none, currentQty := none } []
        have hinv := pullScan_ledger li s (li.ebaySync.bind EbaySyncInfo.lastSyncTime) e
          (ebayKey e) (detectEbayChanges e (some s)) w.store
          { price := none, description := none, currentQty := none } []
          ⟨fun it hit _ => hall it hit, fun it hit _ => hall it hit⟩
        rw [hscan] at herr hinv hp
        dsimp only at herr hinv
        subst herr
        simp only [] at hp
        split at hp
        · rw [← hp]
          exact scanLedger_apply now e hinv
        · rw [← hp]
          intro x hx
          rcases hu : u.currentQty with _ | v
          · have h2 := hinv.2
            simp only [hu] at h2
            intro en hen
            by_cases hks : x.sku = ebayKey e
            · exact h2 x hx hks en hen
            · exact hinv.1 x hx hks en hen
          · rename_i hne
            exfalso
            apply hne
            simp [PullUpdates.nonEmpty, hu]

theorem pullLoop_ledger (now : Nat) (items : List EbayItem) :
    ∀ (w : World) (r : PullResults),
      w.localFails = [] → (∀ x ∈ w.store, Ledgered x) →
      ∀ x ∈ (pullLoop now items w r).1.store, Ledgered x := by
  induction items with
  | nil => intro w r _ h; exact h
  | cons e rest ih =>
      intro w r hl h
      rw [pullLoop]
      have hlf : (pullStep now w e).1.localFails = w.localFails := by
        suffices H : ∀ pr, pullStep now w e = pr → pr.1.localFails = w.localFails
          from H _ rfl
        intro pr hp
        simp only [pullStep] at hp
        repeat' split at hp
        all_goals rw [← hp]
      exact ih _ _ (by rw [hlf]; exact hl) (pullStep_ledger now w e hl h)

theorem smartUpdate_ledger (now : Nat) (fi : Item) (q : Int) (e : EbayItem)
    (x : Item) (h : ∀ en, x.history.getLast? = some en → en.newTotal = q) :
    Ledgered (smartUpdate now fi q e x) := by
  intro en hen
  exact h en hen

theorem smartPairBody_fails (now : Nat) (sku : String) (e : EbayItem) (fi : Item)
    (w : World) (res : SmartResults) :
    (smartPairBody now sku e fi w res).1.remoteWriteFails = w.remoteWriteFails ∧
    (smartPairBody now sku e fi w res).1.localFails = w.localFails := by
  suffices H : ∀ pr, smartPairBody now sku e fi w res = pr →
      pr.1.remoteWriteFails = w.remoteWriteFails ∧ pr.1.localFails = w.localFails
    from H _ rfl
  intro pr hp
  simp only [smartPairBody, smartApplyPair] at hp
  repeat' split at hp
  all_goals rw [← hp]
  all_goals exact ⟨rfl, rfl⟩

theorem sale_pair_ledger (now : Nat) (sku : String) (e : EbayItem) (fi : Item)
    {store : List Item} (hnd : (store.map Item.sku).Nodup)
    (hget : getItem store sku = some fi)
    (hall : ∀ x ∈ store, Ledgered x) (q : Int) (en : HistoryEntry)
    (hq : en.newTotal = q) :
    ∀ x ∈ updStore (addHistory store sku en) sku (smartUpdate now fi q e),
      Ledgered x := by
  have hget₁ : getItem (addHistory store sku en) sku
      = some { fi with history := fi.history ++ [en] } := by
    rw [addHistory,
        getItem_updStore (f := fun x => { x with history := x.history ++ [en] })
          (fun _ => rfl),
        if_pos rfl, hget]
    rfl
  refine forall_mem_updStore_get ?_ hget₁
    (fun it hit hne => hall it (mem_addHistory_ne hit hne)) ?_
  · rw [addHistory_map_sku]; exact hnd
  · apply smartUpdate_ledger
    intro en' hen'
    have hen₂ : (fi.history ++ [en]).getLast? = some en' := hen'
    rw [List.getLast?_concat] at hen₂
    have h := Option.some.inj hen₂
    rw [← h, hq]

theorem smartPairBody_ledger (now : Nat) (sku : String) (e : EbayItem) (fi : Item)
    (w : World) (res : SmartResults)
    (hrm : w.remoteWriteFails = []) (hlm : w.localFails = [])
    (hnd : (w.store.map Item.sku).Nodup) (hget : getItem w.store sku = some fi)
    (hall : ∀ x ∈ w.store, Ledgered x) :
    ∀ x ∈ (smartPairBody now sku e fi w res).1.store, Ledgered x := by
  suffices H : ∀ pr, smartPairBody now sku e fi w res = pr →
      ∀ x ∈ pr.1.store, Ledgered x from H _ rfl
  intro pr hp
  simp only [smartPairBody, smartApplyPair, hrm, hlm] at hp
  simp only [List.not_mem_nil, if_false, if_neg (fun h => h)] at hp
  split at hp
  · rw [← hp]
    exact sale_pair_ledger now sku e fi hnd hget hall _ _ rfl
  · rw [← hp]
    refine forall_mem_updStore_get hnd hget (fun it hit _ => hall it hit) ?_
    apply smartUpdate_ledger
    intro en hen
    exact hall fi (List.mem_of_find?_eq_some hget) en hen

theorem smartPairLoop_ledger (now : Nat) (localItems : List Item)
    (inv : List (String × EbayItem)) :
    ∀ (w : World) (ps : List String) (res : SmartResults),
      w.remoteWriteFails = [] → w.localFails = [] →
      (w.store.map Item.sku).Nodup → (∀ x ∈ w.store, Ledgered x) →
      ∀ x ∈ (smartPairLoop now localItems inv w ps res).1.store, Ledgered x := by
  induction inv with
  | nil => intro w ps res _ _ _ h; exact h
  | cons p rest ih =>
      intro w ps res hrm hlm hnd h
      rcases p with ⟨k, e⟩
      cases hf : localItems.find? (fun it => it.sku = k) with
      | none => simp only [smartPairLoop, hf]; exact ih w ps res hrm hlm hnd h
      | some it₀ =>
          cases hget : getItem w.store k with
          | none => simp only [smartPairLoop, hf, hget]; exact ih w _ res hrm hlm hnd h
          | some fi =>
              simp only [smartPairLoop, hf, hget]
              have hfp := smartPairBody_fails now k e fi w res
              refine ih _ _ _ ?_ ?_ ?_ ?_
              · rw [hfp.1]; exact hrm
              · rw [hfp.2]; exact hlm
              · rw [smartPairBody_map_sku]; exact hnd
              · exact smartPairBody_ledger now k e fi w res hrm hlm hnd hget h

theorem smartImportLoop_ledger (now : Nat) (ps : List String)
    (inv : List (String × EbayItem)) :
    ∀ (w : World) (res : SmartResults), (∀ x ∈ w.store, Ledgered x) →
      ∀ x ∈ (smartImportLoop now ps inv w res).1.store, Ledgered x := by
  induction inv with
  | nil => intro w res h; exact h
  | cons p rest ih =>
      intro w res h
      rcases p with ⟨k, e⟩
      simp only [smartImportLoop]
      by_cases hk : k ∈ ps
      · rw [if_pos hk]; exact ih w res h
      · rw [if_neg hk]
        by_cases hl : k ∈ w.localFails
        · rw [if_pos hl]; exact ih w _ h
        · rw [if_neg hl]
          refine ih _ _ ?_
          intro x hx
          rcases List.mem_append.mp hx with h₀ | h₀
          · exact h x h₀
          · simp only [List.mem_singleton] at h₀
            rw [h₀]
            exact ledgered_create now e

theorem smartExportLoop_ledger (now : Nat) (inv : List (String × EbayItem))
    (ps : List String) (items : List Item) :
    ∀ (w : World) (res : SmartResults), (∀ x ∈ w.store, Ledgered x) →
      ∀ x ∈ (smartExportLoop now inv ps items w res).1.store, Ledgered x := by
  induction items with
  | nil => intro w res h; exact h
  | cons it rest ih =>
      intro w res h
      simp only [smartExportLoop]
      by_cases hk : it.sku ∈ ps
      · rw [if_pos hk]; exact ih w res h
      · rw [if_neg hk]
        rcases hob : (objGet inv it.sku).isSome with _ | _
        · simp only [Bool.false_eq_true, if_false]
          rcases hget : getItem w.store it.sku with _ | fi
          · simp only [hget]; exact ih w res h
          · simp only [hget]
            by_cases hrm : it.sku ∈ w.remoteWriteFails
            · rw [if_pos hrm]; exact ih w _ h
            · rw [if_neg hrm]
              by_cases hlm : it.sku ∈ w.localFails
              · rw [if_pos hlm]
                exact ih { w with remote := syncUpsert w.remote it.sku fi.currentQty fi.description } _ h
              · rw [if_neg hlm]
                refine ih _ _ ?_
                exact forall_mem_updStore h (fun x _ hx => hx)
        · simp only [if_pos rfl]
          exact ih w res h

/-- C8: the history ledger is append-only across every sync operation even
with arbitrary per-item failure injections (no entry is mutated or removed,
lengths are non-decreasing, records keep their SKUs); and on failure-free
passes (pull needs no local-write failures; smart sync additionally needs
no remote-write failures and distinct SKUs; push unconditionally) the
`newTotal` of every record's last history entry equals its `currentQty`
afterwards — but a failing item CAN break the latter consistency, as
`C8_cx` shows. -/
theorem C8_thm (now : Nat) (w : World) :
    (∀ pr, pullFromEbay now w = some pr → HistExtends w.store pr.1.store) ∧
    HistExtends w.store (pushToEbay now w).1.store ∧
    HistExtends w.store (smartSyncAll now w).1.store ∧
    ((∀ it ∈ w.store, Ledgered it) →
      (∀ it ∈ (pushToEbay now w).1.store, Ledgered it) ∧
      (w.localFails = [] →
        ∀ pr, pullFromEbay now w = some pr → ∀ it ∈ pr.1.store, Ledgered it) ∧
      (w.remoteWriteFails = [] → w.localFails = [] →
        (w.store.map Item.sku).Nodup →
        ∀ it ∈ (smartSyncAll now w).1.store, Ledgered it)) := by
  refine ⟨?_, ?_, ?_, ?_⟩
  · intro pr hpr
    simp only [pullFromEbay] at hpr
    split at hpr
    · cases hpr
    · have h := Option.some.inj hpr
      rw [← h]
      exact pullLoop_hist now w.remote w emptyPullResults
  · exact pushLoop_hist now (smartInv w) w.store w emptyPushResults
  · have h1 := smartPairLoop_hist now w.store (smartInv w) w [] emptySmartResults
    have h2 := smartImportLoop_hist now
      (smartPairLoop now w.store (smartInv w) w [] emptySmartResults).2.1 (smartInv w)
      (smartPairLoop now w.store (smartInv w) w [] emptySmartResults).1
      (smartPairLoop now w.store (smartInv w) w [] emptySmartResults).2.2
    have h3 := smartExportLoop_hist now (smartInv w)
      (smartPairLoop now w.store (smartInv w) w [] emptySmartResults).2.1 w.store
      (smartImportLoop now
        (smartPairLoop now w.store (smartInv w) w [] emptySmartResults).2.1 (smartInv w)
        (smartPairLoop now w.store (smartInv w) w [] emptySmartResults).1
        (smartPairLoop now w.store (smartInv w) w [] emptySmartResults).2.2).1
      (smartImportLoop now
        (smartPairLoop now w.store (smartInv w) w [] emptySmartResults).2.1 (smartInv w)
        (smartPairLoop now w.store (smartInv w) w [] emptySmartResults).1
        (smartPairLoop now w.store (smartInv w) w [] emptySmartResults).2.2).2
    exact histExtends_trans (histExtends_trans h1 h2) h3
  · intro hall
    refine ⟨?_, ?_, ?_⟩
    · exact pushLoop_ledger now (smartInv w) w.store w emptyPushResults hall
    · intro hl pr hpr
      simp only [pullFromEbay] at hpr
      split at hpr
      · cases hpr
      · have h := Option.some.inj hpr
        rw [← h]
        exact pullLoop_ledger now w.remote w emptyPullResults hl hall
    · intro hrm hlm hnd
      have h1 := smartPairLoop_ledger now w.store (smartInv w) w [] emptySmartResults
        hrm hlm hnd hall
      have h2 := smartImportLoop_ledger now
        (smartPairLoop now w.store (smartInv w) w [] emptySmartResults).2.1 (smartInv w)
        (smartPairLoop now w.store (smartInv w) w [] emptySmartResults).1
        (smartPairLoop now w.store (smartInv w) w [] emptySmartResults).2.2 h1
      exact smartExportLoop_ledger now (smartInv w)
        (smartPairLoop now w.store (smartInv w) w [] emptySmartResults).2.1 w.store
        (smartImportLoop now
          (smartPairLoop now w.store (smartInv w) w [] emptySmartResults).2.1 (smartInv w)
          (smartPairLoop now w.store (smartInv w) w [] emptySmartResults).1
          (smartPairLoop now w.store (smartInv w) w [] emptySmartResults).2.2).1
        (smartImportLoop now
          (smartPairLoop now w.store (smartInv w) w [] emptySmartResults).2.1 (smartInv w)
          (smartPairLoop now w.store (smartInv w) w [] emptySmartResults).1
          (smartPairLoop now w.store (smartInv w) w [] emptySmartResults).2.2).2 h2

theorem C8_thm_witness :
    (∀ it ∈ cxC8Good.store, Ledgered it) ∧
    cxC8Good.remoteWriteFails = [] ∧ cxC8Good.localFails = [] ∧
    (cxC8Good.store.map Item.sku).Nodup ∧
    HistExtends cxC8Good.store (smartSyncAll 9 cxC8Good).1.store ∧
    (∀ it ∈ (smartSyncAll 9 cxC8Good).1.store, Ledgered it) := by
  refine ⟨by decide, rfl, rfl, by decide, ?_, ?_⟩
  · exact (C8_thm 9 cxC8Good).2.2.1
  · exact ((C8_thm 9 cxC8Good).2.2.2 (by decide)).2.2 rfl rfl (by decide)

theorem getItem_updStore_smartUpdate_ne (now : Nat) (fi : Item) (q : Int)
    (e : EbayItem) (store : List Item) (k sku : String) (hne : sku ≠ k) :
    getItem (updStore store k (smartUpdate now fi q e)) sku = getItem store sku := by
  rw [getItem_updStore (f := smartUpdate now fi q e) (fun _ => rfl), if_neg hne]

theorem getItem_updStore_pushSyncUpdate_ne (now : Nat) (fi : Item)
    (store : List Item) (k sku : String) (hne : sku ≠ k) :
    getItem (updStore store k (pushSyncUpdate now fi)) sku = getItem store sku := by
  rw [getItem_updStore (f := pushSyncUpdate now fi) (fun _ => rfl), if_neg hne]

theorem getItem_addHistory_ne' (store : List Item) (k : String) (en : HistoryEntry)
    (sku : String) (hne : sku ≠ k) :
    getItem (addHistory store k en) sku = getItem store sku := by
  rw [addHistory,
      getItem_updStore (f := fun x => { x with history := x.history ++ [en] })
        (fun _ => rfl),
      if_neg hne]

theorem getItem_updStore_smartUpdate_key (now : Nat) (fi : Item) (q : Int)
    (e : EbayItem) (store : List Item) (k : String) :
    getItem (updStore store k (smartUpdate now fi q e)) k
      = (getItem store k).map (smartUpdate now fi q e) := by
  rw [getItem_updStore (f := smartUpdate now fi q e) (fun _ => rfl), if_pos rfl]

theorem getItem_addHistory_key (store : List Item) (k : String) (en : HistoryEntry) :
    getItem (addHistory store k en) k
      = (getItem store k).map (fun x => { x with history := x.history ++ [en] }) := by
  rw [addHistory,
      getItem_updStore (f := fun x => { x with history := x.history ++ [en] })
        (fun _ => rfl),
      if_pos rfl]

theorem mem_map_sku_of_getItem {store : List Item} {sku : String} {g : Item}
    (h : getItem store sku = some g) : sku ∈ store.map Item.sku :=
  List.mem_map.mpr ⟨g, List.mem_of_find?_eq_some h, getItem_sku h⟩

theorem smartPairBody_getItem_ne (now : Nat) (k : String) (e : EbayItem) (fi : Item)
    (w : World) (res : SmartResults) (sku : String) (hne : sku ≠ k) :
    getItem (smartPairBody now k e fi w res).1.store sku = getItem w.store sku := by
  suffices H : ∀ pr, smartPairBody now k e fi w res = pr →
      getItem pr.1.store sku = getItem w.store sku from H _ rfl
  intro pr hp
  simp only [smartPairBody, smartApplyPair] at hp
  repeat' split at hp
  all_goals rw [← hp]
  all_goals first
    | rfl
    | exact getItem_addHistory_ne' _ _ _ _ hne
    | (rw [getItem_updStore_smartUpdate_ne _ _ _ _ _ _ _ hne]
       try exact getItem_addHistory_ne' _ _ _ _ hne)

theorem smartPairBody_smartSynced (now : Nat) (sku : String) (e : EbayItem)
    (fi : Item) (w : World) (res : SmartResults)
    (hrm : w.remoteWriteFails = []) (hlm : w.localFails = [])
    (hget : getItem w.store sku = some fi) :
    ∀ g, getItem (smartPairBody now sku e fi w res).1.store sku = some g →
      SmartSynced fi.price fi.description fi.condition g := by
  suffices H : ∀ pr, smartPairBody now sku e fi w res = pr →
      ∀ g, getItem pr.1.store sku = some g →
        SmartSynced fi.price fi.description fi.condition g from H _ rfl
  intro pr hp
  simp only [smartPairBody, smartApplyPair, hrm, hlm] at hp
  simp only [List.not_mem_nil, if_false, if_neg (fun h => h)] at hp
  split at hp
  · rw [← hp]
    intro g hg
    rw [getItem_updStore_smartUpdate_key, getItem_addHistory_key, hget] at hg
    simp only [Option.map_some'] at hg
    rw [Option.some.injEq] at hg
    rw [← hg]
    exact ⟨rfl, rfl, rfl, _, rfl, rfl, rfl, rfl, rfl, rfl, rfl⟩
  · rw [← hp]
    intro g hg
    rw [getItem_updStore_smartUpdate_key, hget] at hg
    simp only [Option.map_some'] at hg
    rw [Option.some.injEq] at hg
    rw [← hg]
    exact ⟨rfl, rfl, rfl, _, rfl, rfl, rfl, rfl, rfl, rfl, rfl⟩

theorem smartPairLoop_smartSynced (now : Nat) (localItems : List Item) (sku : String)
    (hfind : (localItems.find? (fun it => it.sku = sku)).isSome = true)
    (p : Int) (d c : String) :
    ∀ (inv : List (String × EbayItem)) (w : World) (ps : List String)
      (res : SmartResults),
      w.remoteWriteFails = [] → w.localFails = [] →
      (w.store.map Item.sku).Nodup →
      (∀ g, getItem w.store sku = some g →
        g.price = p ∧ g.description = d ∧ g.condition = c) →
      (getItem w.store sku).isSome = true →
      ((∃ e, (sku, e) ∈ inv) ∨
        (∀ g, getItem w.store sku = some g → SmartSynced p d c g)) →
      ∀ g, getItem (smartPairLoop now localItems inv w ps res).1.store sku = some g →
        SmartSynced p d c g := by
  intro inv
  induction inv with
  | nil =>
      intro w ps res _ _ _ _ _ hdisj g hg
      rcases hdisj with ⟨e, he⟩ | hsyn
      · cases he
      · exact hsyn g hg
  | cons pr rest ih =>
      intro w ps res hrm hlm hnd hpdc hiso hdisj g hg
      rcases pr with ⟨k, e'⟩
      by_cases hks : k = sku
      · subst hks
        rcases hf : localItems.find? (fun it => it.sku = k) with _ | it₀
        · rw [hf] at hfind; cases hfind
        · rcases hgetk : getItem w.store k with _ | fullItem
          · rw [hgetk] at hiso; cases hiso
          · simp only [smartPairLoop, hf, hgetk] at hg
            refine ih _ _ _ ?_ ?_ ?_ ?_ ?_ (Or.inr ?_) g hg
            · rw [(smartPairBody_fails now k e' fullItem w res).1]; exact hrm
            · rw [(smartPairBody_fails now k e' fullItem w res).2]; exact hlm
            · rw [smartPairBody_map_sku]; exact hnd
            · intro g' hg'
              have hS := smartPairBody_smartSynced now k e' fullItem w res hrm hlm
                hgetk g' hg'
              have hfc := hpdc fullItem hgetk
              exact ⟨hS.1.trans hfc.1, hS.2.1.trans hfc.2.1, hS.2.2.1.trans hfc.2.2⟩
            · have hm : k ∈ (smartPairBody now k e' fullItem w res).1.store.map Item.sku := by
                rw [smartPairBody_map_sku]
                exact mem_map_sku_of_getItem hgetk
              exact getItem_isSome_of_mem hm
            · intro g' hg'
              have hS := smartPairBody_smartSynced now k e' fullItem w res hrm hlm
                hgetk g' hg'
              have hfc := hpdc fullItem hgetk
              rw [hfc.1, hfc.2.1, hfc.2.2] at hS
              exact hS
      · rcases hf : localItems.find? (fun it => it.sku = k) with _ | it₀
        · simp only [smartPairLoop, hf] at hg
          refine ih w ps res hrm hlm hnd hpdc hiso ?_ g hg
          rcases hdisj with ⟨e₀, he₀⟩ | hsyn
          · rcases List.mem_cons.mp he₀ with h₀ | h₀
            · exact (hks (congrArg Prod.fst h₀).symm).elim
            · exact Or.inl ⟨e₀, h₀⟩
          · exact Or.inr hsyn
        · rcases hgetk : getItem w.store k with _ | fullItem
          · simp only [smartPairLoop, hf, hgetk] at hg
            refine ih w _ res hrm hlm hnd hpdc hiso ?_ g hg
            rcases hdisj with ⟨e₀, he₀⟩ | hsyn
            · rcases List.mem_cons.mp he₀ with h₀ | h₀
              · exact (hks (congrArg Prod.fst h₀).symm).elim
              · exact Or.inl ⟨e₀, h₀⟩
            · exact Or.inr hsyn
          · simp only [smartPairLoop, hf, hgetk] at hg
            have hframe := smartPairBody_getItem_ne now k e' fullItem w res sku
              (fun hh => hks hh.symm)
            refine ih _ _ _ ?_ ?_ ?_ ?_ ?_ ?_ g hg
            · rw [(smartPairBody_fails now k e' fullItem w res).1]; exact hrm
            · rw [(smartPairBody_fails now k e' fullItem w res).2]; exact hlm
            · rw [smartPairBody_map_sku]; exact hnd
            · intro g' hg'; rw [hframe] at hg'; exact hpdc g' hg'
            · rw [hframe]; exact hiso
            · rcases hdisj with ⟨e₀, he₀⟩ | hsyn
              · rcases List.mem_cons.mp he₀ with h₀ | h₀
                · exact (hks (congrArg Prod.fst h₀).symm).elim
                · exact Or.inl ⟨e₀, h₀⟩
              · refine Or.inr ?_
                intro g' hg'
                rw [hframe] at hg'
                exact hsyn g' hg'

theorem smartImportLoop_getItem (now : Nat) (ps : List String)
    (inv : List (String × EbayItem)) :
    ∀ (w : World) (res : SmartResults) (k : String) (g : Item),
      getItem w.store k = some g →
      getItem (smartImportLoop now ps inv w res).1.store k = some g := by
  induction inv with
  | nil => intro w res k g h; exact h
  | cons pr rest ih =>
      intro w res k g h
      rcases pr with ⟨k', e⟩
      simp only [smartImportLoop]
      by_cases hk : k' ∈ ps
      · rw [if_pos hk]; exact ih w res k g h
      · rw [if_neg hk]
        by_cases hl : k' ∈ w.localFails
        · rw [if_pos hl]; exact ih w _ k g h
        · rw [if_neg hl]
          refine ih _ _ k g ?_
          rw [getItem_append, h]
          rfl

theorem smartExportLoop_getItem_ps (now : Nat) (inv : List (String × EbayItem))
    (ps : List String) (sku : String) (hsku : sku ∈ ps) :
    ∀ (items : List Item) (w : World) (res : SmartResults),
      getItem (smartExportLoop now inv ps items w res).1.store sku
        = getItem w.store sku := by
  intro items
  induction items with
  | nil => intro w res; rfl
  | cons it rest ih =>
      intro w res
      simp only [smartExportLoop]
      by_cases hk : it.sku ∈ ps
      · rw [if_pos hk]; exact ih w res
      · rw [if_neg hk]
        rcases hob : (objGet inv it.sku).isSome with _ | _
        · simp only [Bool.false_eq_true, if_false]
          rcases hget : getItem w.store it.sku with _ | fi
          · simp only [hget]; exact ih w res
          · simp only [hget]
            by_cases hrm : it.sku ∈ w.remoteWriteFails
            · rw [if_pos hrm]; exact ih w _
            · rw [if_neg hrm]
              by_cases hlm : it.sku ∈ w.localFails
              · rw [if_pos hlm]; exact ih _ _
              · rw [if_neg hlm]
                rw [ih _ _]
                exact getItem_updStore_pushSyncUpdate_ne now fi _ _ _
                  (fun h => hk (h ▸ hsku))
        · simp only [if_pos rfl]
          exact ih w res

/-- C10: for a paired item whose SKU suffers no failure injection, smart
sync leaves the record with `currentQty`, `lastSyncedQty` and the stored
snapshot quantity all equal, and the snapshot's price, title, description
and condition captured from the record's own `price` / `description` /
`condition` fields (title and description both from `description`). -/
theorem C10_thm (now : Nat) (w : World) (sku : String) (fi : Item) (e : EbayItem)
    (hrm : w.remoteWriteFails = []) (hlm : w.localFails = [])
    (hnd : (w.store.map Item.sku).Nodup)
    (hget : getItem w.store sku = some fi)
    (hpair : (sku, e) ∈ smartInv w) :
    ∃ r, getItem (smartSyncAll now w).1.store sku = some r ∧
      SmartSynced fi.price fi.description fi.condition r := by
  have hfind : (w.store.find? (fun it => it.sku = sku)).isSome = true := by
    rw [show w.store.find? (fun it => it.sku = sku) = getItem w.store sku from rfl,
        hget]
    rfl
  have hpost := smartPairLoop_smartSynced now w.store sku hfind
    fi.price fi.description fi.condition (smartInv w) w [] emptySmartResults
    hrm hlm hnd
    (fun g hg => by rw [hget] at hg; cases hg; exact ⟨rfl, rfl, rfl⟩)
    (by rw [hget]; rfl)
    (Or.inl ⟨e, hpair⟩)
  have hm : sku ∈ (smartPairLoop now w.store (smartInv w) w []
      emptySmartResults).1.store.map Item.sku := by
    rw [smartPairLoop_map_sku]
    exact mem_map_sku_of_getItem hget
  have hiso := getItem_isSome_of_mem hm
  rcases hgq : getItem (smartPairLoop now w.store (smartInv w) w []
      emptySmartResults).1.store sku with _ | g
  · rw [hgq] at hiso; cases hiso
  · have hgS := hpost g hgq
    have hps : sku ∈ (smartPairLoop now w.store (smartInv w) w []
        emptySmartResults).2.1 := by
      rw [smartPairLoop_ps]
      simp only [List.nil_append]
      refine List.mem_map.mpr ⟨(sku, e), List.mem_filter.mpr ⟨hpair, ?_⟩, rfl⟩
      exact hfind
    have h2 := smartImportLoop_getItem now
      (smartPairLoop now w.store (smartInv w) w [] emptySmartResults).2.1
      (smartInv w)
      (smartPairLoop now w.store (smartInv w) w [] emptySmartResults).1
      (smartPairLoop now w.store (smartInv w) w [] emptySmartResults).2.2
      sku g hgq
    have h3 := smartExportLoop_getItem_ps now (smartInv w)
      (smartPairLoop now w.store (smartInv w) w [] emptySmartResults).2.1
      sku hps w.store
      (smartImportLoop now
        (smartPairLoop now w.store (smartInv w) w [] emptySmartResults).2.1
        (smartInv w)
        (smartPairLoop now w.store (smartInv w) w [] emptySmartResults).1
        (smartPairLoop now w.store (smartInv w) w [] emptySmartResults).2.2).1
      (smartImportLoop now
        (smartPairLoop now w.store (smartInv w) w [] emptySmartResults).2.1
        (smartInv w)
        (smartPairLoop now w.store (smartInv w) w [] emptySmartResults).1
        (smartPairLoop now w.store (smartInv w) w [] emptySmartResults).2.2).2
    exact ⟨g, h3.trans h2, hgS⟩

theorem C10_thm_witness :
    getItem cxC8Good.store "A" = some cxC8Item ∧
    ("A", cxC8Ebay) ∈ smartInv cxC8Good ∧
    ∃ r, getItem (smartSyncAll 9 cxC8Good).1.store "A" = some r ∧
      SmartSynced cxC8Item.price cxC8Item.description cxC8Item.condition r :=
  ⟨by decide, by decide,
   C10_thm 9 cxC8Good "A" cxC8Item cxC8Ebay rfl rfl (by decide) (by decide)
     (by decide)⟩

theorem objInsert_pair {Q : String × EbayItem → Prop} {m : List (String × EbayItem)}
    {k : String} {v : EbayItem} (hm : ∀ p ∈ m, Q p) (hv : Q (k, v)) :
    ∀ p ∈ objInsert m k v, Q p := by
  intro p hp
  rw [objInsert] at hp
  split at hp
  · rcases List.mem_map.mp hp with ⟨y, hy, rfl⟩
    by_cases hk : y.1 = k
    · rw [if_pos hk]; exact hv
    · rw [if_neg hk]; exact hm y hy
  · rcases List.mem_append.mp hp with h₀ | h₀
    · exact hm p h₀
    · simp only [List.mem_singleton] at h₀
      rw [h₀]
      exact hv

theorem buildInv_fold_pair {Q : String × EbayItem → Prop} :
    ∀ (l : List EbayItem) (m : List (String × EbayItem)),
      (∀ e ∈ l, Q (ebayKey e, e)) → (∀ p ∈ m, Q p) →
      ∀ p ∈ l.foldl (fun m e => objInsert m (ebayKey e) e) m, Q p := by
  intro l
  induction l with
  | nil => intro m _ hm p hp; exact hm p hp
  | cons e rest ih =>
      intro m hl hm p hp
      rw [List.foldl_cons] at hp
      exact ih _ (fun x hx => hl x (List.mem_cons_of_mem _ hx))
        (objInsert_pair hm (hl e (List.mem_cons_self _ _))) p hp

theorem buildInv_pair {Q : String × EbayItem → Prop} (l : List EbayItem)
    (hl : ∀ e ∈ l, Q (ebayKey e, e)) : ∀ p ∈ buildEbayInventory l, Q p := by
  rw [buildEbayInventory]
  exact buildInv_fold_pair l [] hl (fun p hp => by cases hp)

theorem objInsert_keys_any {m : List (String × EbayItem)} {k : String}
    {v : EbayItem} (hany : m.any (fun p => p.1 = k) = true) :
    (objInsert m k v).map Prod.fst = m.map Prod.fst := by
  rw [objInsert, if_pos hany, List.map_map]
  refine List.map_congr_left ?_
  intro p _
  by_cases hk : p.1 = k
  · simp [Function.comp, hk]
  · simp [Function.comp, hk]

theorem objInsert_keys_nodup {m : List (String × EbayItem)} {k : String}
    {v : EbayItem} (h : (m.map Prod.fst).Nodup) :
    ((objInsert m k v).map Prod.fst).Nodup := by
  by_cases hany : m.any (fun p => p.1 = k) = true
  · rw [objInsert_keys_any hany]; exact h
  · rw [objInsert, if_neg hany, List.map_append]
    rw [List.nodup_append]
    refine ⟨h, List.nodup_singleton _, ?_⟩
    intro a ha hb
    simp only [List.map_cons, List.map_nil, List.mem_singleton] at hb
    rcases List.mem_map.mp ha with ⟨p, hp, rfl⟩
    exact hany (List.any_eq_true.mpr ⟨p, hp, by simp [hb]⟩)

theorem buildInv_keys_nodup (l : List EbayItem) :
    ((buildEbayInventory l).map Prod.fst).Nodup := by
  rw [buildEbayInventory]
  suffices H : ∀ (l : List EbayItem) (m : List (String × EbayItem)),
      (m.map Prod.fst).Nodup →
      ((l.foldl (fun m e => objInsert m (ebayKey e) e) m).map Prod.fst).Nodup from
    H l [] (by simp)
  intro l
  induction l with
  | nil => intro m hm; exact hm
  | cons e rest ih =>
      intro m hm
      rw [List.foldl_cons]
      exact ih _ (objInsert_keys_nodup hm)

theorem objInsert_key_self {m : List (String × EbayItem)} {k : String}
    {v : EbayItem} : k ∈ (objInsert m k v).map Prod.fst := by
  by_cases hany : m.any (fun p => p.1 = k) = true
  · rw [objInsert_keys_any hany]
    rcases List.any_eq_true.mp hany with ⟨p, hp, hpk⟩
    simp only [decide_eq_true_eq] at hpk
    exact List.mem_map.mpr ⟨p, hp, hpk⟩
  · rw [objInsert, if_neg hany, List.map_append]
    exact List.mem_append_right _ (by simp)

theorem objInsert_key_mono {m : List (String × EbayItem)} {k k' : String}
    {v : EbayItem} (h : k' ∈ m.map Prod.fst) :
    k' ∈ (objInsert m k v).map Prod.fst := by
  by_cases hany : m.any (fun p => p.1 = k) = true
  · rw [objInsert_keys_any hany]; exact h
  · rw [objInsert, if_neg hany, List.map_append]
    exact List.mem_append_left _ h

theorem buildInv_fold_key_mono :
    ∀ (l : List EbayItem) (m : List (String × EbayItem)) (k' : String),
      k' ∈ m.map Prod.fst →
      k' ∈ (l.foldl (fun m e => objInsert m (ebayKey e) e) m).map Prod.fst := by
  intro l
  induction l with
  | nil => intro m k' h; exact h
  | cons e rest ih =>
      intro m k' h
      rw [List.foldl_cons]
      exact ih _ k' (objInsert_key_mono h)

theorem buildInv_key_mem (l : List EbayItem) :
    ∀ e ∈ l, ebayKey e ∈ (buildEbayInventory l).map Prod.fst := by
  rw [buildEbayInventory]
  suffices H : ∀ (l : List EbayItem) (m : List (String × EbayItem)),
      ∀ e ∈ l, ebayKey e ∈ (l.foldl (fun m e => objInsert m (ebayKey e) e) m).map Prod.fst
    from H l []
  intro l
  induction l with
  | nil => intro m e he; cases he
  | cons x rest ih =>
      intro m e he
      rw [List.foldl_cons]
      rcases List.mem_cons.mp he with h₀ | h₀
      · rw [h₀]
        exact buildInv_fold_key_mono rest _ _ objInsert_key_self
      · exact ih _ e h₀

theorem find_sku_isSome_iff (store : List Item) (k : String) :
    (store.find? (fun it => it.sku = k)).isSome = true ↔ k ∈ store.map Item.sku := by
  rw [List.find?_isSome]
  constructor
  · rintro ⟨it, hit, hp⟩
    simp only [decide_eq_true_eq] at hp
    exact List.mem_map.mpr ⟨it, hit, hp⟩
  · intro h
    rcases List.mem_map.mp h with ⟨it, hit, rfl⟩
    exact ⟨it, hit, by simp⟩

theorem remoteAt_eq_none_iff (remote : List EbayItem) (k : String) :
    remoteAt remote k = none ↔ k ∉ remote.map ebayKey := by
  rw [remoteAt, List.find?_eq_none]
  constructor
  · intro h hk
    rcases List.mem_map.mp hk with ⟨e, he, rfl⟩
    have := h e he
    simp at this
  · intro h e he
    simp only [decide_eq_true_eq]
    intro hk
    exact h (List.mem_map.mpr ⟨e, he, hk⟩)

theorem objGet_isSome_key {inv : List (String × EbayItem)} {k : String}
    (h : (objGet inv k).isSome = true) : k ∈ inv.map Prod.fst := by
  rw [objGet] at h
  rcases hfind : inv.find? (fun p => p.1 = k) with _ | p
  · rw [hfind] at h; cases h
  · have hmem := List.mem_of_find?_eq_some hfind
    have hpk := List.find?_some hfind
    simp only [decide_eq_true_eq] at hpk
    exact List.mem_map.mpr ⟨p, hmem, hpk⟩

theorem syncUpsert_keys {remote : List EbayItem} {k : String} (q : Int) (d : String)
    (hany : remote.any (fun e => ebayKey e = k) = true) :
    (syncUpsert remote k q d).map ebayKey = remote.map ebayKey := by
  simp only [syncUpsert]
  rw [if_pos hany, List.map_map]
  refine List.map_congr_left ?_
  intro e _
  by_cases hk : ebayKey e = k
  · rcases e with ⟨iid, sk, qq, pp, tt⟩
    simp only [Function.comp, if_pos hk]
    simp [ebayKey]
  · simp [Function.comp, if_neg hk]

theorem syncUpsert_obs {remote : List EbayItem} {k : String} {q : Int} (d : String)
    (hany : remote.any (fun e => ebayKey e = k) = true)
    (hq : ∀ e₀ ∈ remote, ebayKey e₀ = k → e₀.quantity = q) :
    (syncUpsert remote k q d).map remoteObs = remote.map remoteObs := by
  simp only [syncUpsert]
  rw [if_pos hany, List.map_map]
  refine List.map_congr_left ?_
  intro e he
  by_cases hk : ebayKey e = k
  · have hqe := hq e he hk
    rcases e with ⟨iid, sk, qq, pp, tt⟩
    simp only [Function.comp, if_pos hk]
    simp [remoteObs, ebayKey, hqe]
    try exact hqe.symm
  · simp [Function.comp, if_neg hk]

theorem any_eq_of_map_eq {α β : Type} {l₁ l₂ : List α} {F : α → β}
    (h : l₁.map F = l₂.map F) (p : β → Bool) :
    l₁.any (fun a => p (F a)) = l₂.any (fun a => p (F a)) := by
  have aux : ∀ (l : List α), l.any (fun a => p (F a)) = (l.map F).any p := by
    intro l
    induction l with
    | nil => rfl
    | cons x xs ih => simp [List.any_cons, ih]
  rw [aux, aux, h]

theorem quantity_of_remoteObs_eq {l₁ l₂ : List EbayItem}
    (h : l₁.map remoteObs = l₂.map remoteObs) (k : String) (q : Int)
    (hq : ∀ e ∈ l₂, ebayKey e = k → e.quantity = q) :
    ∀ e ∈ l₁, ebayKey e = k → e.quantity = q := by
  intro e he hk
  have hm : remoteObs e ∈ l₂.map remoteObs := by
    rw [← h]
    exact List.mem_map_of_mem remoteObs he
  rcases List.mem_map.mp hm with ⟨e₂, he₂, heq⟩
  have h1 : ebayKey e₂ = ebayKey e := congrArg Prod.fst heq
  have h2 : e₂.quantity = e.quantity := congrArg Prod.snd heq
  rw [← h2]
  exact hq e₂ he₂ (h1.trans hk)

theorem map_obs_updStore {A : Type} (obs : Item → A) {store : List Item} {k : String}
    {f : Item → Item} {r : Item} (hnd : (store.map Item.sku).Nodup)
    (hget : getItem store k = some r) (hobs : obs (f r) = obs r) :
    (updStore store k f).map obs = store.map obs := by
  rw [updStore, List.map_map]
  refine List.map_congr_left ?_
  intro it hit
  by_cases hk : it.sku = k
  · have h2 : getItem store k = some it := by rw [← hk]; exact getItem_self hnd hit
    rw [hget] at h2
    have heq : r = it := Option.some.inj h2
    subst heq
    simp only [Function.comp, if_pos hk]
    exact hobs
  · simp [Function.comp, if_neg hk]

theorem smartPairBody_fetch (now : Nat) (sku : String) (e : EbayItem) (fi : Item)
    (w : World) (res : SmartResults) :
    (smartPairBody now sku e fi w res).1.fetchFails = w.fetchFails := by
  suffices H : ∀ pr, smartPairBody now sku e fi w res = pr →
      pr.1.fetchFails = w.fetchFails from H _ rfl
  intro pr hp
  simp only [smartPairBody, smartApplyPair] at hp
  repeat' split at hp
  all_goals rw [← hp]

theorem smartPairLoop_flags (now : Nat) (localItems : List Item)
    (inv : List (String × EbayItem)) :
    ∀ (w : World) (ps : List String) (res : SmartResults),
      (smartPairLoop now localItems inv w ps res).1.fetchFails = w.fetchFails ∧
      (smartPairLoop now localItems inv w ps res).1.remoteWriteFails
        = w.remoteWriteFails ∧
      (smartPairLoop now localItems inv w ps res).1.localFails = w.localFails := by
  induction inv with
  | nil => intro w ps res; exact ⟨rfl, rfl, rfl⟩
  | cons pr rest ih =>
      intro w ps res
      rcases pr with ⟨k, e⟩
      cases hf : localItems.find? (fun it => it.sku = k) with
      | none => simp only [smartPairLoop, hf]; exact ih w ps res
      | some it₀ =>
          cases hget : getItem w.store k with
          | none => simp only [smartPairLoop, hf, hget]; exact ih w _ res
          | some fi =>
              simp only [smartPairLoop, hf, hget]
              have h1 := ih (smartPairBody now k e fi w res).1 (ps ++ [k])
                (smartPairBody now k e fi w res).2
              have h2 := smartPairBody_fails now k e fi w res
              have h3 := smartPairBody_fetch now k e fi w res
              exact ⟨h1.1.trans h3, h1.2.1.trans h2.1, h1.2.2.trans h2.2⟩

theorem smartImportLoop_frame (now : Nat) (ps : List String)
    (inv : List (String × EbayItem)) :
    ∀ (w : World) (res : SmartResults),
      (smartImportLoop now ps inv w res).1.remote = w.remote ∧
      (smartImportLoop now ps inv w res).1.fetchFails = w.fetchFails ∧
      (smartImportLoop now ps inv w res).1.remoteWriteFails = w.remoteWriteFails ∧
      (smartImportLoop now ps inv w res).1.localFails = w.localFails := by
  induction inv with
  | nil => intro w res; exact ⟨rfl, rfl, rfl, rfl⟩
  | cons pr rest ih =>
      intro w res
      rcases pr with ⟨k, e⟩
      simp only [smartImportLoop]
      by_cases hk : k ∈ ps
      · rw [if_pos hk]; exact ih w res
      · rw [if_neg hk]
        by_cases hl : k ∈ w.localFails
        · rw [if_pos hl]; exact ih w _
        · rw [if_neg hl]
          exact ih _ _

theorem smartExportLoop_frame (now : Nat) (inv : List (String × EbayItem))
    (ps : List String) (items : List Item) :
    ∀ (w : World) (res : SmartResults),
      (smartExportLoop now inv ps items w res).1.fetchFails = w.fetchFails ∧
      (smartExportLoop now inv ps items w res).1.remoteWriteFails
        = w.remoteWriteFails ∧
      (smartExportLoop now inv ps items w res).1.localFails = w.localFails := by
  induction items with
  | nil => intro w res; exact ⟨rfl, rfl, rfl⟩
  | cons it rest ih =>
      intro w res
      simp only [smartExportLoop]
      by_cases hk : it.sku ∈ ps
      · rw [if_pos hk]; exact ih w res
      · rw [if_neg hk]
        rcases hob : (objGet inv it.sku).isSome with _ | _
        · simp only [Bool.false_eq_true, if_false]
          rcases hget : getItem w.store it.sku with _ | fi
          · simp only [hget]; exact ih w res
          · simp only [hget]
            by_cases hrm : it.sku ∈ w.remoteWriteFails
            · rw [if_pos hrm]; exact ih w _
            · rw [if_neg hrm]
              by_cases hlm : it.sku ∈ w.localFails
              · rw [if_pos hlm]; exact ih _ _
              · rw [if_neg hlm]; exact ih _ _
        · simp only [if_pos rfl]
          exact ih w res

theorem smartExportLoop_map_sku (now : Nat) (inv : List (String × EbayItem))
    (ps : List String) (items : List Item) :
    ∀ (w : World) (res : SmartResults),
      (smartExportLoop now inv ps items w res).1.store.map Item.sku
        = w.store.map Item.sku := by
  induction items with
  | nil => intro w res; rfl
  | cons it rest ih =>
      intro w res
      simp only [smartExportLoop]
      by_cases hk : it.sku ∈ ps
      · rw [if_pos hk]; exact ih w res
      · rw [if_neg hk]
        rcases hob : (objGet inv it.sku).isSome with _ | _
        · simp only [Bool.false_eq_true, if_false]
          rcases hget : getItem w.store it.sku with _ | fi
          · simp only [hget]; exact ih w res
          · simp only [hget]
            by_cases hrm : it.sku ∈ w.remoteWriteFails
            · rw [if_pos hrm]; exact ih w _
            · rw [if_neg hrm]
              by_cases hlm : it.sku ∈ w.localFails
              · rw [if_pos hlm]; exact ih _ _
              · rw [if_neg hlm]
                rw [ih _ _]
                apply updStore_map_sku
                intro x
                rfl
        · simp only [if_pos rfl]
          exact ih w res

theorem estab_aux (remote : List EbayItem) (k : String) (q : Int) (d : String)
    (now : Nat) (r : Item) (e : EbayItem) (store : List Item) :
    ∀ g, getItem (updStore store k (smartUpdate now r q e)) k = some g →
      ∃ e', remoteAt (syncUpsert remote k q d) k = some e' ∧
        e'.quantity = g.currentQty := by
  intro g hg
  rw [getItem_updStore_smartUpdate_key] at hg
  rcases hx : getItem store k with _ | x
  · rw [hx] at hg; cases hg
  · rw [hx] at hg
    simp only [Option.map_some'] at hg
    rw [Option.some.injEq] at hg
    obtain ⟨e', he', hq', -⟩ := remoteAt_syncUpsert_key remote k q d
    exact ⟨e', he', by rw [← hg]; exact hq'⟩

theorem mem_updStore_smartUpdate_ne {now : Nat} {fi : Item} {q : Int} {e : EbayItem}
    {store : List Item} {k : String} {x : Item}
    (hx : x ∈ updStore store k (smartUpdate now fi q e)) (hne : x.sku ≠ k) :
    x ∈ store :=
  mem_updStore_ne (f := smartUpdate now fi q e) (fun _ => rfl) hx hne

theorem smartPairBody_mem_ne (now : Nat) (k : String) (e : EbayItem) (fi : Item)
    (w : World) (res : SmartResults) {x : Item}
    (hx : x ∈ (smartPairBody now k e fi w res).1.store) (hne : x.sku ≠ k) :
    x ∈ w.store := by
  suffices H : ∀ pr, smartPairBody now k e fi w res = pr →
      ∀ x ∈ pr.1.store, x.sku ≠ k → x ∈ w.store from H _ rfl x hx hne
  intro pr hp
  simp only [smartPairBody, smartApplyPair] at hp
  repeat' split at hp
  all_goals rw [← hp]
  all_goals intro y hy hyne
  all_goals first
    | exact hy
    | exact mem_addHistory_ne hy hyne
    | exact mem_updStore_smartUpdate_ne hy hyne
    | exact mem_addHistory_ne (mem_updStore_smartUpdate_ne hy hyne) hyne

theorem smartPairBody_estab (now : Nat) (k : String) (e : EbayItem) (r : Item)
    (w : World) (res : SmartResults)
    (hrm : w.remoteWriteFails = []) (hlm : w.localFails = [])
    (hany : w.remote.any (fun e₀ => ebayKey e₀ = k) = true) :
    (smartPairBody now k e r w res).1.remote.map ebayKey = w.remote.map ebayKey ∧
    (∀ k', k' ≠ k → remoteAt (smartPairBody now k e r w res).1.remote k'
        = remoteAt w.remote k') ∧
    (∀ g, getItem (smartPairBody now k e r w res).1.store k = some g →
      ∃ e', remoteAt (smartPairBody now k e r w res).1.remote k = some e' ∧
        e'.quantity = g.currentQty) := by
  suffices H : ∀ pr, smartPairBody now k e r w res = pr →
      pr.1.remote.map ebayKey = w.remote.map ebayKey ∧
      (∀ k', k' ≠ k → remoteAt pr.1.remote k' = remoteAt w.remote k') ∧
      (∀ g, getItem pr.1.store k = some g →
        ∃ e', remoteAt pr.1.remote k = some e' ∧ e'.quantity = g.currentQty)
    from H _ rfl
  intro pr hp
  simp only [smartPairBody, smartApplyPair, hrm, hlm] at hp
  simp only [List.not_mem_nil, if_false, if_neg (fun h => h)] at hp
  split at hp
  · rw [← hp]
    refine ⟨syncUpsert_keys _ _ hany, ?_, ?_⟩
    · intro k' hk'
      exact remoteAt_syncUpsert_ne w.remote k _ r.description k' hk'
    · exact estab_aux w.remote k _ r.description now r e _
  · rw [← hp]
    refine ⟨syncUpsert_keys _ _ hany, ?_, ?_⟩
    · intro k' hk'
      exact remoteAt_syncUpsert_ne w.remote k _ r.description k' hk'
    · exact estab_aux w.remote k _ r.description now r e _

theorem smartPairLoop_estab (now : Nat) (localItems : List Item) :
    ∀ (inv : List (String × EbayItem)) (w : World) (ps : List String)
      (res : SmartResults),
      w.remoteWriteFails = [] → w.localFails = [] →
      (w.store.map Item.sku).Nodup →
      ((inv.map Prod.fst).Nodup) →
      (∀ p ∈ inv, p.1 ∈ w.remote.map ebayKey) →
      (∀ k', (localItems.find? (fun it => it.sku = k')).isSome = true ↔
        k' ∈ w.store.map Item.sku) →
      ((smartPairLoop now localItems inv w ps res).1.remote.map ebayKey
        = w.remote.map ebayKey) ∧
      (∀ k', k' ∉ (inv.filter (fun p =>
          (localItems.find? (fun it => it.sku = p.1)).isSome)).map Prod.fst →
        remoteAt (smartPairLoop now localItems inv w ps res).1.remote k'
          = remoteAt w.remote k' ∧
        getItem (smartPairLoop now localItems inv w ps res).1.store k'
          = getItem w.store k') ∧
      (∀ x ∈ (smartPairLoop now localItems inv w ps res).1.store,
        SyncedRec (smartPairLoop now localItems inv w ps res).1.remote x ∨
        (x ∈ w.store ∧ x.sku ∉ (inv.filter (fun p =>
          (localItems.find? (fun it => it.sku = p.1)).isSome)).map Prod.fst)) := by
  intro inv
  induction inv with
  | nil =>
      intro w ps res _ _ _ _ _ _
      exact ⟨rfl, fun k' _ => ⟨rfl, rfl⟩, fun x hx => Or.inr ⟨hx, by simp⟩⟩
  | cons pr rest ih =>
      intro w ps res hrm hlm hnd hndi hk hloc
      rcases pr with ⟨k, e⟩
      rcases hf : localItems.find? (fun it => it.sku = k) with _ | it₀
      · simp only [smartPairLoop, hf]
        have hfilter : (((k, e) :: rest).filter (fun p =>
            (localItems.find? (fun it => it.sku = p.1)).isSome)).map Prod.fst
            = (rest.filter (fun p =>
                (localItems.find? (fun it => it.sku = p.1)).isSome)).map Prod.fst := by
          simp [List.filter_cons, hf]
        rw [hfilter]
        exact ih w ps res hrm hlm hnd (by simpa using hndi.of_cons)
          (fun p hp => hk p (List.mem_cons_of_mem _ hp)) hloc
      · rcases hgetk : getItem w.store k with _ | fullItem
        · exfalso
          have hmem : k ∈ w.store.map Item.sku := (hloc k).mp (by rw [hf]; rfl)
          have hs := getItem_isSome_of_mem hmem
          rw [hgetk] at hs
          cases hs
        · simp only [smartPairLoop, hf, hgetk]
          have hany : w.remote.any (fun e₀ => ebayKey e₀ = k) = true := by
            have hkm := hk (k, e) (List.mem_cons_self _ _)
            rcases List.mem_map.mp hkm with ⟨e₀, he₀, hke₀⟩
            exact List.any_eq_true.mpr ⟨e₀, he₀, by simp [hke₀]⟩
          have hbody := smartPairBody_estab now k e fullItem w res hrm hlm hany
          have hbodyfails := smartPairBody_fails now k e fullItem w res
          have hbodysku := smartPairBody_map_sku now k e fullItem w res
          have hIH := ih (smartPairBody now k e fullItem w res).1 (ps ++ [k])
            (smartPairBody now k e fullItem w res).2
            (by rw [hbodyfails.1]; exact hrm)
            (by rw [hbodyfails.2]; exact hlm)
            (by rw [hbodysku]; exact hnd)
            (by simpa using hndi.of_cons)
            (fun p hp => by
              rw [hbody.1]
              exact hk p (List.mem_cons_of_mem _ hp))
            (fun k' => by rw [hbodysku]; exact hloc k')
          have hknotrest : k ∉ (rest.filter (fun p =>
              (localItems.find? (fun it => it.sku = p.1)).isSome)).map Prod.fst := by
            intro hmem
            rcases List.mem_map.mp hmem with ⟨p, hp, hpk⟩
            have hpr := List.mem_of_mem_filter hp
            have : k ∈ rest.map Prod.fst := List.mem_map.mpr ⟨p, hpr, hpk⟩
            have hndk := hndi
            rw [List.map_cons, List.nodup_cons] at hndk
            exact hndk.1 this
          have hfilter : (((k, e) :: rest).filter (fun p =>
              (localItems.find? (fun it => it.sku = p.1)).isSome)).map Prod.fst
              = k :: (rest.filter (fun p =>
                  (localItems.find? (fun it => it.sku = p.1)).isSome)).map Prod.fst := by
            simp [List.filter_cons, hf]
          refine ⟨hIH.1.trans hbody.1, ?_, ?_⟩
          · intro k' hk'
            rw [hfilter] at hk'
            have hne : k' ≠ k := fun h => hk' (h ▸ List.mem_cons_self _ _)
            have hnr : k' ∉ (rest.filter (fun p =>
                (localItems.find? (fun it => it.sku = p.1)).isSome)).map Prod.fst :=
              fun h => hk' (List.mem_cons_of_mem _ h)
            have hIH2 := hIH.2.1 k' hnr
            refine ⟨hIH2.1.trans (hbody.2.1 k' hne), hIH2.2.trans ?_⟩
            exact smartPairBody_getItem_ne now k e fullItem w res k' hne
          · intro x hx
            rcases hIH.2.2 x hx with hS | ⟨hxw', hxnr⟩
            · exact Or.inl hS
            · by_cases hxk : x.sku = k
              · -- x is the freshly processed record
                have hndb : ((smartPairBody now k e fullItem w res).1.store.map
                    Item.sku).Nodup := by rw [hbodysku]; exact hnd
                have hgx : getItem (smartPairBody now k e fullItem w res).1.store k
                    = some x := by
                  have h0 := getItem_self hndb hxw'
                  rw [hxk] at h0
                  exact h0
                have hSS := smartPairBody_smartSynced now k e fullItem w res hrm hlm
                  hgetk x hgx
                obtain ⟨e', he', hq'⟩ := hbody.2.2 x hgx
                have hrem : remoteAt (smartPairLoop now localItems rest
                    (smartPairBody now k e fullItem w res).1 (ps ++ [k])
                    (smartPairBody now k e fullItem w res).2).1.remote k
                    = some e' := by
                  rw [(hIH.2.1 k hknotrest).1]
                  exact he'
                refine Or.inl ?_
                obtain ⟨-, -, -, s, hs, hsq, hlsq, -, -, -, -⟩ := hSS
                refine ⟨?_, hlsq, e', by rw [hxk]; exact hrem, hq'⟩
                rw [hs]
                simp [hsq]
              · refine Or.inr ⟨smartPairBody_mem_ne now k e fullItem w res hxw' hxk, ?_⟩
                rw [hfilter]
                intro hmem
                rcases List.mem_cons.mp hmem with h₀ | h₀
                · exact hxk h₀
                · exact hxnr h₀

theorem smartImportLoop_mem (now : Nat) (ps : List String)
    (inv : List (String × EbayItem)) :
    ∀ (w : World) (res : SmartResults),
      ∀ r ∈ (smartImportLoop now ps inv w res).1.store,
        r ∈ w.store ∨ ∃ p ∈ inv, r = createLocalItemFromEbay now p.2 ∧ p.1 ∉ ps := by
  induction inv with
  | nil => intro w res r hr; exact Or.inl hr
  | cons pr rest ih =>
      intro w res r hr
      rcases pr with ⟨k, e⟩
      simp only [smartImportLoop] at hr
      by_cases hk : k ∈ ps
      · rw [if_pos hk] at hr
        rcases ih w res r hr with h | ⟨p, hp, h₁, h₂⟩
        · exact Or.inl h
        · exact Or.inr ⟨p, List.mem_cons_of_mem _ hp, h₁, h₂⟩
      · rw [if_neg hk] at hr
        by_cases hl : k ∈ w.localFails
        · rw [if_pos hl] at hr
          rcases ih w _ r hr with h | ⟨p, hp, h₁, h₂⟩
          · exact Or.inl h
          · exact Or.inr ⟨p, List.mem_cons_of_mem _ hp, h₁, h₂⟩
        · rw [if_neg hl] at hr
          rcases ih _ _ r hr with h | ⟨p, hp, h₁, h₂⟩
          · rcases List.mem_append.mp h with h₀ | h₀
            · exact Or.inl h₀
            · simp only [List.mem_singleton] at h₀
              exact Or.inr ⟨(k, e), List.mem_cons_self _ _, h₀, hk⟩
          · exact Or.inr ⟨p, List.mem_cons_of_mem _ hp, h₁, h₂⟩

theorem smartImportLoop_nodup (now : Nat) (ps : List String) :
    ∀ (inv : List (String × EbayItem)) (w : World) (res : SmartResults),
      (w.store.map Item.sku).Nodup →
      ((inv.map Prod.fst).Nodup) →
      (∀ p ∈ inv, p.1 = ebayKey p.2) →
      (∀ p ∈ inv, p.1 ∉ ps → p.1 ∉ w.store.map Item.sku) →
      ((smartImportLoop now ps inv w res).1.store.map Item.sku).Nodup := by
  intro inv
  induction inv with
  | nil => intro w res h _ _ _; exact h
  | cons pr rest ih =>
      intro w res hnd hndi hkey hout
      rcases pr with ⟨k, e⟩
      simp only [smartImportLoop]
      by_cases hk : k ∈ ps
      · rw [if_pos hk]
        exact ih w res hnd (by simpa using hndi.of_cons)
          (fun p hp => hkey p (List.mem_cons_of_mem _ hp))
          (fun p hp => hout p (List.mem_cons_of_mem _ hp))
      · rw [if_neg hk]
        by_cases hl : k ∈ w.localFails
        · rw [if_pos hl]
          exact ih w _ hnd (by simpa using hndi.of_cons)
            (fun p hp => hkey p (List.mem_cons_of_mem _ hp))
            (fun p hp => hout p (List.mem_cons_of_mem _ hp))
        · rw [if_neg hl]
          have hkk : (createLocalItemFromEbay now e).sku = k := by
            have h0 := hkey (k, e) (List.mem_cons_self _ _)
            simp only [createLocalItemFromEbay]
            exact h0.symm
          refine ih _ _ ?_ (by simpa using hndi.of_cons)
            (fun p hp => hkey p (List.mem_cons_of_mem _ hp)) ?_
          · simp only [List.map_append, List.map_singleton, hkk]
            rw [List.nodup_append]
            refine ⟨hnd, List.nodup_singleton _, ?_⟩
            intro a ha hb
            simp only [List.mem_singleton] at hb
            rw [hb] at ha
            exact hout (k, e) (List.mem_cons_self _ _) hk ha
          · intro p hp hpps
            simp only [List.map_append, List.map_singleton, hkk, List.mem_append,
              List.mem_singleton]
            rintro (h₀ | h₀)
            · exact hout p (List.mem_cons_of_mem _ hp) hpps h₀
            · have : k ∈ rest.map Prod.fst := h₀ ▸ List.mem_map_of_mem Prod.fst hp
              rw [List.map_cons, List.nodup_cons] at hndi
              exact hndi.1 this

theorem smartImportLoop_created (now : Nat) (ps : List String) :
    ∀ (inv : List (String × EbayItem)) (w : World) (res : SmartResults),
      w.localFails = [] →
      ((inv.map Prod.fst).Nodup) →
      (∀ p ∈ inv, p.1 = ebayKey p.2) →
      ∀ p ∈ inv, p.1 ∉ ps → getItem w.store p.1 = none →
        getItem (smartImportLoop now ps inv w res).1.store p.1
          = some (createLocalItemFromEbay now p.2) := by
  intro inv
  induction inv with
  | nil => intro w res _ _ _ p hp; cases hp
  | cons pr rest ih =>
      intro w res hlm hndi hkeys p hp hps hnone
      rcases pr with ⟨k, e⟩
      simp only [smartImportLoop, hlm]
      rcases List.mem_cons.mp hp with h₀ | h₀
      · subst h₀
        rw [if_neg hps, if_neg (List.not_mem_nil _)]
        refine smartImportLoop_getItem now ps rest _ _ k _ ?_
        rw [getItem_append, hnone]
        have hsku : (createLocalItemFromEbay now e).sku = k := by
          simp only [createLocalItemFromEbay]
          exact (hkeys (k, e) (List.mem_cons_self _ _)).symm
        simp [hsku]
      · have hne : p.1 ≠ k := by
          intro h
          have hm : p.1 ∈ rest.map Prod.fst := List.mem_map_of_mem Prod.fst h₀
          rw [h] at hm
          rw [List.map_cons, List.nodup_cons] at hndi
          exact hndi.1 hm
        by_cases hk : k ∈ ps
        · rw [if_pos hk]
          exact ih w res hlm (by simpa using hndi.of_cons)
            (fun q hq => hkeys q (List.mem_cons_of_mem _ hq)) p h₀ hps hnone
        · rw [if_neg hk, if_neg (List.not_mem_nil _)]
          refine ih ?_ ?_ ?_ ?_ ?_ p h₀ hps ?_
          · rfl
          · simpa using hndi.of_cons
          · exact fun q hq => hkeys q (List.mem_cons_of_mem _ hq)
          · rw [getItem_append, hnone]
            have hck : (createLocalItemFromEbay now e).sku = k := by
              simp only [createLocalItemFromEbay]
              exact (hkeys (k, e) (List.mem_cons_self _ _)).symm
            rw [hck]
            simp [hne.symm]

theorem remoteAt_isSome_any {remote : List EbayItem} {k : String} :
    (remoteAt remote k).isSome = true ↔
      remote.any (fun e => ebayKey e = k) = true := by
  rw [remoteAt, List.find?_isSome, List.any_eq_true]

theorem syncUpsert_of_none {remote : List EbayItem} {k : String} (q : Int)
    (d : String) (hnone : remoteAt remote k = none) :
    syncUpsert remote k q d = remote ++ [exportStub k q d] := by
  have hany : ¬ (remote.any (fun e => ebayKey e = k) = true) := by
    intro hany
    have h1 := remoteAt_isSome_any.mpr hany
    rw [hnone] at h1
    cases h1
  simp only [syncUpsert, exportStub]
  rw [if_neg hany]

theorem ebayKey_stub (k : String) (q : Int) (d : String) :
    ebayKey (exportStub k q d) = k := by
  by_cases hk : k = "" <;> simp [ebayKey, exportStub, hk]

theorem remoteAt_append_left {remote l : List EbayItem} {k : String}
    (h : (remoteAt remote k).isSome = true) :
    remoteAt (remote ++ l) k = remoteAt remote k := by
  rw [remoteAt, remoteAt, List.find?_append]
  rcases hf : remote.find? (fun e => decide (ebayKey e = k)) with _ | e
  · rw [remoteAt, hf] at h; cases h
  · rfl

theorem remoteAt_append_single_ne (remote : List EbayItem) (k' : String)
    (x : EbayItem) (hx : ebayKey x ≠ k') :
    remoteAt (remote ++ [x]) k' = remoteAt remote k' := by
  rw [remoteAt, remoteAt, List.find?_append]
  rcases hf : remote.find? (fun e => decide (ebayKey e = k')) with _ | e
  · simp [List.find?, hx]
  · rfl

theorem mem_updStore_pushSyncUpdate_ne {now : Nat} {fi : Item}
    {store : List Item} {k : String} {x : Item}
    (hx : x ∈ updStore store k (pushSyncUpdate now fi)) (hne : x.sku ≠ k) :
    x ∈ store :=
  mem_updStore_ne (f := pushSyncUpdate now fi) (fun _ => rfl) hx hne

theorem smartExportLoop_estab (now : Nat) (inv : List (String × EbayItem))
    (ps : List String) :
    ∀ (items : List Item) (w : World) (res : SmartResults),
      w.remoteWriteFails = [] → w.localFails = [] →
      (w.store.map Item.sku).Nodup →
      ((items.map Item.sku).Nodup) →
      (∀ it ∈ items, (objGet inv it.sku).isSome = false →
        remoteAt w.remote it.sku = none) →
      (∀ k, (remoteAt w.remote k).isSome = true →
        remoteAt (smartExportLoop now inv ps items w res).1.remote k
          = remoteAt w.remote k) ∧
      (∀ x ∈ (smartExportLoop now inv ps items w res).1.store,
        SyncedRec (smartExportLoop now inv ps items w res).1.remote x ∨
        (x ∈ w.store ∧ (x.sku ∈ ps ∨ (objGet inv x.sku).isSome = true ∨
          x.sku ∉ items.map Item.sku))) ∧
      ((w.remote.map ebayKey).Nodup →
        ((smartExportLoop now inv ps items w res).1.remote.map ebayKey).Nodup) ∧
      (∀ e ∈ (smartExportLoop now inv ps items w res).1.remote,
        ebayKey e ∈ w.remote.map ebayKey ∨ ebayKey e ∈ items.map Item.sku) := by
  intro items
  induction items with
  | nil =>
      intro w res _ _ _ _ _
      exact ⟨fun k _ => rfl, fun x hx => Or.inr ⟨hx, Or.inr (Or.inr (by simp))⟩,
        fun h => h, fun e he => Or.inl (List.mem_map_of_mem ebayKey he)⟩
  | cons it rest ih =>
      intro w res hrm hlm hnd hndit hout
      simp only [smartExportLoop]
      by_cases hk : it.sku ∈ ps
      · rw [if_pos hk]
        have hIH := ih w res hrm hlm hnd (by simpa using hndit.of_cons)
          (fun it' h' => hout it' (List.mem_cons_of_mem _ h'))
        refine ⟨hIH.1, ?_, hIH.2.2.1, ?_⟩
        · intro x hx
          rcases hIH.2.1 x hx with hS | ⟨hxw, hcond⟩
          · exact Or.inl hS
          · refine Or.inr ⟨hxw, ?_⟩
            rcases hcond with h₀ | h₀ | h₀
            · exact Or.inl h₀
            · exact Or.inr (Or.inl h₀)
            · by_cases hxk : x.sku = it.sku
              · exact Or.inl (hxk ▸ hk)
              · refine Or.inr (Or.inr ?_)
                simp only [List.map_cons, List.mem_cons]
                rintro (h₁ | h₁)
                · exact hxk h₁
                · exact h₀ h₁
        · intro e he
          rcases hIH.2.2.2 e he with h₀ | h₀
          · exact Or.inl h₀
          · exact Or.inr (by simp only [List.map_cons, List.mem_cons]; exact Or.inr h₀)
      · rw [if_neg hk]
        rcases hob : (objGet inv it.sku).isSome with _ | _
        · simp only [Bool.false_eq_true, if_false]
          have hremnone := hout it (List.mem_cons_self _ _) hob
          rcases hget : getItem w.store it.sku with _ | fi
          · simp only [hget]
            have hIH := ih w res hrm hlm hnd (by simpa using hndit.of_cons)
              (fun it' h' => hout it' (List.mem_cons_of_mem _ h'))
            refine ⟨hIH.1, ?_, hIH.2.2.1, ?_⟩
            · intro x hx
              rcases hIH.2.1 x hx with hS | ⟨hxw, hcond⟩
              · exact Or.inl hS
              · refine Or.inr ⟨hxw, ?_⟩
                rcases hcond with h₀ | h₀ | h₀
                · exact Or.inl h₀
                · exact Or.inr (Or.inl h₀)
                · by_cases hxk : x.sku = it.sku
                  · exfalso
                    have hm := getItem_isSome_of_mem
                      (hxk ▸ List.mem_map_of_mem Item.sku hxw)
                    rw [hget] at hm
                    cases hm
                  · refine Or.inr (Or.inr ?_)
                    simp only [List.map_cons, List.mem_cons]
                    rintro (h₁ | h₁)
                    · exact hxk h₁
                    · exact h₀ h₁
            · intro e he
              rcases hIH.2.2.2 e he with h₀ | h₀
              · exact Or.inl h₀
              · exact Or.inr (by simp only [List.map_cons, List.mem_cons]; exact Or.inr h₀)
          · simp only [hget]
            rw [if_neg (show it.sku ∉ w.remoteWriteFails from fun h => by
              rw [hrm] at h; exact List.not_mem_nil _ h)]
            rw [if_neg (show it.sku ∉ w.localFails from fun h => by
              rw [hlm] at h; exact List.not_mem_nil _ h)]
            rw [syncUpsert_of_none fi.currentQty fi.description hremnone]
            have hkentry : ebayKey (exportStub it.sku fi.currentQty fi.description)
                = it.sku := ebayKey_stub _ _ _
            have hskune : it.sku ∉ (w.remote.map ebayKey) := by
              rw [← remoteAt_eq_none_iff]
              exact hremnone
            have hndW : ((updStore w.store it.sku
                (pushSyncUpdate now fi)).map Item.sku).Nodup := by
              rw [updStore_map_sku (f := pushSyncUpdate now fi) (fun _ => rfl)]
              exact hnd
            have houtW : ∀ it' ∈ rest, (objGet inv it'.sku).isSome = false →
                remoteAt (w.remote ++ [exportStub it.sku fi.currentQty fi.description])
                  it'.sku = none := by
              intro it' h' hob'
              have hne : it'.sku ≠ it.sku := by
                intro h
                have hm : it'.sku ∈ rest.map Item.sku := List.mem_map_of_mem Item.sku h'
                rw [h] at hm
                rw [List.map_cons, List.nodup_cons] at hndit
                exact hndit.1 hm
              have hxne : ebayKey (exportStub it.sku fi.currentQty fi.description)
                  ≠ it'.sku := by
                rw [hkentry]
                exact fun h => hne h.symm
              rw [remoteAt_append_single_ne _ _ _ hxne]
              exact hout it' (List.mem_cons_of_mem _ h') hob'
            have hIH := ih { w with
                store := updStore w.store it.sku (pushSyncUpdate now fi),
                remote := w.remote ++ [exportStub it.sku fi.currentQty fi.description] }
              { res with exported := res.exported ++ [(it.sku, fi.description)] }
              hrm hlm hndW (by simpa using hndit.of_cons) houtW
            have hremW : remoteAt (w.remote ++ [exportStub it.sku fi.currentQty fi.description])
                it.sku = some (exportStub it.sku fi.currentQty fi.description) := by
              rw [remoteAt, List.find?_append]
              rw [remoteAt] at hremnone
              rw [hremnone]
              simp [List.find?, hkentry]
            refine ⟨?_, ?_, ?_, ?_⟩
            · intro k hks
              have hne : k ≠ it.sku := by
                intro h
                rw [h, hremnone] at hks
                cases hks
              have hstep : remoteAt (w.remote ++ [exportStub it.sku fi.currentQty fi.description])
                  k = remoteAt w.remote k :=
                remoteAt_append_single_ne _ _ _ (by rw [hkentry]; exact fun h => hne h.symm)
              rw [hIH.1 k (by rw [hstep]; exact hks), hstep]
            · intro x hx
              rcases hIH.2.1 x hx with hS | ⟨hxw, hcond⟩
              · exact Or.inl hS
              · by_cases hxk : x.sku = it.sku
                · refine Or.inl ?_
                  have hgx : getItem (updStore w.store it.sku
                      (pushSyncUpdate now fi)) it.sku = some x := by
                    have h0 := getItem_self hndW hxw
                    rw [hxk] at h0
                    exact h0
                  rw [getItem_updStore (f := pushSyncUpdate now fi) (fun _ => rfl),
                    if_pos rfl, hget] at hgx
                  simp only [Option.map_some'] at hgx
                  rw [Option.some.injEq] at hgx
                  have hisW : (remoteAt ({ w with
                      store := updStore w.store it.sku (pushSyncUpdate now fi),
                      remote := w.remote ++ [exportStub it.sku fi.currentQty
                        fi.description] } : World).remote it.sku).isSome = true := by
                    show (remoteAt (w.remote ++ [exportStub it.sku fi.currentQty
                      fi.description]) it.sku).isSome = true
                    rw [hremW]
                    rfl
                  have hrem2 := hIH.1 it.sku hisW
                  rw [← hgx]
                  refine ⟨rfl, rfl, exportStub it.sku fi.currentQty fi.description,
                    ?_, rfl⟩
                  have hsk0 : fi.sku = it.sku := getItem_sku hget
                  have hsk : (pushSyncUpdate now fi fi).sku = it.sku := hsk0
                  rw [hsk, hrem2]
                  exact hremW
                · refine Or.inr ⟨mem_updStore_pushSyncUpdate_ne hxw hxk, ?_⟩
                  rcases hcond with h₀ | h₀ | h₀
                  · exact Or.inl h₀
                  · exact Or.inr (Or.inl h₀)
                  · refine Or.inr (Or.inr ?_)
                    simp only [List.map_cons, List.mem_cons]
                    rintro (h₁ | h₁)
                    · exact hxk h₁
                    · exact h₀ h₁
            · intro hndR
              refine hIH.2.2.1 ?_
              rw [List.map_append]
              rw [List.nodup_append]
              refine ⟨hndR, by simp, ?_⟩
              intro a ha hb
              simp only [List.map_cons, List.map_nil, List.mem_singleton] at hb
              rw [hkentry] at hb
              rw [hb] at ha
              exact hskune ha
            · intro e he
              rcases hIH.2.2.2 e he with h₀ | h₀
              · rw [List.map_append] at h₀
                rcases List.mem_append.mp h₀ with h₁ | h₁
                · exact Or.inl h₁
                · simp only [List.map_cons, List.map_nil, List.mem_singleton] at h₁
                  rw [hkentry] at h₁
                  refine Or.inr ?_
                  simp only [List.map_cons]
                  exact List.mem_cons.mpr (Or.inl h₁)
              · refine Or.inr ?_
                simp only [List.map_cons]
                exact List.mem_cons.mpr (Or.inr h₀)
        · simp only [if_pos rfl]
          have hIH := ih w res hrm hlm hnd (by simpa using hndit.of_cons)
            (fun it' h' => hout it' (List.mem_cons_of_mem _ h'))
          refine ⟨hIH.1, ?_, hIH.2.2.1, ?_⟩
          · intro x hx
            rcases hIH.2.1 x hx with hS | ⟨hxw, hcond⟩
            · exact Or.inl hS
            · refine Or.inr ⟨hxw, ?_⟩
              rcases hcond with h₀ | h₀ | h₀
              · exact Or.inl h₀
              · exact Or.inr (Or.inl h₀)
              · by_cases hxk : x.sku = it.sku
                · exact Or.inr (Or.inl (hxk ▸ hob))
                · refine Or.inr (Or.inr ?_)
                  simp only [List.map_cons, List.mem_cons]
                  rintro (h₁ | h₁)
                  · exact hxk h₁
                  · exact h₀ h₁
          · intro e he
            rcases hIH.2.2.2 e he with h₀ | h₀
            · exact Or.inl h₀
            · exact Or.inr (by simp only [List.map_cons, List.mem_cons]; exact Or.inr h₀)

theorem smartSync_estab (now : Nat) (w : World)
    (hf : w.fetchFails = false) (hrm : w.remoteWriteFails = [])
    (hlm : w.localFails = []) (hndS : (w.store.map Item.sku).Nodup)
    (hndR : (w.remote.map ebayKey).Nodup) :
    Synced (smartSyncAll now w).1 ∧
    ((smartSyncAll now w).1.store.map Item.sku).Nodup ∧
    ((smartSyncAll now w).1.remote.map ebayKey).Nodup ∧
    (smartSyncAll now w).1.fetchFails = false ∧
    (smartSyncAll now w).1.remoteWriteFails = [] ∧
    (smartSyncAll now w).1.localFails = [] := by
  have hinv : smartInv w = buildEbayInventory w.remote := by
    simp [smartInv, hf]
  have hB1 : ∀ p ∈ smartInv w, p.1 = ebayKey p.2 ∧ p.2 ∈ w.remote := by
    rw [hinv]
    exact buildInv_pair w.remote (fun e he => ⟨rfl, he⟩)
  have hndi : ((smartInv w).map Prod.fst).Nodup := by
    rw [hinv]
    exact buildInv_keys_nodup w.remote
  have hkm : ∀ p ∈ smartInv w, p.1 ∈ w.remote.map ebayKey := by
    intro p hp
    rcases hB1 p hp with ⟨h1, h2⟩
    rw [h1]
    exact List.mem_map_of_mem ebayKey h2
  have hloc : ∀ k', (w.store.find? (fun it => it.sku = k')).isSome = true ↔
      k' ∈ w.store.map Item.sku := fun k' => find_sku_isSome_iff w.store k'
  have hPair := smartPairLoop_estab now w.store (smartInv w) w [] emptySmartResults
    hrm hlm hndS hndi hkm hloc
  have hQsku := smartPairLoop_map_sku now w.store (smartInv w) w [] emptySmartResults
  have hQflags := smartPairLoop_flags now w.store (smartInv w) w [] emptySmartResults
  have hps : (smartPairLoop now w.store (smartInv w) w [] emptySmartResults).2.1 = ((smartInv w).filter (fun p =>
      (w.store.find? (fun it => it.sku = p.1)).isSome)).map Prod.fst := by
    rw [smartPairLoop_ps]
    simp
  have hQ2frame := smartImportLoop_frame now (smartPairLoop now w.store (smartInv w) w [] emptySmartResults).2.1 (smartInv w) (smartPairLoop now w.store (smartInv w) w [] emptySmartResults).1 (smartPairLoop now w.store (smartInv w) w [] emptySmartResults).2.2
  have hout_imp : ∀ p ∈ smartInv w, p.1 ∉ (smartPairLoop now w.store (smartInv w) w [] emptySmartResults).2.1 →
      p.1 ∉ (smartPairLoop now w.store (smartInv w) w [] emptySmartResults).1.store.map Item.sku := by
    intro p hp hnps
    rw [hQsku]
    intro hmem
    apply hnps
    rw [hps]
    refine List.mem_map.mpr ⟨p, List.mem_filter.mpr ⟨hp, ?_⟩, rfl⟩
    exact (hloc p.1).mpr hmem
  have hQ2nd := smartImportLoop_nodup now (smartPairLoop now w.store (smartInv w) w [] emptySmartResults).2.1 (smartInv w) (smartPairLoop now w.store (smartInv w) w [] emptySmartResults).1 (smartPairLoop now w.store (smartInv w) w [] emptySmartResults).2.2
    (by rw [hQsku]; exact hndS) hndi (fun p hp => (hB1 p hp).1) hout_imp
  have hQ2mem := smartImportLoop_mem now (smartPairLoop now w.store (smartInv w) w [] emptySmartResults).2.1 (smartInv w) (smartPairLoop now w.store (smartInv w) w [] emptySmartResults).1 (smartPairLoop now w.store (smartInv w) w [] emptySmartResults).2.2
  have hQlm : (smartPairLoop now w.store (smartInv w) w [] emptySmartResults).1.localFails = [] := by rw [hQflags.2.2]; exact hlm
  have hcreated := smartImportLoop_created now (smartPairLoop now w.store (smartInv w) w [] emptySmartResults).2.1 (smartInv w) (smartPairLoop now w.store (smartInv w) w [] emptySmartResults).1 (smartPairLoop now w.store (smartInv w) w [] emptySmartResults).2.2
    hQlm hndi (fun p hp => (hB1 p hp).1)
  have hQ2rm : (smartImportLoop now (smartPairLoop now w.store (smartInv w) w [] emptySmartResults).2.1 (smartInv w) (smartPairLoop now w.store (smartInv w) w [] emptySmartResults).1 (smartPairLoop now w.store (smartInv w) w [] emptySmartResults).2.2).1.remoteWriteFails = [] := by
    rw [hQ2frame.2.2.1, hQflags.2.1]
    exact hrm
  have hQ2lm : (smartImportLoop now (smartPairLoop now w.store (smartInv w) w [] emptySmartResults).2.1 (smartInv w) (smartPairLoop now w.store (smartInv w) w [] emptySmartResults).1 (smartPairLoop now w.store (smartInv w) w [] emptySmartResults).2.2).1.localFails = [] := by
    rw [hQ2frame.2.2.2, hQflags.2.2]
    exact hlm
  have hQ2remkeys : (smartImportLoop now (smartPairLoop now w.store (smartInv w) w [] emptySmartResults).2.1 (smartInv w) (smartPairLoop now w.store (smartInv w) w [] emptySmartResults).1 (smartPairLoop now w.store (smartInv w) w [] emptySmartResults).2.2).1.remote.map ebayKey = w.remote.map ebayKey := by
    rw [hQ2frame.1]
    exact hPair.1
  have hout_exp : ∀ it ∈ w.store, (objGet (smartInv w) it.sku).isSome = false →
      remoteAt (smartImportLoop now (smartPairLoop now w.store (smartInv w) w [] emptySmartResults).2.1 (smartInv w) (smartPairLoop now w.store (smartInv w) w [] emptySmartResults).1 (smartPairLoop now w.store (smartInv w) w [] emptySmartResults).2.2).1.remote it.sku = none := by
    intro it hit hob
    rw [remoteAt_eq_none_iff, hQ2remkeys]
    intro hmem
    rcases List.mem_map.mp hmem with ⟨e₀, he₀, hke₀⟩
    have h1 := buildInv_key_mem w.remote e₀ he₀
    rw [← hinv, hke₀] at h1
    rcases List.mem_map.mp h1 with ⟨p, hp, hpk⟩
    have h2 : (objGet (smartInv w) it.sku).isSome := objGet_isSome_of_mem ⟨p, hp, hpk⟩
    rw [hob] at h2
    cases h2
  have hExp := smartExportLoop_estab now (smartInv w) (smartPairLoop now w.store (smartInv w) w [] emptySmartResults).2.1 w.store (smartImportLoop now (smartPairLoop now w.store (smartInv w) w [] emptySmartResults).2.1 (smartInv w) (smartPairLoop now w.store (smartInv w) w [] emptySmartResults).1 (smartPairLoop now w.store (smartInv w) w [] emptySmartResults).2.2).1 (smartImportLoop now (smartPairLoop now w.store (smartInv w) w [] emptySmartResults).2.1 (smartInv w) (smartPairLoop now w.store (smartInv w) w [] emptySmartResults).1 (smartPairLoop now w.store (smartInv w) w [] emptySmartResults).2.2).2
    hQ2rm hQ2lm hQ2nd hndS hout_exp
  have horig : ∀ k, k ∈ w.store.map Item.sku → k ∈ (smartImportLoop now (smartPairLoop now w.store (smartInv w) w [] emptySmartResults).2.1 (smartInv w) (smartPairLoop now w.store (smartInv w) w [] emptySmartResults).1 (smartPairLoop now w.store (smartInv w) w [] emptySmartResults).2.2).1.store.map Item.sku := by
    intro k hk
    have hmemQ : k ∈ (smartPairLoop now w.store (smartInv w) w [] emptySmartResults).1.store.map Item.sku := by rw [hQsku]; exact hk
    have hisoQ := getItem_isSome_of_mem hmemQ
    rcases hQg : getItem (smartPairLoop now w.store (smartInv w) w [] emptySmartResults).1.store k with _ | g
    · rw [hQg] at hisoQ; cases hisoQ
    · have hQ2g := smartImportLoop_getItem now (smartPairLoop now w.store (smartInv w) w [] emptySmartResults).2.1 (smartInv w) (smartPairLoop now w.store (smartInv w) w [] emptySmartResults).1 (smartPairLoop now w.store (smartInv w) w [] emptySmartResults).2.2 k g hQg
      exact List.mem_map.mpr ⟨g, List.mem_of_find?_eq_some hQ2g, getItem_sku hQ2g⟩
  have hE : smartSyncAll now w = (smartExportLoop now (smartInv w) (smartPairLoop now w.store (smartInv w) w [] emptySmartResults).2.1 w.store (smartImportLoop now (smartPairLoop now w.store (smartInv w) w [] emptySmartResults).2.1 (smartInv w) (smartPairLoop now w.store (smartInv w) w [] emptySmartResults).1 (smartPairLoop now w.store (smartInv w) w [] emptySmartResults).2.2).1 (smartImportLoop now (smartPairLoop now w.store (smartInv w) w [] emptySmartResults).2.1 (smartInv w) (smartPairLoop now w.store (smartInv w) w [] emptySmartResults).1 (smartPairLoop now w.store (smartInv w) w [] emptySmartResults).2.2).2) := rfl
  rw [hE]
  refine ⟨⟨?_, ?_⟩, ?_, ?_, ?_, ?_, ?_⟩
  · intro r hr
    rcases hExp.2.1 r hr with hS | ⟨hrQ2, hcond⟩
    · exact hS
    · rcases hQ2mem r hrQ2 with hrQ | ⟨p, hp, hrc, hpps⟩
      · rcases hPair.2.2 r hrQ with hSQ | ⟨hrw, hrnPK⟩
        · rcases hSQ with ⟨hs1, hs2, e', he', hq'⟩
          have he'2 : remoteAt (smartImportLoop now (smartPairLoop now w.store (smartInv w) w [] emptySmartResults).2.1 (smartInv w) (smartPairLoop now w.store (smartInv w) w [] emptySmartResults).1 (smartPairLoop now w.store (smartInv w) w [] emptySmartResults).2.2).1.remote r.sku = some e' := by
            rw [hQ2frame.1]
            exact he'
          have hiso : (remoteAt (smartImportLoop now (smartPairLoop now w.store (smartInv w) w [] emptySmartResults).2.1 (smartInv w) (smartPairLoop now w.store (smartInv w) w [] emptySmartResults).1 (smartPairLoop now w.store (smartInv w) w [] emptySmartResults).2.2).1.remote r.sku).isSome = true := by
            rw [he'2]
            rfl
          refine ⟨hs1, hs2, e', ?_, hq'⟩
          rw [hExp.1 r.sku hiso]
          exact he'2
        · exfalso
          rcases hcond with h₀ | h₀ | h₀
          · rw [hps] at h₀
            exact hrnPK h₀
          · have hkmem := objGet_isSome_key h₀
            rcases List.mem_map.mp hkmem with ⟨p, hp, hpk⟩
            apply hrnPK
            refine List.mem_map.mpr ⟨p, List.mem_filter.mpr ⟨hp, ?_⟩, hpk⟩
            refine (hloc p.1).mpr ?_
            rw [hpk]
            exact List.mem_map_of_mem Item.sku hrw
          · exact h₀ (List.mem_map_of_mem Item.sku hrw)
      · subst hrc
        have hksku : (createLocalItemFromEbay now p.2).sku = p.1 := by
          simp only [createLocalItemFromEbay]
          exact (hB1 p hp).1.symm
        have hpmem : p.2 ∈ w.remote := (hB1 p hp).2
        have hpkey : ebayKey p.2 = p.1 := (hB1 p hp).1.symm
        have hrAt : remoteAt w.remote p.1 = some p.2 := by
          have hiso : (remoteAt w.remote p.1).isSome = true := by
            rw [remoteAt_isSome_any]
            exact List.any_eq_true.mpr ⟨p.2, hpmem, by simp [hpkey]⟩
          rcases hfind : remoteAt w.remote p.1 with _ | e'
          · rw [hfind] at hiso; cases hiso
          · have he'mem : e' ∈ w.remote := List.mem_of_find?_eq_some hfind
            have he'key : ebayKey e' = p.1 := by
              have h0 := List.find?_some hfind
              simpa using h0
            have heq : e' = p.2 := List.inj_on_of_nodup_map hndR he'mem hpmem
              (he'key.trans hpkey.symm)
            rw [heq]
        rw [hps] at hpps
        have hQAt : remoteAt (smartPairLoop now w.store (smartInv w) w [] emptySmartResults).1.remote p.1 = remoteAt w.remote p.1 :=
          (hPair.2.1 p.1 hpps).1
        have hQ2At : remoteAt (smartImportLoop now (smartPairLoop now w.store (smartInv w) w [] emptySmartResults).2.1 (smartInv w) (smartPairLoop now w.store (smartInv w) w [] emptySmartResults).1 (smartPairLoop now w.store (smartInv w) w [] emptySmartResults).2.2).1.remote p.1 = some p.2 := by
          rw [hQ2frame.1, hQAt, hrAt]
        have hiso2 : (remoteAt (smartImportLoop now (smartPairLoop now w.store (smartInv w) w [] emptySmartResults).2.1 (smartInv w) (smartPairLoop now w.store (smartInv w) w [] emptySmartResults).1 (smartPairLoop now w.store (smartInv w) w [] emptySmartResults).2.2).1.remote p.1).isSome = true := by
          rw [hQ2At]
          rfl
        refine ⟨rfl, rfl, p.2, ?_, rfl⟩
        rw [hksku, hExp.1 p.1 hiso2]
        exact hQ2At
  · intro e he
    rcases hExp.2.2.2 e he with h₀ | h₀
    · rw [hQ2remkeys] at h₀
      rcases List.mem_map.mp h₀ with ⟨e₀, he₀, hke₀⟩
      have hinvk : ebayKey e ∈ (smartInv w).map Prod.fst := by
        have h1 := buildInv_key_mem w.remote e₀ he₀
        rw [← hinv, hke₀] at h1
        exact h1
      by_cases hks : ebayKey e ∈ w.store.map Item.sku
      · have hmemE : ebayKey e ∈ (smartExportLoop now (smartInv w) (smartPairLoop now w.store (smartInv w) w [] emptySmartResults).2.1 w.store (smartImportLoop now (smartPairLoop now w.store (smartInv w) w [] emptySmartResults).2.1 (smartInv w) (smartPairLoop now w.store (smartInv w) w [] emptySmartResults).1 (smartPairLoop now w.store (smartInv w) w [] emptySmartResults).2.2).1 (smartImportLoop now (smartPairLoop now w.store (smartInv w) w [] emptySmartResults).2.1 (smartInv w) (smartPairLoop now w.store (smartInv w) w [] emptySmartResults).1 (smartPairLoop now w.store (smartInv w) w [] emptySmartResults).2.2).2).1.store.map Item.sku := by
          rw [smartExportLoop_map_sku]
          exact horig _ hks
        rcases List.mem_map.mp hmemE with ⟨r, hrE, hrk⟩
        exact ⟨r, hrE, hrk⟩
      · rcases List.mem_map.mp hinvk with ⟨p, hp, hpk⟩
        have hnps : p.1 ∉ (smartPairLoop now w.store (smartInv w) w [] emptySmartResults).2.1 := by
          rw [hps]
          intro hmem
          rcases List.mem_map.mp hmem with ⟨q, hq, hqk⟩
          have hqf := (List.mem_filter.mp hq).2
          have h2 : q.1 ∈ w.store.map Item.sku := (hloc q.1).mp hqf
          rw [hqk, hpk] at h2
          exact hks h2
        have hnone : getItem (smartPairLoop now w.store (smartInv w) w [] emptySmartResults).1.store p.1 = none := by
          rcases hg : getItem (smartPairLoop now w.store (smartInv w) w [] emptySmartResults).1.store p.1 with _ | g
          · rfl
          · exfalso
            have hmem := List.mem_of_find?_eq_some hg
            have hsku := getItem_sku hg
            have h2 : p.1 ∈ (smartPairLoop now w.store (smartInv w) w [] emptySmartResults).1.store.map Item.sku :=
              List.mem_map.mpr ⟨g, hmem, hsku⟩
            rw [hQsku, hpk] at h2
            exact hks h2
        have hcre := hcreated p hp hnps hnone
        have hcmem := List.mem_of_find?_eq_some hcre
        have hcsku : (createLocalItemFromEbay now p.2).sku = p.1 := getItem_sku hcre
        have hmemE : ebayKey e ∈ (smartExportLoop now (smartInv w) (smartPairLoop now w.store (smartInv w) w [] emptySmartResults).2.1 w.store (smartImportLoop now (smartPairLoop now w.store (smartInv w) w [] emptySmartResults).2.1 (smartInv w) (smartPairLoop now w.store (smartInv w) w [] emptySmartResults).1 (smartPairLoop now w.store (smartInv w) w [] emptySmartResults).2.2).1 (smartImportLoop now (smartPairLoop now w.store (smartInv w) w [] emptySmartResults).2.1 (smartInv w) (smartPairLoop now w.store (smartInv w) w [] emptySmartResults).1 (smartPairLoop now w.store (smartInv w) w [] emptySmartResults).2.2).2).1.store.map Item.sku := by
          rw [smartExportLoop_map_sku]
          refine List.mem_map.mpr ⟨_, hcmem, ?_⟩
          rw [hcsku, hpk]
        rcases List.mem_map.mp hmemE with ⟨r, hrE, hrk⟩
        exact ⟨r, hrE, hrk⟩
    · have hmemE : ebayKey e ∈ (smartExportLoop now (smartInv w) (smartPairLoop now w.store (smartInv w) w [] emptySmartResults).2.1 w.store (smartImportLoop now (smartPairLoop now w.store (smartInv w) w [] emptySmartResults).2.1 (smartInv w) (smartPairLoop now w.store (smartInv w) w [] emptySmartResults).1 (smartPairLoop now w.store (smartInv w) w [] emptySmartResults).2.2).1 (smartImportLoop now (smartPairLoop now w.store (smartInv w) w [] emptySmartResults).2.1 (smartInv w) (smartPairLoop now w.store (smartInv w) w [] emptySmartResults).1 (smartPairLoop now w.store (smartInv w) w [] emptySmartResults).2.2).2).1.store.map Item.sku := by
        rw [smartExportLoop_map_sku]
        exact horig _ h₀
      rcases List.mem_map.mp hmemE with ⟨r, hrE, hrk⟩
      exact ⟨r, hrE, hrk⟩
  · rw [smartExportLoop_map_sku]
    exact hQ2nd
  · refine hExp.2.2.1 ?_
    rw [hQ2remkeys]
    exact hndR
  · rw [(smartExportLoop_frame now (smartInv w) (smartPairLoop now w.store (smartInv w) w [] emptySmartResults).2.1 w.store (smartImportLoop now (smartPairLoop now w.store (smartInv w) w [] emptySmartResults).2.1 (smartInv w) (smartPairLoop now w.store (smartInv w) w [] emptySmartResults).1 (smartPairLoop now w.store (smartInv w) w [] emptySmartResults).2.2).1 (smartImportLoop now (smartPairLoop now w.store (smartInv w) w [] emptySmartResults).2.1 (smartInv w) (smartPairLoop now w.store (smartInv w) w [] emptySmartResults).1 (smartPairLoop now w.store (smartInv w) w [] emptySmartResults).2.2).2).1,
      hQ2frame.2.1, hQflags.1]
    exact hf
  · rw [(smartExportLoop_frame now (smartInv w) (smartPairLoop now w.store (smartInv w) w [] emptySmartResults).2.1 w.store (smartImportLoop now (smartPairLoop now w.store (smartInv w) w [] emptySmartResults).2.1 (smartInv w) (smartPairLoop now w.store (smartInv w) w [] emptySmartResults).1 (smartPairLoop now w.store (smartInv w) w [] emptySmartResults).2.2).1 (smartImportLoop now (smartPairLoop now w.store (smartInv w) w [] emptySmartResults).2.1 (smartInv w) (smartPairLoop now w.store (smartInv w) w [] emptySmartResults).1 (smartPairLoop now w.store (smartInv w) w [] emptySmartResults).2.2).2).2.1,
      hQ2frame.2.2.1, hQflags.2.1]
    exact hrm
  · rw [(smartExportLoop_frame now (smartInv w) (smartPairLoop now w.store (smartInv w) w [] emptySmartResults).2.1 w.store (smartImportLoop now (smartPairLoop now w.store (smartInv w) w [] emptySmartResults).2.1 (smartInv w) (smartPairLoop now w.store (smartInv w) w [] emptySmartResults).1 (smartPairLoop now w.store (smartInv w) w [] emptySmartResults).2.2).1 (smartImportLoop now (smartPairLoop now w.store (smartInv w) w [] emptySmartResults).2.1 (smartInv w) (smartPairLoop now w.store (smartInv w) w [] emptySmartResults).1 (smartPairLoop now w.store (smartInv w) w [] emptySmartResults).2.2).2).2.2,
      hQ2frame.2.2.2, hQflags.2.2]
    exact hlm

theorem smartPairBody_noop (now : Nat) (k : String) (e : EbayItem) (r : Item)
    (w : World) (res : SmartResults)
    (hrm : w.remoteWriteFails = []) (hlm : w.localFails = [])
    (hsnap : (r.ebaySync.bind EbaySyncInfo.snapshot).map Snapshot.quantity
      = some r.currentQty)
    (hq : r.currentQty = e.quantity) :
    smartPairBody now k e r w res
      = ({ w with
            store := updStore w.store k (smartUpdate now r r.currentQty e),
            remote := syncUpsert w.remote k r.currentQty r.description },
         { res with updated := res.updated ++ [(k, r.currentQty, 0)] }) := by
  rcases hs : r.ebaySync.bind EbaySyncInfo.snapshot with _ | s
  · rw [hs] at hsnap; cases hsnap
  · rw [hs] at hsnap
    simp only [Option.map_some', Option.some.injEq] at hsnap
    have hlt : ¬ (e.quantity < s.quantity) := by omega
    simp only [smartPairBody, hs, smartApplyPair]
    rw [if_neg hlt]
    rw [if_neg (show k ∉ w.remoteWriteFails from fun h => by
      rw [hrm] at h; exact List.not_mem_nil _ h)]
    rw [if_neg (show k ∉ w.localFails from fun h => by
      rw [hlm] at h; exact List.not_mem_nil _ h)]

theorem smartPairLoop_noop (now : Nat) (localItems : List Item) :
    ∀ (inv : List (String × EbayItem)) (w : World) (ps : List String)
      (res : SmartResults),
      w.remoteWriteFails = [] → w.localFails = [] →
      (w.store.map Item.sku).Nodup →
      ((inv.map Prod.fst).Nodup) →
      (∀ p ∈ inv, ∀ r, getItem w.store p.1 = some r →
        r.currentQty = p.2.quantity ∧
        (r.ebaySync.bind EbaySyncInfo.snapshot).map Snapshot.quantity
          = some r.currentQty ∧
        r.lastSyncedQty = some r.currentQty) →
      (∀ p ∈ inv, w.remote.any (fun e₀ => ebayKey e₀ = p.1) = true) →
      (∀ p ∈ inv, ∀ e₀ ∈ w.remote, ebayKey e₀ = p.1 → e₀.quantity = p.2.quantity) →
      ((smartPairLoop now localItems inv w ps res).2.2.sales = res.sales ∧
       (smartPairLoop now localItems inv w ps res).2.2.imported = res.imported ∧
       (smartPairLoop now localItems inv w ps res).2.2.exported = res.exported ∧
       (smartPairLoop now localItems inv w ps res).2.2.errors = res.errors) ∧
      (smartPairLoop now localItems inv w ps res).1.store.map itemObs
        = w.store.map itemObs ∧
      (smartPairLoop now localItems inv w ps res).1.remote.map remoteObs
        = w.remote.map remoteObs := by
  intro inv
  induction inv with
  | nil =>
      intro w ps res _ _ _ _ _ _ _
      exact ⟨⟨rfl, rfl, rfl, rfl⟩, rfl, rfl⟩
  | cons pr rest ih =>
      intro w ps res hrm hlm hnd hndi hrel hany hqty
      rcases pr with ⟨k, e⟩
      rcases hf : localItems.find? (fun it => it.sku = k) with _ | it₀
      · simp only [smartPairLoop, hf]
        exact ih w ps res hrm hlm hnd (by simpa using hndi.of_cons)
          (fun p hp => hrel p (List.mem_cons_of_mem _ hp))
          (fun p hp => hany p (List.mem_cons_of_mem _ hp))
          (fun p hp => hqty p (List.mem_cons_of_mem _ hp))
      · rcases hgetk : getItem w.store k with _ | r
        · simp only [smartPairLoop, hf, hgetk]
          exact ih w _ res hrm hlm hnd (by simpa using hndi.of_cons)
            (fun p hp => hrel p (List.mem_cons_of_mem _ hp))
            (fun p hp => hany p (List.mem_cons_of_mem _ hp))
            (fun p hp => hqty p (List.mem_cons_of_mem _ hp))
        · simp only [smartPairLoop, hf, hgetk]
          rcases hrel (k, e) (List.mem_cons_self _ _) r hgetk with ⟨hq, hsnap, hlsq⟩
          rw [smartPairBody_noop now k e r w res hrm hlm hsnap hq]
          have hanyk := hany (k, e) (List.mem_cons_self _ _)
          have hqk : ∀ e₀ ∈ w.remote, ebayKey e₀ = k → e₀.quantity = r.currentQty := by
            intro e₀ he₀ hke₀
            rw [hq]
            exact hqty (k, e) (List.mem_cons_self _ _) e₀ he₀ hke₀
          have hobs : (syncUpsert w.remote k r.currentQty r.description).map remoteObs
              = w.remote.map remoteObs := syncUpsert_obs r.description hanyk hqk
          have hkne : ∀ p ∈ rest, p.1 ≠ k := by
            intro p hp h
            have hm : p.1 ∈ rest.map Prod.fst := List.mem_map_of_mem Prod.fst hp
            rw [h] at hm
            rw [List.map_cons, List.nodup_cons] at hndi
            exact hndi.1 hm
          have hIH := ih { w with
              store := updStore w.store k (smartUpdate now r r.currentQty e),
              remote := syncUpsert w.remote k r.currentQty r.description }
            (ps ++ [k]) { res with updated := res.updated ++ [(k, r.currentQty, 0)] }
            hrm hlm
            (by
              show ((updStore w.store k (smartUpdate now r r.currentQty e)).map
                Item.sku).Nodup
              rw [updStore_map_sku (f := smartUpdate now r r.currentQty e)
                (fun _ => rfl)]
              exact hnd)
            (by simpa using hndi.of_cons)
            (fun p hp r' hr' => by
              rw [show getItem (updStore w.store k (smartUpdate now r r.currentQty e))
                  p.1 = getItem w.store p.1 from
                getItem_updStore_smartUpdate_ne now r r.currentQty e w.store k p.1
                  (hkne p hp)] at hr'
              exact hrel p (List.mem_cons_of_mem _ hp) r' hr')
            (fun p hp => by
              have h1 := any_eq_of_map_eq hobs (fun pr => pr.1 = p.1)
              have h2 : (syncUpsert w.remote k r.currentQty r.description).any
                  (fun e₀ => ebayKey e₀ = p.1)
                  = w.remote.any (fun e₀ => ebayKey e₀ = p.1) := h1
              show (syncUpsert w.remote k r.currentQty r.description).any
                (fun e₀ => ebayKey e₀ = p.1) = true
              rw [h2]
              exact hany p (List.mem_cons_of_mem _ hp))
            (fun p hp => quantity_of_remoteObs_eq hobs p.1 p.2.quantity
              (hqty p (List.mem_cons_of_mem _ hp)))
          refine ⟨⟨hIH.1.1, hIH.1.2.1, hIH.1.2.2.1, hIH.1.2.2.2⟩, ?_, ?_⟩
          · rw [hIH.2.1]
            show (updStore w.store k (smartUpdate now r r.currentQty e)).map itemObs
              = w.store.map itemObs
            refine map_obs_updStore itemObs hnd hgetk ?_
            simp only [itemObs, smartUpdate]
            rw [hlsq]
          · rw [hIH.2.2]
            exact hobs

theorem smartImportLoop_id (now : Nat) (ps : List String) :
    ∀ (inv : List (String × EbayItem)) (w : World) (res : SmartResults),
      (∀ p ∈ inv, p.1 ∈ ps) →
      smartImportLoop now ps inv w res = (w, res) := by
  intro inv
  induction inv with
  | nil => intro w res _; rfl
  | cons pr rest ih =>
      intro w res h
      rcases pr with ⟨k, e⟩
      simp only [smartImportLoop]
      rw [if_pos (h (k, e) (List.mem_cons_self _ _))]
      exact ih w res (fun p hp => h p (List.mem_cons_of_mem _ hp))

theorem smartExportLoop_id (now : Nat) (inv : List (String × EbayItem))
    (ps : List String) :
    ∀ (items : List Item) (w : World) (res : SmartResults),
      (∀ it ∈ items, (objGet inv it.sku).isSome = true) →
      smartExportLoop now inv ps items w res = (w, res) := by
  intro items
  induction items with
  | nil => intro w res _; rfl
  | cons it rest ih =>
      intro w res h
      simp only [smartExportLoop]
      by_cases hk : it.sku ∈ ps
      · rw [if_pos hk]
        exact ih w res (fun x hx => h x (List.mem_cons_of_mem _ hx))
      · rw [if_neg hk, if_pos (h it (List.mem_cons_self _ _))]
        exact ih w res (fun x hx => h x (List.mem_cons_of_mem _ hx))

theorem smartSync_noop (now : Nat) (w : World)
    (hf : w.fetchFails = false) (hrm : w.remoteWriteFails = [])
    (hlm : w.localFails = []) (hndS : (w.store.map Item.sku).Nodup)
    (hndR : (w.remote.map ebayKey).Nodup) (hsyn : Synced w) :
    (smartSyncAll now w).2.sales = [] ∧
    (smartSyncAll now w).2.imported = [] ∧
    (smartSyncAll now w).2.exported = [] ∧
    (smartSyncAll now w).2.errors = [] ∧
    (smartSyncAll now w).1.store.map itemObs = w.store.map itemObs ∧
    (smartSyncAll now w).1.remote.map remoteObs = w.remote.map remoteObs := by
  have hinv : smartInv w = buildEbayInventory w.remote := by
    simp [smartInv, hf]
  have hB1 : ∀ p ∈ smartInv w, p.1 = ebayKey p.2 ∧ p.2 ∈ w.remote := by
    rw [hinv]
    exact buildInv_pair w.remote (fun e he => ⟨rfl, he⟩)
  have hndi : ((smartInv w).map Prod.fst).Nodup := by
    rw [hinv]
    exact buildInv_keys_nodup w.remote
  have hfind : ∀ p ∈ smartInv w,
      (w.store.find? (fun it => it.sku = p.1)).isSome = true := by
    intro p hp
    rcases hB1 p hp with ⟨h1, h2⟩
    rcases hsyn.2 p.2 h2 with ⟨r, hr, hrk⟩
    rw [List.find?_isSome]
    exact ⟨r, hr, by simp [hrk, h1]⟩
  have hrel : ∀ p ∈ smartInv w, ∀ r, getItem w.store p.1 = some r →
      r.currentQty = p.2.quantity ∧
      (r.ebaySync.bind EbaySyncInfo.snapshot).map Snapshot.quantity
        = some r.currentQty ∧
      r.lastSyncedQty = some r.currentQty := by
    intro p hp r hr
    rcases hB1 p hp with ⟨h1, h2⟩
    have hrmem : r ∈ w.store := List.mem_of_find?_eq_some hr
    have hrsku : r.sku = p.1 := getItem_sku hr
    rcases hsyn.1 r hrmem with ⟨hsnap, hlsq, e', he', hq'⟩
    have he'mem : e' ∈ w.remote := List.mem_of_find?_eq_some he'
    have he'key : ebayKey e' = r.sku := by
      have h0 := List.find?_some he'
      simpa using h0
    have heq : e' = p.2 := List.inj_on_of_nodup_map hndR he'mem h2
      (by rw [he'key, hrsku, h1])
    refine ⟨?_, hsnap, hlsq⟩
    rw [← hq', heq]
  have hany : ∀ p ∈ smartInv w,
      w.remote.any (fun e₀ => ebayKey e₀ = p.1) = true := by
    intro p hp
    rcases hB1 p hp with ⟨h1, h2⟩
    exact List.any_eq_true.mpr ⟨p.2, h2, by simp [h1.symm]⟩
  have hqty : ∀ p ∈ smartInv w, ∀ e₀ ∈ w.remote, ebayKey e₀ = p.1 →
      e₀.quantity = p.2.quantity := by
    intro p hp e₀ he₀ hke₀
    rcases hB1 p hp with ⟨h1, h2⟩
    have heq : e₀ = p.2 := List.inj_on_of_nodup_map hndR he₀ h2
      (by rw [hke₀, h1])
    rw [heq]
  have hNoop := smartPairLoop_noop now w.store (smartInv w) w [] emptySmartResults
    hrm hlm hndS hndi hrel hany hqty
  have hpsall : ∀ p ∈ smartInv w, p.1 ∈ (smartPairLoop now w.store (smartInv w) w [] emptySmartResults).2.1 := by
    intro p hp
    rw [smartPairLoop_ps]
    simp only [List.nil_append]
    exact List.mem_map.mpr ⟨p, List.mem_filter.mpr ⟨hp, hfind p hp⟩, rfl⟩
  have himp : smartImportLoop now (smartPairLoop now w.store (smartInv w) w [] emptySmartResults).2.1 (smartInv w) (smartPairLoop now w.store (smartInv w) w [] emptySmartResults).1 (smartPairLoop now w.store (smartInv w) w [] emptySmartResults).2.2
      = ((smartPairLoop now w.store (smartInv w) w [] emptySmartResults).1, (smartPairLoop now w.store (smartInv w) w [] emptySmartResults).2.2) :=
    smartImportLoop_id now (smartPairLoop now w.store (smartInv w) w [] emptySmartResults).2.1 (smartInv w) (smartPairLoop now w.store (smartInv w) w [] emptySmartResults).1 (smartPairLoop now w.store (smartInv w) w [] emptySmartResults).2.2 hpsall
  have hexpobj : ∀ it ∈ w.store, (objGet (smartInv w) it.sku).isSome = true := by
    intro it hit
    rcases hsyn.1 it hit with ⟨-, -, e', he', -⟩
    have he'mem : e' ∈ w.remote := List.mem_of_find?_eq_some he'
    have he'key : ebayKey e' = it.sku := by
      have h0 := List.find?_some he'
      simpa using h0
    have h1 := buildInv_key_mem w.remote e' he'mem
    rw [← hinv, he'key] at h1
    rcases List.mem_map.mp h1 with ⟨q, hq, hqk⟩
    exact objGet_isSome_of_mem ⟨q, hq, hqk⟩
  have hexp : smartExportLoop now (smartInv w) (smartPairLoop now w.store (smartInv w) w [] emptySmartResults).2.1 w.store (smartPairLoop now w.store (smartInv w) w [] emptySmartResults).1 (smartPairLoop now w.store (smartInv w) w [] emptySmartResults).2.2
      = ((smartPairLoop now w.store (smartInv w) w [] emptySmartResults).1, (smartPairLoop now w.store (smartInv w) w [] emptySmartResults).2.2) :=
    smartExportLoop_id now (smartInv w) (smartPairLoop now w.store (smartInv w) w [] emptySmartResults).2.1 w.store (smartPairLoop now w.store (smartInv w) w [] emptySmartResults).1 (smartPairLoop now w.store (smartInv w) w [] emptySmartResults).2.2 hexpobj
  have hE : smartSyncAll now w
      = smartExportLoop now (smartInv w) (smartPairLoop now w.store (smartInv w) w [] emptySmartResults).2.1 w.store (smartImportLoop now (smartPairLoop now w.store (smartInv w) w [] emptySmartResults).2.1 (smartInv w) (smartPairLoop now w.store (smartInv w) w [] emptySmartResults).1 (smartPairLoop now w.store (smartInv w) w [] emptySmartResults).2.2).1 (smartImportLoop now (smartPairLoop now w.store (smartInv w) w [] emptySmartResults).2.1 (smartInv w) (smartPairLoop now w.store (smartInv w) w [] emptySmartResults).1 (smartPairLoop now w.store (smartInv w) w [] emptySmartResults).2.2).2 := rfl
  rw [hE, himp, hexp]
  exact ⟨hNoop.1.1, hNoop.1.2.1, hNoop.1.2.2.1, hNoop.1.2.2.2,
    hNoop.2.1, hNoop.2.2⟩

/-- C5 (counterexample). Spec: on the second of two back-to-back smart
syncs all items end up in "skipped"/no-op with no effective state change.
`smartSyncAll` has no skipped outcome: on the second run the paired item
is pushed and updated again — it reappears in `updated` and its
`lastModified` timestamp moves from the first run's clock (9) to the
second run's clock (12). -/
theorem C5_cx :
    (smartSyncAll 12 (smartSyncAll 9 cxC8Good).1).2.sales = [] ∧
    (smartSyncAll 12 (smartSyncAll 9 cxC8Good).1).2.updated.map
      (fun u => u.1) = ["A"] ∧
    (smartSyncAll 9 cxC8Good).1.store.map Item.lastModified = [9] ∧
    (smartSyncAll 12 (smartSyncAll 9 cxC8Good).1).1.store.map
      Item.lastModified = [12] := by
  refine ⟨by decide, by decide, by decide, by decide⟩

/-- C5 (amended): a clean smart sync (fetch succeeds, no per-item failure
injections, distinct local SKUs and distinct remote keys) leaves the world
synced, so an immediately repeated smart sync detects no sale, imports
nothing and exports nothing (`sales`/`imported`/`exported`/`errors` all
empty), and every item is an observable no-op: the second run preserves
each record's sku, quantity, lastSyncedQty, price, description, condition
and history, and every remote listing's key and quantity — it only
re-pushes the same values and refreshes the `lastSyncTime`/`lastModified`
timestamps, and the paired items are re-listed in `updated` (there is no
"skipped" outcome in smart sync). -/
theorem C5_thm (n₁ n₂ : Nat) (w : World)
    (hf : w.fetchFails = false) (hrm : w.remoteWriteFails = [])
    (hlm : w.localFails = []) (hndS : (w.store.map Item.sku).Nodup)
    (hndR : (w.remote.map ebayKey).Nodup) :
    (smartSyncAll n₂ (smartSyncAll n₁ w).1).2.sales = [] ∧
    (smartSyncAll n₂ (smartSyncAll n₁ w).1).2.imported = [] ∧
    (smartSyncAll n₂ (smartSyncAll n₁ w).1).2.exported = [] ∧
    (smartSyncAll n₂ (smartSyncAll n₁ w).1).2.errors = [] ∧
    (smartSyncAll n₂ (smartSyncAll n₁ w).1).1.store.map itemObs
      = (smartSyncAll n₁ w).1.store.map itemObs ∧
    (smartSyncAll n₂ (smartSyncAll n₁ w).1).1.remote.map remoteObs
      = (smartSyncAll n₁ w).1.remote.map remoteObs := by
  have hE := smartSync_estab n₁ w hf hrm hlm hndS hndR
  exact smartSync_noop n₂ (smartSyncAll n₁ w).1 hE.2.2.2.1 hE.2.2.2.2.1
    hE.2.2.2.2.2 hE.2.1 hE.2.2.1 hE.1

theorem C5_thm_witness :
    cxC8Good.fetchFails = false ∧ cxC8Good.remoteWriteFails = [] ∧
    cxC8Good.localFails = [] ∧ (cxC8Good.store.map Item.sku).Nodup ∧
    (cxC8Good.remote.map ebayKey).Nodup ∧
    ((smartSyncAll 12 (smartSyncAll 9 cxC8Good).1).2.sales = [] ∧
     (smartSyncAll 12 (smartSyncAll 9 cxC8Good).1).2.imported = [] ∧
     (smartSyncAll 12 (smartSyncAll 9 cxC8Good).1).2.exported = [] ∧
     (smartSyncAll 12 (smartSyncAll 9 cxC8Good).1).2.errors = [] ∧
     (smartSyncAll 12 (smartSyncAll 9 cxC8Good).1).1.store.map itemObs
       = (smartSyncAll 9 cxC8Good).1.store.map itemObs ∧
     (smartSyncAll 12 (smartSyncAll 9 cxC8Good).1).1.remote.map remoteObs
       = (smartSyncAll 9 cxC8Good).1.remote.map remoteObs) :=
  ⟨rfl, rfl, rfl, by decide, by decide,
   C5_thm 9 12 cxC8Good rfl rfl rfl (by decide) (by decide)⟩

end Wearhouse
